import Mathlib

/-!
Verification model of the publishing pipeline of `cdn.masiarek.dev`
(`sync-external.mjs` — the variant with the sync report and exit strategy —
together with `update-index.mjs`).

The JavaScript source is embedded shallowly:

* the on-disk `public/` tree is a functional state (association lists keyed
  by directory / file names);
* file contents are byte lists (`List Nat`); the JSON serialization of a
  version manifest written by `writeJson` is kept symbolic as a dedicated
  content constructor (a pretty-printed manifest JSON is never byte-identical
  to a published artifact such as a one-byte file, which is the only fact the
  development uses about it);
* the sha384 digest (`crypto.createHash("sha384")`, wrapped in
  `sriSha384`) is an external primitive and is modelled as an explicit
  function parameter `hash : List Nat → String`; theorems hold for every
  digest function;
* network responses (GitHub API JSON, downloaded bytes) are inputs to the
  step functions, and the download/build pipeline of `publishFromRelease`
  (curl, unzip, npm) is modelled as a per-release materialization function
  supplied as data;
* the npm `semver` library calls used by the source (`coerce`, `valid`,
  `prerelease`, `major`, `minor`, `rcompare`) are modelled from their
  documented semantics (`semver.coerce` with default options scans for the
  first `major(.minor(.patch)?)?` digit group, zero-fills the missing parts
  and drops any prerelease/build suffix; the 16-digit component bound of the
  library's regex is not modelled);
* JavaScript truthiness of optional strings (`x || y`) is modelled by
  `strTruthy` / `jsOrS` (`""`, `null` and `undefined` are falsy).
-/

namespace CdnSync

/-- JS truthiness for an optional string value: `null`/`undefined`/`""` are falsy. -/
def strTruthy : Option String → Bool
  | some s => s ≠ ""
  | none => false

/-- JS `a || b` on optional strings. -/
def jsOrS (a b : Option String) : Option String := if strTruthy a then a else b

/-- JS `a || b` where both sides are optional non-string values (objects):
any present value is truthy. -/
def jsOrO {α : Type} (a b : Option α) : Option α := if a.isSome then a else b

/-- Model of `stripV` applied to a `String`: `String(tag).replace(/^v/i, "")`
removes one leading `v` or `V`. -/
def dropV (s : String) : String :=
  match s.data with
  | [] => s
  | c :: rest => if c = 'v' ∨ c = 'V' then String.mk rest else s

/-- `stripV(tag)` from the source: `String(tag || "")` then drop a leading `v`/`V`. -/
def stripV (tag : Option String) : String := dropV ((jsOrS tag (some "")).getD "")

/-- `detectChannelFromVersion(v)`: `v.includes("-") ? "beta" : "stable"`
(a one-character `includes` is character membership). -/
def detectChannelFromVersion (v : String) : String :=
  if v.data.contains '-' then "beta" else "stable"

/-- `sha12(sha)`: `String(sha || "").slice(0, 12)`. -/
def sha12 (sha : Option String) : String :=
  String.mk (((jsOrS sha (some "")).getD "").data.take 12)

/-- Model of Node's `path.basename` for the slash-separated names the pipeline
produces: the suffix after the last `/`. -/
def basename (p : String) : String :=
  String.mk ((p.data.reverse.takeWhile (fun c => c ≠ '/')).reverse)

/-! ### The npm `semver` library model -/

/-- Split a leading run of decimal digits off a character list. -/
def takeDigitsRun : List Char → List Char × List Char
  | [] => ([], [])
  | c :: rest =>
    if c.isDigit then
      let p := takeDigitsRun rest
      (c :: p.1, p.2)
    else ([], c :: rest)

/-- Numeric value of a digit run. -/
def natOfDigits (ds : List Char) : Nat := ds.foldl (fun n c => n * 10 + (c.toNat - 48)) 0

/-- Result of `semver.coerce`: a bare `major.minor.patch` triple (the coerced
canonical string never has a prerelease or build part, so
`semver.valid(coerced)` is always true and `semver.prerelease(coerced)` is
always `null` on it). -/
structure Coerced where
  major : Nat
  minor : Nat
  patch : Nat
deriving DecidableEq

/-- Coercion once the scan found a position starting with a digit: read
`major`, then `.minor` and `.patch` when the dot is immediately followed by
digits, zero-filling the missing parts; trailing text is ignored. -/
def coerceFrom (cs : List Char) : Coerced :=
  let p1 := takeDigitsRun cs
  let major := natOfDigits p1.1
  if p1.2.head? = some '.' then
    let p2 := takeDigitsRun p1.2.tail
    if p2.1.isEmpty then ⟨major, 0, 0⟩
    else
      let minor := natOfDigits p2.1
      if p2.2.head? = some '.' then
        let p3 := takeDigitsRun p2.2.tail
        if p3.1.isEmpty then ⟨major, minor, 0⟩ else ⟨major, minor, natOfDigits p3.1⟩
      else ⟨major, minor, 0⟩
  else ⟨major, 0, 0⟩

/-- Suffix of the list starting at the first decimal digit, if any. -/
def firstDigitSuffix : List Char → Option (List Char)
  | [] => none
  | c :: rest => if c.isDigit then some (c :: rest) else firstDigitSuffix rest

/-- Model of `semver.coerce(s)` (default options): `none` when `s` holds no
digit at all, otherwise the first `major(.minor(.patch)?)?` group. -/
def semverCoerce (s : String) : Option Coerced := (firstDigitSuffix s.data).map coerceFrom

/-- Numeric components may not have a leading zero (strict semver grammar). -/
def noLeadZeros (ds : List Char) : Bool :=
  match ds with
  | [] => false
  | [_] => true
  | c :: _ :: _ => c ≠ '0'

/-- Characters allowed in prerelease/build identifiers. -/
def isIdentChar (c : Char) : Bool := c.isAlphanum || c = '-'

/-- A strictly parsed semantic version, used to state spec-side hypotheses
("the version parses as a valid semantic version"): `pre = []` means no
prerelease component. -/
structure StrictSemver where
  major : Nat
  minor : Nat
  patch : Nat
  pre : List String
  build : List String
deriving DecidableEq

/-- Parse the mandatory `major.minor.patch` core, returning the remainder. -/
def parseCore (cs : List Char) : Option (Nat × Nat × Nat × List Char) :=
  let p1 := takeDigitsRun cs
  if p1.1.isEmpty || !noLeadZeros p1.1 then none
  else if p1.2.head? = some '.' then
    let p2 := takeDigitsRun p1.2.tail
    if p2.1.isEmpty || !noLeadZeros p2.1 then none
    else if p2.2.head? = some '.' then
      let p3 := takeDigitsRun p2.2.tail
      if p3.1.isEmpty || !noLeadZeros p3.1 then none
      else some (natOfDigits p1.1, natOfDigits p2.1, natOfDigits p3.1, p3.2)
    else none
  else none

/-- Split a character list at the first occurrence of `c`. -/
def splitAtChar (c : Char) : List Char → List Char × Option (List Char)
  | [] => ([], none)
  | x :: xs =>
    if x = c then ([], some xs)
    else
      let p := splitAtChar c xs
      (x :: p.1, p.2)

/-- Split a character list on `.`, keeping empty pieces (the behaviour of
`"x".split(".")` on identifier lists). -/
def splitDotsAux : List Char → List Char → List (List Char)
  | [], acc => [acc.reverse]
  | c :: rest, acc =>
    if c = '.' then acc.reverse :: splitDotsAux rest [] else splitDotsAux rest (c :: acc)

def splitDots (cs : List Char) : List String := (splitDotsAux cs []).map String.mk

/-- A valid prerelease identifier: nonempty, alphanumerics and hyphens, and a
purely numeric identifier has no leading zeros. -/
def validPreId (s : String) : Bool :=
  (s ≠ "" : Bool) && s.data.all isIdentChar &&
    (if s.data.all Char.isDigit then noLeadZeros s.data else true)

/-- A valid build identifier: nonempty, alphanumerics and hyphens. -/
def validBuildId (s : String) : Bool := (s ≠ "" : Bool) && s.data.all isIdentChar

/-- Strict parser for full semantic versions
`major.minor.patch[-pre.ids][+build.ids]`. -/
def parseStrict (s : String) : Option StrictSemver :=
  match parseCore s.data with
  | none => none
  | some (ma, mi, pa, rest) =>
    let sp := splitAtChar '+' rest
    let buildIds : Option (List String) :=
      match sp.2 with
      | none => some []
      | some b =>
        let ids := splitDots b
        if ids.all validBuildId then some ids else none
    match buildIds with
    | none => none
    | some build =>
      if sp.1.isEmpty then some ⟨ma, mi, pa, [], build⟩
      else if sp.1.head? = some '-' then
        let ids := splitDots sp.1.tail
        if ids.all validPreId then some ⟨ma, mi, pa, ids, build⟩ else none
      else none

/-- Ordering of coerced versions (numeric, lexicographic on
major/minor/patch), as `semver.compare` on canonical coerced triples. -/
def coercedLe (a b : Coerced) : Bool :=
  (a.major < b.major) ||
    (a.major = b.major &&
      ((a.minor < b.minor) || (a.minor = b.minor && a.patch ≤ b.patch)))

/-! ### Association-list maps (JS objects keyed by strings / directories) -/

/-- First-match lookup in an association list. -/
def lookupD {α : Type} : List (String × α) → String → Option α
  | [], _ => none
  | (k, v) :: rest, key => if k = key then some v else lookupD rest key

/-- Insert-or-replace preserving the position of an existing key (JS object
assignment / overwriting an existing file). -/
def upsertD {α : Type} : List (String × α) → String → α → List (String × α)
  | [], key, v => [(key, v)]
  | (k, w) :: rest, key, v =>
    if k = key then (key, v) :: rest else (k, w) :: upsertD rest key v

/-! ### Data model of the published tree -/

/-- Provenance block (`upstream`) embedded in a version manifest. -/
inductive Upstream where
  | release (utype : String) (repo : String) (tag : Option String) (htmlUrl : Option String)
  | rawCommit (repo : String) (ref : String) (commit : String) (paths : List String)
deriving DecidableEq

/-- A `files` entry of a version manifest: SRI string and byte count. -/
structure FileEntry where
  integrity : String
  bytes : Nat
deriving DecidableEq

/-- A version manifest (`manifest.json`), field for field. -/
structure Manifest where
  package : String
  version : String
  channel : Option String
  built_at : String
  commit : Option String
  upstream : Option Upstream
  meta : Option String
  files : List (String × FileEntry)
deriving DecidableEq

/-- Contents of one file on disk: either raw artifact bytes, or the
pretty-printed JSON of a manifest written by `writeJson` (kept symbolic; a
serialized manifest of this schema is a multi-byte JSON object and is never
byte-identical to a raw artifact appearing in this development). -/
inductive Content where
  | raw (bytes : List Nat)
  | json (m : Manifest)
deriving DecidableEq

/-- A directory: file names (possibly with `/` for nested paths) to contents. -/
abbrev Dirc : Type := List (String × Content)

/-- One package's directory `public/<pkg>/`: subdirectory name (version dirs
`v...`, pointers `@latest`/`@stable`/`@beta`, aliases `v<major>`,
`v<major>.<minor>`) to directory contents. -/
abbrev PkgDir : Type := List (String × Dirc)

/-- An input file handed to `publishExternal`: its temp-file path, the
configured output name, and the bytes `fs.readFileSync(f.localPath)` reads. -/
structure FileInput where
  localPath : String
  outName : Option String
  content : List Nat
deriving DecidableEq

/-- The name a file is published under: `f.outName || path.basename(f.localPath)`. -/
def resolvedName (f : FileInput) : String :=
  (jsOrS f.outName (some (basename f.localPath))).getD ""

/-- The `manifestFiles` object: for each file, in order,
`manifestFiles[name] = sriSha384(buf), buf.length` (later files with the
same resolved name overwrite earlier ones, as JS object assignment does). -/
def manifestFilesOf (hash : List Nat → String) (files : List FileInput) :
    List (String × FileEntry) :=
  files.foldl (fun acc f => upsertD acc (resolvedName f) ⟨hash f.content, f.content.length⟩) []

/-- The data files written into the fresh version directory, in the same
loop: `fs.writeFileSync(path.join(versionDir, name), buf)`. -/
def versionFilesOf (files : List FileInput) : List (String × Content) :=
  files.foldl (fun acc f => upsertD acc (resolvedName f) (Content.raw f.content)) []

/-- The manifest object built by `publishExternal`. -/
def publishManifest (hash : List Nat → String) (pkg version : String)
    (channel : Option String) (builtAt : String) (upstream : Option Upstream)
    (meta : Option String) (files : List FileInput) : Manifest :=
  { package := pkg
    version := "v" ++ version
    channel := channel
    built_at := builtAt
    commit := none
    upstream := upstream
    meta := meta
    files := manifestFilesOf hash files }

/-- The immutable version directory after the write loop plus
`writeJson(path.join(versionDir, "manifest.json"), manifest)`. -/
def versionDirOf (files : List FileInput) (manifest : Manifest) : Dirc :=
  upsertD (versionFilesOf files) "manifest.json" (Content.json manifest)

/-- `syncPointer(dir)`: clear the pointer directory, copy every
`manifestFiles` key from the version directory, then write the manifest.
(`fs.copyFileSync` always finds its source because the version directory
holds every manifest key; the `none` branch is unreachable.) -/
def syncPointerDir (vdir : Dirc) (manifest : Manifest) : Dirc :=
  upsertD
    (manifest.files.foldl
      (fun acc nf =>
        match lookupD vdir nf.1 with
        | some c => upsertD acc nf.1 c
        | none => acc)
      [])
    "manifest.json" (Content.json manifest)

/-- `mkdirp`: create the directory empty when absent, otherwise no-op. -/
def ensureDir (pd : PkgDir) (name : String) : PkgDir :=
  if (lookupD pd name).isSome then pd else pd ++ [(name, ([] : Dirc))]

/-- `publishExternal` from the sync script, acting on one package's
directory.  `version` carries no leading `v`; `updatePointer` is
`"latest" | "stable" | "beta" | "none"`.

The stable-alias block mirrors
`semver.coerce(version)` followed by `semver.valid`/`semver.prerelease`
checks on the coerced canonical string; on a coerced triple `valid` always
holds and `prerelease` is always `null`, so the guard is coercion success. -/
def publishExternal (hash : List Nat → String) (pd : PkgDir) (pkg version : String)
    (channel : Option String) (builtAt : String) (upstream : Option Upstream)
    (meta : Option String) (files : List FileInput) (updatePointer : String) : PkgDir :=
  let versionDirName := "v" ++ version
  let d0 := ensureDir pd versionDirName
  let d1 := ensureDir d0 "@latest"
  let d2 := ensureDir d1 "@stable"
  let d3 := ensureDir d2 "@beta"
  let manifest := publishManifest hash pkg version channel builtAt upstream meta files
  let vdir := versionDirOf files manifest
  let d4 := upsertD d3 versionDirName vdir
  let d5 := if updatePointer = "latest" then upsertD d4 "@latest" (syncPointerDir vdir manifest) else d4
  let d6 := if updatePointer = "stable" then upsertD d5 "@stable" (syncPointerDir vdir manifest) else d5
  let d7 := if updatePointer = "beta" then upsertD d6 "@beta" (syncPointerDir vdir manifest) else d6
  if channel = some "stable" then
    match semverCoerce version with
    | some c =>
      let d8 := upsertD d7 ("v" ++ toString c.major) (syncPointerDir vdir manifest)
      upsertD d8 ("v" ++ toString c.major ++ "." ++ toString c.minor) (syncPointerDir vdir manifest)
    | none => d7
  else d7

/-- Contents of a subdirectory of a package directory, an absent directory
reading as empty (an empty directory holds no bytes). -/
def dirContents (pd : PkgDir) (name : String) : Dirc := (lookupD pd name).getD []

/-! ### Stable sort (JS `Array.prototype.sort` with a consistent comparator) -/

/-- Insert `x` after every element `y` with `le y x` (so later elements land
after existing ties — the stable-sort insertion step). -/
def insertByLe {α : Type} (le : α → α → Bool) (x : α) : List α → List α
  | [] => [x]
  | y :: ys => if le y x then y :: insertByLe le x ys else x :: y :: ys

/-- Stable sort by repeated insertion.  For a comparator that is a total
preorder this produces the unique stably-sorted permutation, which is what
ECMAScript guarantees for `Array.prototype.sort`. -/
def stableSortBy {α : Type} (le : α → α → Bool) (l : List α) : List α :=
  l.foldl (fun acc x => insertByLe le x acc) []

/-! ### `update-index.mjs` -/

/-- An entry of a package's `versions.json`. -/
structure VEntry where
  version : String
  channel : Option String
  built_at : String
deriving DecidableEq

/-- A package's entry in the global `_index/index.json`. -/
structure GEntry where
  last_stable : Option VEntry
  last_beta : Option VEntry
  last_latest : Option VEntry
  meta : Option String
deriving DecidableEq

/-- The global `_index/index.json`. -/
structure GlobalIndex where
  generated_at : String
  packages : List (String × GEntry)
deriving DecidableEq

/-- Both index files. -/
structure IndexState where
  versionsIdx : List (String × List VEntry)
  globalIdx : GlobalIndex
deriving DecidableEq

/-- Codepoint-lexicographic string `<=`, by structural recursion on the
character lists (so concrete comparisons evaluate). -/
def strLeAux : List Char → List Char → Bool
  | [], _ => true
  | _ :: _, [] => false
  | a :: as, b :: bs =>
    if a.toNat < b.toNat then true
    else if b.toNat < a.toNat then false
    else strLeAux as bs

/-- Codepoint-lexicographic `<=` on strings. -/
def strLe (a b : String) : Bool := strLeAux a.data b.data

/-- The JS sort comparator `(a, b) => (b.built_at || "").localeCompare(a.built_at || "")`
read as "`a` may precede `b`", i.e. `b.built_at <= a.built_at` (descending).
`localeCompare` is modelled as codepoint string order; on the ASCII ISO-8601
timestamps the pipeline writes the two collations agree. -/
def ventLe (a b : VEntry) : Bool := strLe b.built_at a.built_at

/-- `updateIndexes` from `update-index.mjs`: upsert the version entry,
re-sort newest-first by `built_at`, rewrite the package's global entry.
(The enclosing `{package, versions}` wrapper object and `generated_at` are
carried; file-system plumbing is the state update itself.) -/
def updateIndexes (ix : IndexState) (pkg version : String) (channel : Option String)
    (builtAt : String) (meta : Option String) : IndexState :=
  let vs := (lookupD ix.versionsIdx pkg).getD []
  let entry : VEntry := ⟨version, channel, builtAt⟩
  let vs1 := (vs.filter (fun v => v.version != version)) ++ [entry]
  let vs2 := stableSortBy ventLe vs1
  let prev := lookupD ix.globalIdx.packages pkg
  let gent : GEntry :=
    { last_stable := vs2.find? (fun v => v.channel == some "stable")
      last_beta := vs2.find? (fun v => v.channel == some "beta")
      last_latest := vs2.head?
      meta := jsOrO meta (prev.bind (fun g => g.meta)) }
  { versionsIdx := upsertD ix.versionsIdx pkg vs2
    globalIdx := { generated_at := builtAt, packages := upsertD ix.globalIdx.packages pkg gent } }

/-! ### Upstream data and per-source configuration -/

/-- A GitHub release JSON object (the fields the script reads; the asset
list and zipball URL are consumed inside the materialization function). -/
structure Release where
  tag_name : Option String
  name : Option String
  draft : Bool
  prerelease : Bool
  html_url : Option String
deriving DecidableEq

/-- A GitHub tag-listing object. -/
structure TagObj where
  name : Option String
deriving DecidableEq

/-- An entry of `src.files` for a `github-raw-file` source. -/
structure RawFileSpec where
  path : String
  out_name : Option String
deriving DecidableEq

/-- One entry of `external-sources.json`.  `buildEnabled` is
`normalizeBuildCfg(src.build).enabled`; `asset_regex`, `extract`,
`zipball_fallback`, `releases_per_page` and the rest of the build
configuration only influence the download/build pipeline, which is modelled
by the materialization functions in `NetEnv`. -/
structure SourceCfg where
  package : Option String
  type : Option String
  repo : Option String
  channel : Option String
  ref : Option String
  path : Option String
  paths : List String
  files : List RawFileSpec
  meta : Option String
  buildEnabled : Bool
deriving DecidableEq

/-- Responses of the outside world for one source in one run: GitHub API
results and the outcome of the download/build pipeline
(`downloadZipballBuildAndCollect` / `downloadReleaseAssets` /
`downloadZipballAndExtract`, which shell out to curl, unzip and npm).
`Except.error` models a thrown exception. -/
structure NetEnv where
  latestRelease : Option Release
  releasesResp : Except String (List Release)
  tagsResp : Except String (List TagObj)
  semverMaterialize : Release → String → Except String (List FileInput)
  relLatestResp : Except String Release
  relMaterialize : Except String (List FileInput)
  repoInfoDefaultBranch : Except String (Option String)
  commitShaOf : String → Except String (Option String)
  rawFetch : String → Except String (List Nat)

/-- Per-package record of `_index/external-state.json`. -/
structure PkgState where
  latest_key : Option String
  stable_key : Option String
  beta_key : Option String
  last_upstream_tag : Option String
  last_upstream_stable_tag : Option String
  last_upstream_beta_tag : Option String
  last_commit : Option String
  last_upstream_ref : Option String
deriving DecidableEq

/-- The record for a package never seen before (every field `undefined`). -/
def emptyPkgState : PkgState := ⟨none, none, none, none, none, none, none, none⟩

/-- A row of the sync report (`record(...)`); `rtype` is the JS `type` field. -/
structure Row where
  package : String
  rtype : String
  upstream : String
  action : String
  status : String
  details : String
deriving DecidableEq

def mkRow (pkg rtype upstream action status details : String) : Row :=
  ⟨pkg, rtype, upstream, action, status, details⟩

def isFailRow (r : Row) : Bool := r.status == "FAIL"

/-- The mutable run state of the main script: `external-state.json`, the
`public/<pkg>` trees, both index files, the `results` rows, and the
`hadFailure` / `changed` flags. -/
structure SyncState where
  state : List (String × PkgState)
  pub : List (String × PkgDir)
  index : IndexState
  results : List Row
  hadFailure : Bool
  changed : Bool
deriving DecidableEq

/-- `state[pkg]` with optional chaining (`undefined` fields when absent). -/
def pkgStateOf (s : SyncState) (pkg : String) : PkgState :=
  (lookupD s.state pkg).getD emptyPkgState

/-- One package's `public/<pkg>/` tree. -/
def pubPkgDir (s : SyncState) (pkg : String) : PkgDir := (lookupD s.pub pkg).getD []

/-- Run `publishExternal` against the package's tree inside the run state. -/
def applyPublish (hash : List Nat → String) (builtAt : String) (s : SyncState)
    (pkg version : String) (channel : Option String) (upstream : Option Upstream)
    (meta : Option String) (files : List FileInput) (updatePointer : String) : SyncState :=
  let pd := publishExternal hash (pubPkgDir s pkg) pkg version channel builtAt upstream meta
    files updatePointer
  { s with pub := upsertD s.pub pkg pd }

/-- Run `updateIndexes` inside the run state. -/
def applyUpdateIndexes (s : SyncState) (pkg version : String) (channel : Option String)
    (builtAt : String) (meta : Option String) : SyncState :=
  { s with index := updateIndexes s.index pkg version channel builtAt meta }

/-- `state[pkg] = ...; changed = true` — every site that rewrites a package's
state record also sets the `changed` flag. -/
def recordPkgState (s : SyncState) (pkg : String) (f : PkgState → PkgState) : SyncState :=
  { s with state := upsertD s.state pkg (f (pkgStateOf s pkg)), changed := true }

/-! ### The `github-release-assets-semver` branch -/

def semverType : String := "github-release-assets-semver"

/-- A release as preprocessed by the stable/beta scan:
`{r, tag, v, prerelease}`.  On the coerced canonical version string
`semver.prerelease` is always `null`, so
`!!(r.prerelease || (v && semver.prerelease(v)))` reduces to `r.prerelease`. -/
structure ParsedRel where
  rel : Release
  tag : String
  ver : Option Coerced
  prerelease : Bool
deriving DecidableEq

def parseRelease (r : Release) : ParsedRel :=
  let t := (jsOrS r.tag_name r.name).getD ""
  { rel := r, tag := t, ver := semverCoerce (dropV t), prerelease := r.prerelease }

/-- Comparator order for `.sort((a, b) => semver.rcompare(a.v, b.v))`:
`a` may precede `b` iff `b.v <= a.v` (descending semver).  The scan only
sorts entries whose `ver` is present; the default is never read. -/
def relLe (a b : ParsedRel) : Bool := coercedLe (b.ver.getD ⟨0, 0, 0⟩) (a.ver.getD ⟨0, 0, 0⟩)

/-- `getReleases` filtering plus the parse-and-keep-valid scan. -/
def validParsed (rels : List Release) : List ParsedRel :=
  ((rels.filter (fun r => !r.draft)).map parseRelease).filter (fun x => x.ver.isSome)

def stablePick (parsed : List ParsedRel) : Option ParsedRel :=
  (stableSortBy relLe (parsed.filter (fun x => !x.prerelease))).head?

def betaPick (parsed : List ParsedRel) : Option ParsedRel :=
  (stableSortBy relLe (parsed.filter (fun x => x.prerelease))).head?

/-- Comparator order for the tag-fallback sort (descending semver). -/
def tagLe (a b : String × Coerced) : Bool := coercedLe b.2 a.2

/-- `getHighestSemverTag`: keep named tags that coerce to a valid version,
stable-sort descending, take the top tag. -/
def getHighestSemverTag (tags : List TagObj) : Option String :=
  let names := (tags.map (fun t => t.name)).filterMap (fun n => if strTruthy n then n else none)
  let versions := names.filterMap (fun t => (semverCoerce (dropV t)).map (fun v => (t, v)))
  ((stableSortBy tagLe versions).head?).map (fun p => p.1)

/-- The state-independent part of the branch's resolution: the `@latest` tag
(with the highest-semver-tag fallback), the stable/beta picks, and the three
idempotency keys. -/
structure SemverKeys where
  repo : String
  latest : Option Release
  latestTag : String
  latestKey : String
  stable : Option ParsedRel
  beta : Option ParsedRel
  stableTag : Option String
  betaTag : Option String
  stableKey : Option String
  betaKey : Option String
deriving DecidableEq

inductive SemverKeysOut where
  | thrown (msg : String)
  | noRepo
  | noTags
  | keys (k : SemverKeys)
deriving DecidableEq

/-- Key-resolution phase (everything the branch reads from the network; the
prior `external-state.json` record is not consulted here). -/
def semverResolveKeys (src : SourceCfg) (net : NetEnv) : SemverKeysOut :=
  if !strTruthy src.repo then SemverKeysOut.noRepo else
  let repo := src.repo.getD ""
  let latest := net.latestRelease
  let lt0 := jsOrS (latest.bind (fun r => r.tag_name)) (latest.bind (fun r => r.name))
  let latestTagE : Except String (Option String) :=
    if strTruthy lt0 then Except.ok lt0
    else
      match net.tagsResp with
      | Except.error m => Except.error m
      | Except.ok tags => Except.ok (getHighestSemverTag tags)
  match latestTagE with
  | Except.error m => SemverKeysOut.thrown m
  | Except.ok none => SemverKeysOut.noTags
  | Except.ok (some latestTag) =>
    match net.releasesResp with
    | Except.error m => SemverKeysOut.thrown m
    | Except.ok rels =>
      let parsed := validParsed rels
      let stable := stablePick parsed
      let beta := betaPick parsed
      let stableTag := jsOrS (stable.map (fun x => x.tag)) none
      let betaTag := jsOrS (beta.map (fun x => x.tag)) none
      SemverKeysOut.keys
        { repo := repo
          latest := latest
          latestTag := latestTag
          latestKey := repo ++ "@latest:" ++ latestTag
          stable := stable
          beta := beta
          stableTag := stableTag
          betaTag := betaTag
          stableKey := stableTag.map (fun t => repo ++ "@stable:" ++ t)
          betaKey := betaTag.map (fun t => repo ++ "@beta:" ++ t) }

/-- Everything the branch computes before deciding to skip or publish. -/
structure SemverResolved where
  repo : String
  latest : Option Release
  latestTag : String
  latestKey : String
  stable : Option ParsedRel
  beta : Option ParsedRel
  stableTag : Option String
  betaTag : Option String
  stableKey : Option String
  betaKey : Option String
  needLatest : Bool
  needStable : Bool
  needBeta : Bool
deriving DecidableEq

/-- The `need*` flags from the prior per-package state record:
`needLatest = prevLatestKey !== latestKey`,
`needStable = stableKey && state[pkg]?.stable_key !== stableKey`, and
likewise for beta. -/
def semverNeedsOf (k : SemverKeys) (ps : PkgState) : SemverResolved :=
  { repo := k.repo
    latest := k.latest
    latestTag := k.latestTag
    latestKey := k.latestKey
    stable := k.stable
    beta := k.beta
    stableTag := k.stableTag
    betaTag := k.betaTag
    stableKey := k.stableKey
    betaKey := k.betaKey
    needLatest := ps.latest_key != some k.latestKey
    needStable := k.stableKey.isSome && (ps.stable_key != k.stableKey)
    needBeta := k.betaKey.isSome && (ps.beta_key != k.betaKey) }

inductive SemverResolveOut where
  | thrown (msg : String)
  | noRepo
  | noTags
  | resolved (r : SemverResolved)
deriving DecidableEq

/-- Resolution phase of the semver branch: keys from the network, `need*`
flags from the prior `external-state.json` record. -/
def semverResolve (src : SourceCfg) (net : NetEnv) (ps : PkgState) : SemverResolveOut :=
  match semverResolveKeys src net with
  | SemverKeysOut.thrown m => SemverResolveOut.thrown m
  | SemverKeysOut.noRepo => SemverResolveOut.noRepo
  | SemverKeysOut.noTags => SemverResolveOut.noTags
  | SemverKeysOut.keys k => SemverResolveOut.resolved (semverNeedsOf k ps)

inductive PubOutcome where
  | thrown (msg : String)
  | noFiles
  | ok (tag : String) (version : String) (channel : String) (nfiles : Nat)
deriving DecidableEq

def noFilesReason : String :=
  "No matching outputs. For build: ensure src.extract points at built files (e.g. dist/*.js) and set build.run if required. For non-build: ensure assets/extract or zipball_fallback are correct."

/-- `publishFromRelease(releaseObj, pointerName)`: derive tag/version/channel,
materialize the artifact files (build-from-zipball when the build is enabled,
otherwise asset download with optional zipball fallback — all inside
`net.semverMaterialize`), then publish and update the indexes. -/
def pubFromRelease (hash : List Nat → String) (builtAt : String) (src : SourceCfg)
    (net : NetEnv) (pkg repo : String) (releaseObj : Release) (pointerName : String)
    (s : SyncState) : SyncState × PubOutcome :=
  let tagO := jsOrS releaseObj.tag_name releaseObj.name
  let version := stripV tagO
  let channel := detectChannelFromVersion version
  match net.semverMaterialize releaseObj pointerName with
  | Except.error msg => (s, PubOutcome.thrown msg)
  | Except.ok files =>
    if files.isEmpty then (s, PubOutcome.noFiles)
    else
      let utype := if src.buildEnabled then "github-zipball-build" else "github-release"
      let upstream := Upstream.release utype repo tagO releaseObj.html_url
      let s1 := applyPublish hash builtAt s pkg version (some channel) upstream src.meta
        files pointerName
      let s2 := applyUpdateIndexes s1 pkg ("v" ++ version) (some channel) builtAt src.meta
      (s2, PubOutcome.ok (tagO.getD "") version channel files.length)

/-- Result of one of the three publish blocks (`published` tells whether this
target's publish completed and its state key was recorded). -/
structure BlockRes where
  s : SyncState
  rows : List Row
  exc : Option String
  published : Bool

/-- The `needLatest` publish block. -/
def latestBlock (hash : List Nat → String) (builtAt pkg : String) (src : SourceCfg)
    (net : NetEnv) (r : SemverResolved) (s : SyncState) : BlockRes :=
  if r.needLatest then
    if !(r.latest.isSome && strTruthy ((r.latest.getD ⟨none, none, false, false, none⟩).tag_name)) then
      ⟨s, [mkRow pkg semverType r.latestTag "publish" "FAIL"
          "No GitHub release object for @latest (use github-raw-file or create a release)"],
        none, false⟩
    else
      let rel := r.latest.getD ⟨none, none, false, false, none⟩
      match pubFromRelease hash builtAt src net pkg r.repo rel "latest" s with
      | (s', PubOutcome.thrown m) => ⟨s', [], some m, false⟩
      | (s', PubOutcome.noFiles) =>
        ⟨s', [mkRow pkg semverType (rel.tag_name.getD "") "publish" "FAIL" noFilesReason],
          none, false⟩
      | (s', PubOutcome.ok _ version _ nfiles) =>
        let s'' := recordPkgState s' pkg (fun p =>
          { p with latest_key := some r.latestKey, last_upstream_tag := rel.tag_name })
        ⟨s'', [mkRow pkg semverType (rel.tag_name.getD "") "publish" "OK"
            ("@latest v" ++ version ++ " files=" ++ toString nfiles)], none, true⟩
  else ⟨s, [], none, false⟩

/-- The `needStable && stable?.r` publish block. -/
def stableBlock (hash : List Nat → String) (builtAt pkg : String) (src : SourceCfg)
    (net : NetEnv) (r : SemverResolved) (s : SyncState) : BlockRes :=
  if r.needStable && r.stable.isSome then
    match r.stable with
    | some sp =>
      match pubFromRelease hash builtAt src net pkg r.repo sp.rel "stable" s with
      | (s', PubOutcome.thrown m) => ⟨s', [], some m, false⟩
      | (s', PubOutcome.noFiles) =>
        ⟨s', [mkRow pkg semverType (r.stableTag.getD "") "publish" "FAIL" noFilesReason],
          none, false⟩
      | (s', PubOutcome.ok _ version _ nfiles) =>
        let s'' := recordPkgState s' pkg (fun p =>
          { p with stable_key := r.stableKey, last_upstream_stable_tag := r.stableTag })
        ⟨s'', [mkRow pkg semverType (r.stableTag.getD "") "publish" "OK"
            ("@stable v" ++ version ++ " files=" ++ toString nfiles ++ " (+stable aliases)")],
          none, true⟩
    | none => ⟨s, [], none, false⟩
  else ⟨s, [], none, false⟩

/-- The `needBeta && beta?.r` publish block. -/
def betaBlock (hash : List Nat → String) (builtAt pkg : String) (src : SourceCfg)
    (net : NetEnv) (r : SemverResolved) (s : SyncState) : BlockRes :=
  if r.needBeta && r.beta.isSome then
    match r.beta with
    | some bp =>
      match pubFromRelease hash builtAt src net pkg r.repo bp.rel "beta" s with
      | (s', PubOutcome.thrown m) => ⟨s', [], some m, false⟩
      | (s', PubOutcome.noFiles) =>
        ⟨s', [mkRow pkg semverType (r.betaTag.getD "") "publish" "FAIL" noFilesReason],
          none, false⟩
      | (s', PubOutcome.ok _ version _ nfiles) =>
        let s'' := recordPkgState s' pkg (fun p =>
          { p with beta_key := r.betaKey, last_upstream_beta_tag := r.betaTag })
        ⟨s'', [mkRow pkg semverType (r.betaTag.getD "") "publish" "OK"
            ("@beta v" ++ version ++ " files=" ++ toString nfiles)], none, true⟩
    | none => ⟨s, [], none, false⟩
  else ⟨s, [], none, false⟩

/-- Result of one whole source branch, with per-target publish flags for the
semver branch. -/
structure SemverOut where
  s : SyncState
  rows : List Row
  exc : Option String
  pubLatest : Bool
  pubStable : Bool
  pubBeta : Bool

/-- The semver branch after resolution: skip when no key changed, else run
the three publish blocks in order, aborting on a thrown exception. -/
def semverAfterResolve (hash : List Nat → String) (builtAt pkg : String) (src : SourceCfg)
    (net : NetEnv) (r : SemverResolved) (s : SyncState) : SemverOut :=
  if !r.needLatest && !r.needStable && !r.needBeta then
    ⟨s, [mkRow pkg semverType r.latestTag "skip" "SKIP"
        "No changes (keys match external-state.json)"], none, false, false, false⟩
  else
    let b1 := latestBlock hash builtAt pkg src net r s
    match b1.exc with
    | some m => ⟨b1.s, b1.rows, some m, b1.published, false, false⟩
    | none =>
      let b2 := stableBlock hash builtAt pkg src net r b1.s
      match b2.exc with
      | some m => ⟨b2.s, b1.rows ++ b2.rows, some m, b1.published, b2.published, false⟩
      | none =>
        let b3 := betaBlock hash builtAt pkg src net r b2.s
        ⟨b3.s, b1.rows ++ b2.rows ++ b3.rows, b3.exc, b1.published, b2.published, b3.published⟩

/-- The whole `github-release-assets-semver` branch body. -/
def semverBranch (hash : List Nat → String) (builtAt pkg : String) (src : SourceCfg)
    (net : NetEnv) (s : SyncState) : SemverOut :=
  match semverResolve src net (pkgStateOf s pkg) with
  | SemverResolveOut.thrown m => ⟨s, [], some m, false, false, false⟩
  | SemverResolveOut.noRepo =>
    ⟨s, [mkRow pkg semverType "" "skip" "FAIL" "Missing src.repo"], none, false, false, false⟩
  | SemverResolveOut.noTags =>
    ⟨s, [mkRow pkg semverType "" "skip" "FAIL" "No releases and no semver tags found"],
      none, false, false, false⟩
  | SemverResolveOut.resolved r => semverAfterResolve hash builtAt pkg src net r s

/-! ### The `github-release-asset` branch -/

def relAssetType : String := "github-release-asset"

/-- Result of the legacy and raw branches. -/
structure BranchRes where
  s : SyncState
  rows : List Row
  exc : Option String
  published : Bool

/-- The whole `github-release-asset` branch body. -/
def relAssetBranch (hash : List Nat → String) (builtAt pkg : String) (src : SourceCfg)
    (net : NetEnv) (s : SyncState) : BranchRes :=
  if !strTruthy src.repo then
    ⟨s, [mkRow pkg relAssetType "" "skip" "FAIL" "Missing src.repo"], none, false⟩
  else
    let repo := src.repo.getD ""
    match net.relLatestResp with
    | Except.error m => ⟨s, [], some m, false⟩
    | Except.ok rel =>
      let tagO := jsOrS rel.tag_name rel.name
      if !strTruthy tagO then
        ⟨s, [mkRow pkg relAssetType "" "skip" "FAIL"
            "GitHub /releases/latest returned no tag_name/name"], none, false⟩
      else
        let tag := tagO.getD ""
        if (pkgStateOf s pkg).last_upstream_tag == some tag then
          ⟨s, [mkRow pkg relAssetType tag "skip" "SKIP" "No changes (same upstream tag)"],
            none, false⟩
        else
          match net.relMaterialize with
          | Except.error m => ⟨s, [], some m, false⟩
          | Except.ok files =>
            if files.isEmpty then
              ⟨s, [mkRow pkg relAssetType tag "publish" "FAIL"
                  "No matching assets (assets empty or regex mismatch)"], none, false⟩
            else
              let version := dropV tag
              let channel := (jsOrS src.channel (some (detectChannelFromVersion version))).getD ""
              let upstream := Upstream.release "github-release" repo tagO rel.html_url
              let s1 := applyPublish hash builtAt s pkg version (some channel) (some upstream)
                src.meta files "latest"
              let s2 := applyUpdateIndexes s1 pkg ("v" ++ version) (some channel) builtAt src.meta
              let s3 := recordPkgState s2 pkg (fun p => { p with last_upstream_tag := some tag })
              ⟨s3, [mkRow pkg relAssetType tag "publish" "OK"
                  ("@latest v" ++ version ++ " files=" ++ toString files.length)], none, true⟩

/-! ### The `github-raw-file` branch -/

def rawType : String := "github-raw-file"

inductive RawResolveOut where
  | thrown (msg : String)
  | noRepo
  | noSha (ref : String)
  | resolved (ref : String) (sha : String)
deriving DecidableEq

/-- Ref and commit resolution of the raw branch: `src.ref || getDefaultBranch(repo)`,
then `GET /commits/<ref>` for the SHA. -/
def rawResolve (src : SourceCfg) (net : NetEnv) : RawResolveOut :=
  if !strTruthy src.repo then RawResolveOut.noRepo else
  let refE : Except String String :=
    if strTruthy src.ref then Except.ok (src.ref.getD "")
    else
      match net.repoInfoDefaultBranch with
      | Except.error m => Except.error m
      | Except.ok db => Except.ok ((jsOrS db (some "main")).getD "main")
  match refE with
  | Except.error m => RawResolveOut.thrown m
  | Except.ok ref =>
    match net.commitShaOf ref with
    | Except.error m => RawResolveOut.thrown m
    | Except.ok shaO =>
      if strTruthy shaO then RawResolveOut.resolved ref (shaO.getD "")
      else RawResolveOut.noSha ref

/-- The `toFetch` list: `src.files`, else `src.paths`, else `src.path`
(each entry `(path, outName-or-null)`). -/
def toFetchOf (src : SourceCfg) : List (String × Option String) :=
  if !src.files.isEmpty then
    (src.files.filter (fun x => x.path != "")).map (fun x => (x.path, jsOrS x.out_name none))
  else if !src.paths.isEmpty then
    (src.paths.filter (fun p => p != "")).map (fun p => (p, none))
  else
    match src.path with
    | some p => if p != "" then [(p, none)] else []
    | none => []

/-- The sequential download loop of the raw branch; the first failing
download throws.  `localPath` is `path.join(tmpDir, outName)` (the model
prefixes `tmp/`); `outName` is always set. -/
def rawDownload (net : NetEnv) : List (String × Option String) → Except String (List FileInput)
  | [] => Except.ok []
  | (p, oname) :: rest =>
    match net.rawFetch p with
    | Except.error m => Except.error m
    | Except.ok bytes =>
      match rawDownload net rest with
      | Except.error m => Except.error m
      | Except.ok more =>
        let outName := (jsOrS oname (some (basename p))).getD ""
        Except.ok (⟨"tmp/" ++ outName, some outName, bytes⟩ :: more)

/-- The whole `github-raw-file` branch body: version is the 12-character
commit id, the channel is `null`, only `@latest` is updated, and the
idempotency key is the full resolved SHA. -/
def rawBranch (hash : List Nat → String) (builtAt pkg : String) (src : SourceCfg)
    (net : NetEnv) (s : SyncState) : BranchRes :=
  match rawResolve src net with
  | RawResolveOut.thrown m => ⟨s, [], some m, false⟩
  | RawResolveOut.noRepo =>
    ⟨s, [mkRow pkg rawType "" "skip" "FAIL" "Missing src.repo"], none, false⟩
  | RawResolveOut.noSha ref =>
    ⟨s, [mkRow pkg rawType (ref ++ "@?") "skip" "FAIL" "Could not resolve commit SHA for ref"],
      none, false⟩
  | RawResolveOut.resolved ref sha =>
    let upstreamStr := ref ++ "@" ++ sha12 (some sha)
    if (pkgStateOf s pkg).last_commit == some sha then
      ⟨s, [mkRow pkg rawType upstreamStr "skip" "SKIP" "No changes (same commit SHA)"],
        none, false⟩
    else
      let toFetch := toFetchOf src
      if toFetch.isEmpty then
        ⟨s, [mkRow pkg rawType upstreamStr "skip" "FAIL"
            "No files configured (use path/paths/files[])"], none, false⟩
      else
        match rawDownload net toFetch with
        | Except.error m => ⟨s, [], some m, false⟩
        | Except.ok downloaded =>
          let version := sha12 (some sha)
          let upstream := Upstream.rawCommit (src.repo.getD "") ref sha
            (toFetch.map (fun x => x.1))
          let s1 := applyPublish hash builtAt s pkg version none (some upstream) src.meta
            downloaded "latest"
          let s2 := applyUpdateIndexes s1 pkg ("v" ++ version) none builtAt src.meta
          let s3 := recordPkgState s2 pkg (fun p =>
            { p with last_commit := some sha, last_upstream_ref := some ref })
          ⟨s3, [mkRow pkg rawType upstreamStr "publish" "OK"
              ("@latest v" ++ version ++ " files=" ++ toString downloaded.length)], none, true⟩

/-! ### Orchestrator -/

/-- A source together with the outside world's behaviour for it in this run. -/
structure SrcJob where
  src : SourceCfg
  net : NetEnv

/-- Dispatch on `src.type` inside the per-source `try`, then append the
`catch` FAIL row when the branch threw (the catch row's `details` is the
message; `safeOneLine` truncation only affects display and is not modelled). -/
def sourceOutcome (hash : List Nat → String) (builtAt : String) (job : SrcJob)
    (s : SyncState) : SyncState × List Row :=
  let pkg := job.src.package.getD ""
  let rtype := (jsOrS job.src.type (some "unknown")).getD "unknown"
  let res : SyncState × List Row × Option String :=
    if job.src.type == some "github-release-assets-semver" then
      let o := semverBranch hash builtAt pkg job.src job.net s
      (o.s, o.rows, o.exc)
    else if job.src.type == some "github-release-asset" then
      let o := relAssetBranch hash builtAt pkg job.src job.net s
      (o.s, o.rows, o.exc)
    else if job.src.type == some "github-raw-file" then
      let o := rawBranch hash builtAt pkg job.src job.net s
      (o.s, o.rows, o.exc)
    else
      (s, [mkRow pkg rtype "" "skip" "FAIL" ("Unknown source type: " ++ rtype)], none)
  match res.2.2 with
  | none => (res.1, res.2.1)
  | some m => (res.1, res.2.1 ++ [mkRow pkg rtype "" "publish" "FAIL" m])

/-- One iteration of the main `for (const src of cfg.sources)` loop.  The
source sets its `hadFailure` boolean at exactly the sites that record a FAIL
row (each `hadFailure = true` is adjacent to a `record(...status:"FAIL")`
and conversely), so the flag update is the presence of a FAIL row. -/
def processSource (hash : List Nat → String) (builtAt : String) (job : SrcJob)
    (s : SyncState) : SyncState :=
  if !strTruthy job.src.package then s
  else
    let r := sourceOutcome hash builtAt job s
    { r.1 with results := r.1.results ++ r.2,
               hadFailure := r.1.hadFailure || r.2.any isFailRow }

/-- `sync-report.json`. -/
structure RunReport where
  generated_at : String
  changed : Bool
  failures : Nat
  results : List Row
deriving DecidableEq

/-- The observable outcome of a whole run: final state, the report (always
written), the process exit code, and whether `external-state.json` was
rewritten (the `changed` gate, which also triggers the UI-file copy and the
bundle-manifest rebuild — neither of which touches package trees or
indexes and which are not further modelled). -/
structure RunOut where
  final : SyncState
  report : RunReport
  exitCode : Nat
  stateFileWritten : Bool

/-- The whole run: iterate the sources, then the exit strategy
`if (hadFailure && process.env.FAIL_ON_EXTERNAL_ERROR === "1") exit 1`. -/
def runSync (hash : List Nat → String) (builtAt : String) (jobs : List SrcJob)
    (s0 : SyncState) (envFailOnExternalError : String) : RunOut :=
  let s := jobs.foldl (fun acc j => processSource hash builtAt j acc) s0
  { final := s
    report := ⟨builtAt, s.changed, (s.results.filter isFailRow).length, s.results⟩
    exitCode := if s.hadFailure && envFailOnExternalError == "1" then 1 else 0
    stateFileWritten := s.changed }

/-- Sample digest function used by concrete instantiations (stands in for
the external sha384; every theorem is proved for an arbitrary digest). -/
def hashLen (b : List Nat) : String :=
  "sha384-len" ++ toString b.length ++ "-sum" ++ toString (b.foldl (fun x y => x + y) 0)

/-! ### Concrete scenario data used by witnesses and counterexamples -/

/-- The empty run state (fresh tree, no prior `external-state.json`). -/
def syncEmpty : SyncState := ⟨[], [], ⟨[], ⟨"", []⟩⟩, [], false, false⟩

/-- A plain stable release tagged `v1.0.0`. -/
def relStableV1 : Release := ⟨some "v1.0.0", none, false, false, none⟩

/-- A non-draft, non-prerelease release whose tag carries hyphenated build
metadata (legal semver: `2.0.0+sha-5114f85` has no prerelease component). -/
def relBuildMeta : Release := ⟨some "v2.0.0+sha-5114f85", none, false, false, none⟩

/-- A minimal `github-release-assets-semver` source configuration. -/
def srcSemverPlain : SourceCfg :=
  ⟨some "pkg", some "github-release-assets-semver", some "o/r", none, none, none, [], [],
    none, false⟩

/-- A network environment where every materialization yields one one-byte
artifact `a.js`. -/
def netOneFile (latest : Option Release) (rels : List Release) : NetEnv :=
  { latestRelease := latest
    releasesResp := Except.ok rels
    tagsResp := Except.ok []
    semverMaterialize := fun _ _ => Except.ok [⟨"tmp/a.js", none, [1]⟩]
    relLatestResp := Except.error "unused"
    relMaterialize := Except.error "unused"
    repoInfoDefaultBranch := Except.ok none
    commitShaOf := fun _ => Except.ok none
    rawFetch := fun _ => Except.ok [] }

/-- A `github-raw-file` source that also configures a channel override
(`channel: "stable"`). -/
def srcRawOverride : SourceCfg :=
  ⟨some "pkg", some "github-raw-file", some "o/r", some "stable", some "main",
    some "dist/a.js", [], [], none, false⟩

/-- The same raw source without a channel override. -/
def srcRawPlain : SourceCfg :=
  ⟨some "pkg", some "github-raw-file", some "o/r", none, some "main",
    some "dist/a.js", [], [], none, false⟩

/-- A network environment for the raw branch: the ref resolves to a fixed
commit and the single fetched path yields one byte. -/
def netRawSimple : NetEnv :=
  { latestRelease := none
    releasesResp := Except.ok []
    tagsResp := Except.ok []
    semverMaterialize := fun _ _ => Except.ok []
    relLatestResp := Except.error "unused"
    relMaterialize := Except.error "unused"
    repoInfoDefaultBranch := Except.ok none
    commitShaOf := fun _ => Except.ok (some "c0ffee1234567890cafe")
    rawFetch := fun _ => Except.ok [5] }

/-- The record the resolution phase produces in the one-stable-release witness
scenario (extracted from the run itself). -/
def c10resolved : SemverResolved :=
  match semverResolve srcSemverPlain (netOneFile (some relStableV1) [relStableV1])
      (pkgStateOf syncEmpty "pkg") with
  | SemverResolveOut.resolved r => r
  | _ => semverNeedsOf ⟨"", none, "", "", none, none, none, none, none, none⟩ emptyPkgState

/-- The key record resolved in the one-stable-release witness scenario
(extracted from the run itself). -/
def c2keys : SemverKeys :=
  match semverResolveKeys srcSemverPlain (netOneFile (some relStableV1) [relStableV1]) with
  | SemverKeysOut.keys k => k
  | _ => ⟨"", none, "", "", none, none, none, none, none, none⟩

/-- The one-release scenario with a failing artifact materialization (the
download/build step throws). -/
def netFailMat : NetEnv :=
  { netOneFile (some relStableV1) [relStableV1] with
      semverMaterialize := fun _ _ => Except.error "boom" }

/-- A release whose hyphen-free tag `v2.0.0` carries the GitHub `prerelease`
flag. -/
def relPre200 : Release := ⟨some "v2.0.0", none, false, true, none⟩

/-- A release with a hyphenated prerelease tag `v2.1.0-beta.1`. -/
def relBetaHy : Release := ⟨some "v2.1.0-beta.1", none, false, true, none⟩

/-- State after a first run that published stable `v1.0.0`. -/
def c3state : SyncState :=
  (semverBranch hashLen "B1" "pkg" srcSemverPlain
    (netOneFile (some relStableV1) [relStableV1]) syncEmpty).s

/-- The second-run network where the flagged hyphen-free prerelease appeared. -/
def netC3a : NetEnv := netOneFile (some relStableV1) [relStableV1, relPre200]

/-- The second-run network where a hyphenated prerelease appeared. -/
def netC3b : NetEnv := netOneFile (some relStableV1) [relStableV1, relBetaHy]

/-- The record resolved in the flagged hyphen-free prerelease scenario. -/
def c3aresolved : SemverResolved :=
  match semverResolve srcSemverPlain netC3a (pkgStateOf c3state "pkg") with
  | SemverResolveOut.resolved r => r
  | _ => semverNeedsOf ⟨"", none, "", "", none, none, none, none, none, none⟩ emptyPkgState

/-- The record resolved in the hyphenated prerelease scenario. -/
def c3bresolved : SemverResolved :=
  match semverResolve srcSemverPlain netC3b (pkgStateOf c3state "pkg") with
  | SemverResolveOut.resolved r => r
  | _ => semverNeedsOf ⟨"", none, "", "", none, none, none, none, none, none⟩ emptyPkgState

/-- The beta pick of the hyphenated prerelease scenario. -/
def c3bp : ParsedRel :=
  match c3bresolved.beta with
  | some bp => bp
  | none => ⟨relStableV1, "", none, false⟩

/-! ## Theorems -/






theorem lookupD_upsertD_self {α : Type} (m : List (String × α)) (k : String) (v : α) :
    lookupD (upsertD m k v) k = some v := by
  induction m with
  | nil => simp [upsertD, lookupD]
  | cons hd tl ih =>
    obtain ⟨k', v'⟩ := hd
    by_cases h : k' = k
    · simp [upsertD, lookupD, h]
    · simp [upsertD, lookupD, h, ih]

theorem lookupD_upsertD_ne {α : Type} (m : List (String × α)) (k key : String) (v : α)
    (hne : k ≠ key) : lookupD (upsertD m key v) k = lookupD m k := by
  have hne' : ¬ key = k := fun h => hne h.symm
  induction m with
  | nil => simp [upsertD, lookupD, hne']
  | cons hd tl ih =>
    obtain ⟨k', v'⟩ := hd
    by_cases h : k' = key
    · subst h
      simp [upsertD, lookupD, hne']
    · simp only [upsertD, if_neg h, lookupD]
      by_cases h2 : k' = k <;> simp [h2, ih]

theorem keys_upsertD_of_not_mem {α : Type} (m : List (String × α)) (k : String) (v : α)
    (h : k ∉ m.map Prod.fst) : (upsertD m k v).map Prod.fst = m.map Prod.fst ++ [k] := by
  induction m with
  | nil => simp [upsertD]
  | cons hd tl ih =>
    obtain ⟨k', v'⟩ := hd
    simp only [List.map_cons, List.mem_cons] at h
    push_neg at h
    have h1 : ¬ k' = k := fun hh => h.1 hh.symm
    simp [upsertD, h1, ih h.2]

theorem keys_upsertD_of_mem {α : Type} (m : List (String × α)) (k : String) (v : α)
    (h : k ∈ m.map Prod.fst) : (upsertD m k v).map Prod.fst = m.map Prod.fst := by
  induction m with
  | nil => simp at h
  | cons hd tl ih =>
    obtain ⟨k', v'⟩ := hd
    by_cases he : k' = k
    · simp [upsertD, he]
    · simp only [List.map_cons, List.mem_cons] at h
      rcases h with h | h


      · exact absurd h.symm he
      · simp [upsertD, he, ih h]


/-! ### Stable-sort lemmas -/

theorem mem_insertByLe {α : Type} (le : α → α → Bool) (x : α) (l : List α) (z : α) :
    z ∈ insertByLe le x l ↔ z = x ∨ z ∈ l := by
  induction l with
  | nil => simp [insertByLe]
  | cons y ys ih =>
    by_cases h : le y x = true
    · simp only [insertByLe, if_pos h, List.mem_cons, ih]
      tauto
    · simp only [insertByLe, if_neg h, List.mem_cons]

theorem insertByLe_perm {α : Type} (le : α → α → Bool) (x : α) (l : List α) :
    List.Perm (insertByLe le x l) (x :: l) := by
  induction l with
  | nil => simp [insertByLe]
  | cons y ys ih =>
    by_cases h : le y x = true
    · simp only [insertByLe, if_pos h]
      exact (List.Perm.cons y ih).trans (List.Perm.swap x y ys)
    · simp [insertByLe, if_neg h]

theorem foldl_insertByLe_perm {α : Type} (le : α → α → Bool) (l acc : List α) :
    List.Perm (l.foldl (fun a x => insertByLe le x a) acc) (acc ++ l) := by
  induction l generalizing acc with
  | nil => simp
  | cons x xs ih =>
    show List.Perm (xs.foldl (fun a y => insertByLe le y a) (insertByLe le x acc)) _
    have h1 := ih (insertByLe le x acc)
    have h2 : List.Perm (insertByLe le x acc ++ xs) ((x :: acc) ++ xs) :=
      (insertByLe_perm le x acc).append_right xs
    have h3 : List.Perm (acc ++ x :: xs) (x :: (acc ++ xs)) := List.perm_middle
    exact (h1.trans h2).trans h3.symm

theorem stableSortBy_perm {α : Type} (le : α → α → Bool) (l : List α) :
    List.Perm (stableSortBy le l) l := by
  simpa using foldl_insertByLe_perm le l []

theorem pairwise_insertByLe {α : Type} (le : α → α → Bool)
    (htot : ∀ a b, le a b = true ∨ le b a = true)
    (htrans : ∀ a b c, le a b = true → le b c = true → le a c = true)
    (x : α) (l : List α) (h : l.Pairwise (fun a b => le a b = true)) :
    (insertByLe le x l).Pairwise (fun a b => le a b = true) := by
  induction l with
  | nil => simp [insertByLe]
  | cons y ys ih =>
    rcases List.pairwise_cons.mp h with ⟨hy, hys⟩
    by_cases hle : le y x = true
    · simp only [insertByLe, if_pos hle]
      refine List.pairwise_cons.mpr ⟨?_, ih hys⟩
      intro z hz
      rcases (mem_insertByLe le x ys z).mp hz with hz | hz
      · subst hz; exact hle
      · exact hy z hz
    · simp only [insertByLe, if_neg hle]
      have hxy : le x y = true := by
        rcases htot y x with h1 | h1
        · exact absurd h1 hle
        · exact h1
      refine List.pairwise_cons.mpr ⟨?_, h⟩
      intro z hz
      rcases List.mem_cons.mp hz with hz | hz
      · subst hz; exact hxy
      · exact htrans x y z hxy (hy z hz)

theorem pairwise_stableSortBy {α : Type} (le : α → α → Bool)
    (htot : ∀ a b, le a b = true ∨ le b a = true)
    (htrans : ∀ a b c, le a b = true → le b c = true → le a c = true)
    (l : List α) : (stableSortBy le l).Pairwise (fun a b => le a b = true) := by
  have main : ∀ (m acc : List α), acc.Pairwise (fun a b => le a b = true) →
      (m.foldl (fun a x => insertByLe le x a) acc).Pairwise (fun a b => le a b = true) := by
    intro m
    induction m with
    | nil => intro acc h; exact h
    | cons x xs ih =>
      intro acc h
      exact ih _ (pairwise_insertByLe le htot htrans x acc h)
  exact main l [] List.Pairwise.nil

theorem insertByLe_of_all {α : Type} (le : α → α → Bool) (x : α) (l : List α)
    (h : ∀ y ∈ l, le y x = true) : insertByLe le x l = l ++ [x] := by
  induction l with
  | nil => simp [insertByLe]
  | cons y ys ih =>
    have hy : le y x = true := h y (List.mem_cons_self y ys)
    simp only [insertByLe, if_pos hy, List.cons_append, List.cons.injEq, true_and]
    exact ih (fun z hz => h z (List.mem_cons_of_mem y hz))

theorem stableSortBy_concat {α : Type} (le : α → α → Bool) (l : List α) (x : α) :
    stableSortBy le (l ++ [x]) = insertByLe le x (stableSortBy le l) := by
  simp [stableSortBy, List.foldl_append]

theorem stableSortBy_of_sorted {α : Type} (le : α → α → Bool) (l : List α)
    (h : l.Pairwise (fun a b => le a b = true)) : stableSortBy le l = l := by
  induction l using List.reverseRecOn with
  | nil => rfl
  | append_singleton ys y ih =>
    have hys : ys.Pairwise (fun a b => le a b = true) := h.sublist (List.sublist_append_left ys [y])
    have hall : ∀ z ∈ ys, le z y = true := by
      intro z hz
      have := List.pairwise_append.mp h
      exact this.2.2 z hz y (List.mem_singleton_self y)
    rw [stableSortBy_concat, ih hys, insertByLe_of_all le y ys hall]

theorem find?_insertByLe_of_neg {α : Type} (le : α → α → Bool) (p : α → Bool) (x : α)
    (l : List α) (hx : p x = false) : (insertByLe le x l).find? p = l.find? p := by
  induction l with
  | nil => simp [insertByLe, List.find?, hx]
  | cons y ys ih =>
    by_cases h : le y x = true
    · simp only [insertByLe, if_pos h]
      cases hp : p y with
      | true => simp [List.find?, hp]
      | false => simp [List.find?, hp, ih]
    · simp [insertByLe, if_neg h, List.find?, hx]


/-! ### `updateIndexes` facts (claims C5 and C9) -/

theorem strLeAux_total (l1 l2 : List Char) :
    strLeAux l1 l2 = true ∨ strLeAux l2 l1 = true := by
  induction l1 generalizing l2 with
  | nil => exact Or.inl rfl
  | cons a as ih =>
    cases l2 with
    | nil => exact Or.inr rfl
    | cons b bs =>
      by_cases h1 : a.toNat < b.toNat
      · exact Or.inl (by simp [strLeAux, h1])
      · by_cases h2 : b.toNat < a.toNat
        · exact Or.inr (by simp [strLeAux, h2])
        · rcases ih bs with h | h
          · exact Or.inl (by simp [strLeAux, h1, h2, h])
          · exact Or.inr (by simp [strLeAux, h1, h2, h])

theorem strLeAux_trans (l1 l2 l3 : List Char) (h12 : strLeAux l1 l2 = true)
    (h23 : strLeAux l2 l3 = true) : strLeAux l1 l3 = true := by
  induction l1 generalizing l2 l3 with
  | nil => rfl
  | cons a as ih =>
    cases l2 with
    | nil => simp [strLeAux] at h12
    | cons b bs =>
      cases l3 with
      | nil => simp [strLeAux] at h23
      | cons c cs =>
        simp only [strLeAux] at h12 h23 ⊢
        by_cases hab : a.toNat < b.toNat
        · by_cases hbc : b.toNat < c.toNat
          · simp [show a.toNat < c.toNat from lt_trans hab hbc]
          · by_cases hcb : c.toNat < b.toNat
            · simp [hbc, hcb] at h23
            · simp [show a.toNat < c.toNat by omega]
        · by_cases hba : b.toNat < a.toNat
          · simp [hab, hba] at h12
          · by_cases hbc : b.toNat < c.toNat
            · simp [show a.toNat < c.toNat by omega]
            · by_cases hcb : c.toNat < b.toNat
              · simp [hbc, hcb] at h23
              · simp only [hab, hba, if_false] at h12
                simp only [hbc, hcb, if_false] at h23
                simp only [show ¬(a.toNat < c.toNat) by omega,
                  show ¬(c.toNat < a.toNat) by omega, if_false]
                exact ih bs cs h12 h23

theorem strLe_refl (x : String) : strLe x x = true := by
  show strLeAux x.data x.data = true
  induction x.data with
  | nil => rfl
  | cons a as ih => simp [strLeAux, ih]

theorem ventLe_total (a b : VEntry) : ventLe a b = true ∨ ventLe b a = true :=
  strLeAux_total b.built_at.data a.built_at.data

theorem ventLe_trans (a b c : VEntry) (hab : ventLe a b = true) (hbc : ventLe b c = true) :
    ventLe a c = true :=
  strLeAux_trans c.built_at.data b.built_at.data a.built_at.data hbc hab

theorem pairwise_head_max {α : Type} (R : α → α → Prop) (hrefl : ∀ a, R a a)
    (l : List α) (h : l.Pairwise R) : ∀ e ∈ l, ∀ h0 ∈ l.head?, R h0 e := by
  cases l with
  | nil => simp
  | cons a rest =>
    intro e he h0 hh0
    simp only [List.head?_cons, Option.mem_def, Option.some.injEq] at hh0
    subst hh0
    rcases List.mem_cons.mp he with rfl | he
    · exact hrefl e
    · exact (List.pairwise_cons.mp h).1 e he

/-- The freshly stored versions list of `updateIndexes`. -/
theorem updateIndexes_versions (ix : IndexState) (pkg version : String)
    (channel : Option String) (builtAt : String) (meta : Option String) :
    lookupD (updateIndexes ix pkg version channel builtAt meta).versionsIdx pkg =
      some (stableSortBy ventLe
        ((((lookupD ix.versionsIdx pkg).getD []).filter (fun v => v.version != version))
          ++ [⟨version, channel, builtAt⟩])) := by
  simp [updateIndexes, lookupD_upsertD_self]

/-- The freshly stored global entry of `updateIndexes`. -/
theorem updateIndexes_global (ix : IndexState) (pkg version : String)
    (channel : Option String) (builtAt : String) (meta : Option String) :
    lookupD (updateIndexes ix pkg version channel builtAt meta).globalIdx.packages pkg =
      some (let vs2 := stableSortBy ventLe
              ((((lookupD ix.versionsIdx pkg).getD []).filter (fun v => v.version != version))
                ++ [⟨version, channel, builtAt⟩])
            { last_stable := vs2.find? (fun v => v.channel == some "stable")
              last_beta := vs2.find? (fun v => v.channel == some "beta")
              last_latest := vs2.head?
              meta := jsOrO meta ((lookupD ix.globalIdx.packages pkg).bind (fun g => g.meta)) }) := by
  simp [updateIndexes, lookupD_upsertD_self]

/-- C5: after every call to `updateIndexes` for a package, the package's
global index entry satisfies: `last_latest` is the first entry of the freshly
sorted per-package version list (sorted newest-first by `built_at`),
`last_stable` is the first entry whose channel is `stable`, and `last_beta`
the first whose channel is `beta`; in particular `last_latest` has the
maximal `built_at` of the whole list, independent of channel. -/
theorem C5_index_recompute (ix : IndexState) (pkg version : String)
    (channel : Option String) (builtAt : String) (meta : Option String) :
    ∃ g, lookupD (updateIndexes ix pkg version channel builtAt meta).globalIdx.packages pkg
        = some g ∧
      (let vs' := (lookupD (updateIndexes ix pkg version channel builtAt meta).versionsIdx
        pkg).getD []
       g.last_latest = vs'.head? ∧
       g.last_stable = vs'.find? (fun v => v.channel == some "stable") ∧
       g.last_beta = vs'.find? (fun v => v.channel == some "beta") ∧
       vs'.Pairwise (fun a b => strLe b.built_at a.built_at = true) ∧
       ∀ e ∈ vs', ∀ h0 ∈ vs'.head?, strLe e.built_at h0.built_at = true) := by
  refine ⟨_, updateIndexes_global ix pkg version channel builtAt meta, ?_⟩
  rw [updateIndexes_versions ix pkg version channel builtAt meta]
  refine ⟨rfl, rfl, rfl, ?_, ?_⟩
  · exact (pairwise_stableSortBy ventLe ventLe_total ventLe_trans _).imp
      (fun hab => hab)
  · intro e he h0 hh0
    have hp := (pairwise_stableSortBy ventLe ventLe_total ventLe_trans
      ((((lookupD ix.versionsIdx pkg).getD []).filter (fun v => v.version != version))
        ++ [⟨version, channel, builtAt⟩])).imp
      (fun hab => hab)
    exact @pairwise_head_max VEntry (fun a b => strLe b.built_at a.built_at = true)
      (fun a => strLe_refl a.built_at) _ hp e he h0 hh0

/-- C9: `updateIndexes` upserts by version key: the stored list holds the
published version exactly once (with the new channel and `built_at`),
uniqueness-by-version of the list is preserved, and the list is ordered
newest-first by `built_at`. -/
theorem C9_versions_upsert (ix : IndexState) (pkg version : String)
    (channel : Option String) (builtAt : String) (meta : Option String)
    (huniq : ((lookupD ix.versionsIdx pkg).getD []).Pairwise
      (fun a b => a.version ≠ b.version)) :
    (let vs' := (lookupD (updateIndexes ix pkg version channel builtAt meta).versionsIdx
      pkg).getD []
     vs'.filter (fun v => v.version == version) = [⟨version, channel, builtAt⟩] ∧
     vs'.Pairwise (fun a b => a.version ≠ b.version) ∧
     vs'.Pairwise (fun a b => strLe b.built_at a.built_at = true)) := by
  rw [updateIndexes_versions ix pkg version channel builtAt meta]
  set old := (lookupD ix.versionsIdx pkg).getD [] with hold
  set vs1 := (old.filter (fun v => v.version != version)) ++ [(⟨version, channel, builtAt⟩ : VEntry)]
    with hvs1
  have hperm : List.Perm (stableSortBy ventLe vs1) vs1 := stableSortBy_perm ventLe vs1
  refine ⟨?_, ?_, ?_⟩
  · have hpf := hperm.filter (fun v => v.version == version)
    have hval : vs1.filter (fun v => v.version == version) = [⟨version, channel, builtAt⟩] := by
      rw [hvs1, List.filter_append, List.filter_filter]
      have h1 : ∀ v : VEntry, (v.version == version && (v.version != version)) = false := by
        intro v
        by_cases hv : v.version = version <;> simp [hv]
      simp [List.filter_eq_nil_iff, h1]
    rw [hval] at hpf
    exact List.perm_singleton.mp hpf
  · have hsym : Symmetric (fun a b : VEntry => a.version ≠ b.version) :=
      fun a b hab h => hab h.symm
    have hvs1p : vs1.Pairwise (fun a b => a.version ≠ b.version) := by
      refine List.pairwise_append.mpr ⟨huniq.filter _, List.pairwise_singleton _ _, ?_⟩
      intro a ha b hb
      rcases List.mem_filter.mp ha with ⟨_, hane⟩
      rcases List.mem_singleton.mp hb with rfl
      simpa using hane
    exact hvs1p.perm hperm.symm (fun h => hsym h)
  · exact (pairwise_stableSortBy ventLe ventLe_total ventLe_trans vs1).imp
      (fun hab => hab)

/-- Concrete instantiation of `C9_versions_upsert` at an empty prior index. -/
theorem C9_versions_upsert_witness :
    (let vs' := (lookupD (updateIndexes ⟨[], ⟨"", []⟩⟩ "p" "v1.0.0" (some "stable")
      "2025-01-01T00:00:00Z" none).versionsIdx "p").getD []
     vs'.filter (fun v => v.version == "v1.0.0")
        = [⟨"v1.0.0", some "stable", "2025-01-01T00:00:00Z"⟩] ∧
     vs'.Pairwise (fun a b => a.version ≠ b.version) ∧
     vs'.Pairwise (fun a b => strLe b.built_at a.built_at = true)) :=
  C9_versions_upsert ⟨[], ⟨"", []⟩⟩ "p" "v1.0.0" (some "stable") "2025-01-01T00:00:00Z" none
    List.Pairwise.nil

/-! ### Association-list auxiliary lemmas -/

theorem lookupD_eq_none_of_not_mem {α : Type} (m : List (String × α)) (k : String)
    (h : k ∉ m.map Prod.fst) : lookupD m k = none := by
  induction m with
  | nil => rfl
  | cons hd tl ih =>
    obtain ⟨k', v'⟩ := hd
    simp only [List.map_cons, List.mem_cons] at h
    push_neg at h
    have h1 : ¬ k' = k := fun hh => h.1 hh.symm
    simp [lookupD, h1, ih h.2]

theorem mem_keys_of_lookupD_some {α : Type} {m : List (String × α)} {k : String} {v : α}
    (h : lookupD m k = some v) : k ∈ m.map Prod.fst := by
  induction m with
  | nil => simp [lookupD] at h
  | cons hd tl ih =>
    obtain ⟨k', v'⟩ := hd
    by_cases he : k' = k
    · simp [he]
    · simp only [lookupD, if_neg he] at h
      simp [ih h]

theorem nodup_keys_upsertD {α : Type} (m : List (String × α)) (k : String) (v : α)
    (h : (m.map Prod.fst).Nodup) : ((upsertD m k v).map Prod.fst).Nodup := by
  by_cases hk : k ∈ m.map Prod.fst
  · rw [keys_upsertD_of_mem m k v hk]; exact h
  · rw [keys_upsertD_of_not_mem m k v hk]
    refine List.Nodup.append h (List.nodup_singleton k) ?_
    intro x hx hx'
    rcases List.mem_singleton.mp hx' with rfl
    exact hk hx

/-! ### Directory-name disjointness -/

theorem v_name_ne_at_name (s t : String) : ("v" ++ s) ≠ ("@" ++ t) := by
  intro h
  have h2 := congrArg String.data h
  simp [String.data_append] at h2

theorem alias_minor_ne_major (a b : String) : ("v" ++ a ++ "." ++ b) ≠ ("v" ++ a) := by
  intro h
  have h2 := congrArg (fun s => s.data.length) h
  simp [String.data_append] at h2

/-! ### Bridge from the strict semver parser to `semver.coerce` -/

theorem takeDigitsRun_cons_digit {cs : List Char} {d : List Char} {r : List Char}
    (h : takeDigitsRun cs = (d, r)) (hne : d ≠ []) :
    ∃ c cs', cs = c :: cs' ∧ c.isDigit = true := by
  cases cs with
  | nil =>
    simp only [takeDigitsRun, Prod.mk.injEq] at h
    first
    | exact absurd h.1 hne
    | exact absurd h.1.symm hne
  | cons c cs' =>
    by_cases hc : c.isDigit = true
    · exact ⟨c, cs', rfl, hc⟩
    · simp only [takeDigitsRun, hc, Bool.false_eq_true, if_false, Prod.mk.injEq] at h
      first
      | exact absurd h.1 hne
      | exact absurd h.1.symm hne

theorem coerce_of_parseCore (cs : List Char) (ma mi pa : Nat) (rest : List Char)
    (h : parseCore cs = some (ma, mi, pa, rest)) :
    firstDigitSuffix cs = some cs ∧ coerceFrom cs = ⟨ma, mi, pa⟩ := by
  simp only [parseCore] at h
  split at h
  · simp at h
  · rename_i h1
    split at h
    · rename_i hdot1
      split at h
      · simp at h
      · rename_i h2
        split at h
        · rename_i hdot2
          split at h
          · simp at h
          · rename_i h3
            simp only [Option.some.injEq, Prod.mk.injEq] at h
            obtain ⟨hma, hmi, hpa, hrest⟩ := h
            have hne1 : (takeDigitsRun cs).1 ≠ [] := by
              intro hd
              rw [hd] at h1
              simp at h1
            rcases hp1 : takeDigitsRun cs with ⟨d1, r1⟩
            rw [hp1] at hne1
            obtain ⟨c, cs', hcs, hdig⟩ := takeDigitsRun_cons_digit hp1 hne1
            have hd2 : ¬ (takeDigitsRun (takeDigitsRun cs).2.tail).1.isEmpty = true := by
              intro hd
              rw [hd] at h2
              simp at h2
            have hd3 : ¬ (takeDigitsRun
                (takeDigitsRun (takeDigitsRun cs).2.tail).2.tail).1.isEmpty = true := by
              intro hd
              rw [hd] at h3
              simp at h3
            constructor
            · rw [hcs]
              simp [firstDigitSuffix, hdig]
            · simp only [coerceFrom, hdot1, if_true, hd2, Bool.false_eq_true, if_false,
                hdot2, hd3]
              simp [hma, hmi, hpa]
        · simp at h
    · simp at h

theorem semverCoerce_of_parseStrict (s : String) (sv : StrictSemver)
    (h : parseStrict s = some sv) :
    semverCoerce s = some ⟨sv.major, sv.minor, sv.patch⟩ := by
  rcases hpc : parseCore s.data with _ | ⟨ma, mi, pa, rest⟩
  · simp [parseStrict, hpc] at h
  · have hmm : sv.major = ma ∧ sv.minor = mi ∧ sv.patch = pa := by
      simp only [parseStrict, hpc] at h
      split at h
      · simp at h
      · split at h
        · simp only [Option.some.injEq] at h
          rw [← h]
          exact ⟨rfl, rfl, rfl⟩
        · split at h
          · split at h
            · simp only [Option.some.injEq] at h
              rw [← h]
              exact ⟨rfl, rfl, rfl⟩
            · simp at h
          · simp at h
    obtain ⟨h1, h2, h3⟩ := hmm
    have hco := coerce_of_parseCore s.data ma mi pa rest hpc
    simp [semverCoerce, hco.1, hco.2, h1, h2, h3]

/-! ### Locating pointer and alias directories after `publishExternal` -/

theorem string_ne_of_head_ne {s t : String} (h : s.data.head? ≠ t.data.head?) : s ≠ t :=
  fun he => h (by rw [he])

theorem head_v_append (x : String) : ("v" ++ x).data.head? = some 'v' := by
  simp [String.data_append]

theorem head_v_append2 (x y : String) : ("v" ++ x ++ "." ++ y).data.head? = some 'v' := by
  simp [String.data_append]

theorem v_append_ne_atLatest (x : String) : ("v" ++ x) ≠ "@latest" := by
  apply string_ne_of_head_ne
  rw [head_v_append]
  decide

theorem v_append_ne_atStable (x : String) : ("v" ++ x) ≠ "@stable" := by
  apply string_ne_of_head_ne
  rw [head_v_append]
  decide

theorem v_append_ne_atBeta (x : String) : ("v" ++ x) ≠ "@beta" := by
  apply string_ne_of_head_ne
  rw [head_v_append]
  decide

theorem v_append2_ne_atLatest (x y : String) : ("v" ++ x ++ "." ++ y) ≠ "@latest" := by
  apply string_ne_of_head_ne
  rw [head_v_append2]
  decide

theorem v_append2_ne_atStable (x y : String) : ("v" ++ x ++ "." ++ y) ≠ "@stable" := by
  apply string_ne_of_head_ne
  rw [head_v_append2]
  decide

theorem v_append2_ne_atBeta (x y : String) : ("v" ++ x ++ "." ++ y) ≠ "@beta" := by
  apply string_ne_of_head_ne
  rw [head_v_append2]
  decide

theorem publishExternal_shape_latest (hash : List Nat → String) (pd : PkgDir)
    (pkg version : String) (channel : Option String) (builtAt : String)
    (upstream : Option Upstream) (meta : Option String) (files : List FileInput) :
    publishExternal hash pd pkg version channel builtAt upstream meta files "latest" =
      (let manifest := publishManifest hash pkg version channel builtAt upstream meta files
       let vdir := versionDirOf files manifest
       let d4 := upsertD (ensureDir (ensureDir (ensureDir (ensureDir pd ("v" ++ version))
         "@latest") "@stable") "@beta") ("v" ++ version) vdir
       let d5 := upsertD d4 "@latest" (syncPointerDir vdir manifest)
       if channel = some "stable" then
         match semverCoerce version with
         | some c =>
           upsertD (upsertD d5 ("v" ++ toString c.major) (syncPointerDir vdir manifest))
             ("v" ++ toString c.major ++ "." ++ toString c.minor) (syncPointerDir vdir manifest)
         | none => d5
       else d5) := rfl

theorem publishExternal_shape_stable (hash : List Nat → String) (pd : PkgDir)
    (pkg version : String) (channel : Option String) (builtAt : String)
    (upstream : Option Upstream) (meta : Option String) (files : List FileInput) :
    publishExternal hash pd pkg version channel builtAt upstream meta files "stable" =
      (let manifest := publishManifest hash pkg version channel builtAt upstream meta files
       let vdir := versionDirOf files manifest
       let d4 := upsertD (ensureDir (ensureDir (ensureDir (ensureDir pd ("v" ++ version))
         "@latest") "@stable") "@beta") ("v" ++ version) vdir
       let d6 := upsertD d4 "@stable" (syncPointerDir vdir manifest)
       if channel = some "stable" then
         match semverCoerce version with
         | some c =>
           upsertD (upsertD d6 ("v" ++ toString c.major) (syncPointerDir vdir manifest))
             ("v" ++ toString c.major ++ "." ++ toString c.minor) (syncPointerDir vdir manifest)
         | none => d6
       else d6) := rfl

theorem publishExternal_shape_beta (hash : List Nat → String) (pd : PkgDir)
    (pkg version : String) (channel : Option String) (builtAt : String)
    (upstream : Option Upstream) (meta : Option String) (files : List FileInput) :
    publishExternal hash pd pkg version channel builtAt upstream meta files "beta" =
      (let manifest := publishManifest hash pkg version channel builtAt upstream meta files
       let vdir := versionDirOf files manifest
       let d4 := upsertD (ensureDir (ensureDir (ensureDir (ensureDir pd ("v" ++ version))
         "@latest") "@stable") "@beta") ("v" ++ version) vdir
       let d7 := upsertD d4 "@beta" (syncPointerDir vdir manifest)
       if channel = some "stable" then
         match semverCoerce version with
         | some c =>
           upsertD (upsertD d7 ("v" ++ toString c.major) (syncPointerDir vdir manifest))
             ("v" ++ toString c.major ++ "." ++ toString c.minor) (syncPointerDir vdir manifest)
         | none => d7
       else d7) := rfl

/-- The requested channel pointer directory of `publishExternal` holds exactly
the `syncPointer` result of the just-written version. -/
theorem publishExternal_lookup_pointer (hash : List Nat → String) (pd : PkgDir)
    (pkg version : String) (channel : Option String) (builtAt : String)
    (upstream : Option Upstream) (meta : Option String) (files : List FileInput)
    (p : String) (hp : p = "latest" ∨ p = "stable" ∨ p = "beta") :
    lookupD (publishExternal hash pd pkg version channel builtAt upstream meta files p)
        ("@" ++ p)
      = some (syncPointerDir
          (versionDirOf files
            (publishManifest hash pkg version channel builtAt upstream meta files))
          (publishManifest hash pkg version channel builtAt upstream meta files)) := by
  rcases hp with rfl | rfl | rfl
  · rw [publishExternal_shape_latest]
    show lookupD _ "@latest" = _
    simp only []
    split
    · rcases hco : semverCoerce version with _ | c
      · simp only [hco]
        exact lookupD_upsertD_self _ _ _
      · simp only [hco]
        rw [lookupD_upsertD_ne _ _ _ _ (Ne.symm (v_append2_ne_atLatest _ _)),
          lookupD_upsertD_ne _ _ _ _ (Ne.symm (v_append_ne_atLatest _))]
        exact lookupD_upsertD_self _ _ _
    · exact lookupD_upsertD_self _ _ _
  · rw [publishExternal_shape_stable]
    show lookupD _ "@stable" = _
    simp only []
    split
    · rcases hco : semverCoerce version with _ | c
      · simp only [hco]
        exact lookupD_upsertD_self _ _ _
      · simp only [hco]
        rw [lookupD_upsertD_ne _ _ _ _ (Ne.symm (v_append2_ne_atStable _ _)),
          lookupD_upsertD_ne _ _ _ _ (Ne.symm (v_append_ne_atStable _))]
        exact lookupD_upsertD_self _ _ _
    · exact lookupD_upsertD_self _ _ _
  · rw [publishExternal_shape_beta]
    show lookupD _ "@beta" = _
    simp only []
    split
    · rcases hco : semverCoerce version with _ | c
      · simp only [hco]
        exact lookupD_upsertD_self _ _ _
      · simp only [hco]
        rw [lookupD_upsertD_ne _ _ _ _ (Ne.symm (v_append2_ne_atBeta _ _)),
          lookupD_upsertD_ne _ _ _ _ (Ne.symm (v_append_ne_atBeta _))]
        exact lookupD_upsertD_self _ _ _
    · exact lookupD_upsertD_self _ _ _

/-- C4: whenever a publish completes with channel `stable` and a version that
parses as a valid, non-prerelease semantic version, both alias pointer
directories `v<major>` and `v<major>.<minor>` are rebuilt to hold exactly the
`syncPointer` mirror of that version's files and manifest — for every prior
state of the package directory, so the aliases always reflect the most
recently published stable version even when a previously published stable
version with the same prefix had a higher semantic version. -/
theorem C4_stable_aliases (hash : List Nat → String) (pd : PkgDir)
    (pkg version builtAt : String) (upstream : Option Upstream) (meta : Option String)
    (files : List FileInput) (updatePointer : String) (sv : StrictSemver)
    (hparse : parseStrict version = some sv) (_hpre : sv.pre = []) :
    (let m := publishManifest hash pkg version (some "stable") builtAt upstream meta files
     let res := publishExternal hash pd pkg version (some "stable") builtAt upstream meta
       files updatePointer
     lookupD res ("v" ++ toString sv.major) = some (syncPointerDir (versionDirOf files m) m) ∧
     lookupD res ("v" ++ toString sv.major ++ "." ++ toString sv.minor)
       = some (syncPointerDir (versionDirOf files m) m)) := by
  have hco : semverCoerce version = some ⟨sv.major, sv.minor, sv.patch⟩ :=
    semverCoerce_of_parseStrict version sv hparse
  simp only [publishExternal, hco, if_true, reduceIte]
  constructor
  · rw [lookupD_upsertD_ne _ _ _ _
      (Ne.symm (alias_minor_ne_major (toString sv.major) (toString sv.minor)))]
    exact lookupD_upsertD_self _ _ _
  · exact lookupD_upsertD_self _ _ _

/-! ### The version directory and the pointer mirror (claim C1) -/

theorem lookupD_eq_of_mem_nodup {α : Type} {m : List (String × α)} {k : String} {v : α}
    (hnd : (m.map Prod.fst).Nodup) (hmem : (k, v) ∈ m) : lookupD m k = some v := by
  induction m with
  | nil => simp at hmem
  | cons hd tl ih =>
    obtain ⟨k', v'⟩ := hd
    rcases List.mem_cons.mp hmem with he | he
    · obtain ⟨h1, h2⟩ := Prod.mk.injEq .. ▸ he
      simp [lookupD, h1.symm, h2]
    · have hk : k' ≠ k := by
        intro h
        subst h
        have : k' ∈ tl.map Prod.fst := List.mem_map.mpr ⟨(k', v), he, rfl⟩
        exact (List.nodup_cons.mp hnd).1 this
      simp only [lookupD, if_neg hk]
      exact ih (List.nodup_cons.mp hnd).2 he

theorem fold_aligned (hash : List Nat → String) (files : List FileInput)
    (accD : List (String × Content)) (accM : List (String × FileEntry))
    (hkeys : accM.map Prod.fst = accD.map Prod.fst)
    (hval : ∀ n e, lookupD accM n = some e →
      ∃ b, lookupD accD n = some (Content.raw b) ∧ e = ⟨hash b, b.length⟩) :
    ((files.foldl (fun acc f =>
        upsertD acc (resolvedName f) ⟨hash f.content, f.content.length⟩) accM).map Prod.fst
      = (files.foldl (fun acc f =>
        upsertD acc (resolvedName f) (Content.raw f.content)) accD).map Prod.fst) ∧
    (∀ n e, lookupD (files.foldl (fun acc f =>
        upsertD acc (resolvedName f) ⟨hash f.content, f.content.length⟩) accM) n = some e →
      ∃ b, lookupD (files.foldl (fun acc f =>
        upsertD acc (resolvedName f) (Content.raw f.content)) accD) n = some (Content.raw b) ∧
        e = ⟨hash b, b.length⟩) := by
  induction files generalizing accD accM with
  | nil => exact ⟨hkeys, hval⟩
  | cons f fs ih =>
    apply ih
    · by_cases hmem : resolvedName f ∈ accM.map Prod.fst
      · rw [keys_upsertD_of_mem _ _ _ hmem, keys_upsertD_of_mem _ _ _ (hkeys ▸ hmem), hkeys]
      · rw [keys_upsertD_of_not_mem _ _ _ hmem,
          keys_upsertD_of_not_mem _ _ _ (hkeys ▸ hmem), hkeys]
    · intro n e hn
      by_cases hne : n = resolvedName f
      · subst hne
        rw [lookupD_upsertD_self] at hn
        refine ⟨f.content, ?_, ?_⟩
        · rw [lookupD_upsertD_self]
        · injection hn with hn2
          exact hn2.symm
      · rw [lookupD_upsertD_ne _ _ _ _ hne] at hn
        obtain ⟨b, hb, he⟩ := hval n e hn
        exact ⟨b, by rw [lookupD_upsertD_ne _ _ _ _ hne]; exact hb, he⟩

theorem nodup_keys_foldl_upsert {α : Type} {β : Type} (g : β → String) (h : β → α)
    (files : List β) (acc : List (String × α)) (hacc : (acc.map Prod.fst).Nodup) :
    ((files.foldl (fun a f => upsertD a (g f) (h f)) acc).map Prod.fst).Nodup := by
  induction files generalizing acc with
  | nil => exact hacc
  | cons f fs ih => exact ih _ (nodup_keys_upsertD _ _ _ hacc)

theorem keys_foldl_upsert_from {α : Type} {β : Type} (g : β → String) (h : β → α)
    (files : List β) (acc : List (String × α)) :
    ∀ n, n ∈ ((files.foldl (fun a f => upsertD a (g f) (h f)) acc).map Prod.fst) →
      n ∈ acc.map Prod.fst ∨ ∃ f ∈ files, g f = n := by
  induction files generalizing acc with
  | nil =>
    intro n hn
    exact Or.inl hn
  | cons f fs ih =>
    intro n hn
    rcases ih _ n hn with hmem | hex
    · by_cases hm : g f ∈ acc.map Prod.fst
      · rw [keys_upsertD_of_mem _ _ _ hm] at hmem
        exact Or.inl hmem
      · rw [keys_upsertD_of_not_mem _ _ _ hm] at hmem
        rcases List.mem_append.mp hmem with h1 | h1
        · exact Or.inl h1
        · rcases List.mem_singleton.mp h1 with rfl
          exact Or.inr ⟨f, List.mem_cons_self f fs, rfl⟩
    · obtain ⟨f', hf', hg⟩ := hex
      exact Or.inr ⟨f', List.mem_cons_of_mem f hf', hg⟩

theorem copyFold_go (vdir : Dirc) (mf : List (String × FileEntry)) (acc : Dirc)
    (hnd : ((acc.map Prod.fst) ++ (mf.map Prod.fst)).Nodup)
    (hfound : ∀ nf ∈ mf, (lookupD vdir nf.1).isSome = true) :
    ((mf.foldl (fun a nf => match lookupD vdir nf.1 with
        | some c => upsertD a nf.1 c
        | none => a) acc).map Prod.fst = acc.map Prod.fst ++ mf.map Prod.fst) ∧
    (∀ n, n ∈ mf.map Prod.fst →
      lookupD (mf.foldl (fun a nf => match lookupD vdir nf.1 with
        | some c => upsertD a nf.1 c
        | none => a) acc) n = lookupD vdir n) ∧
    (∀ n, n ∉ mf.map Prod.fst →
      lookupD (mf.foldl (fun a nf => match lookupD vdir nf.1 with
        | some c => upsertD a nf.1 c
        | none => a) acc) n = lookupD acc n) := by
  induction mf generalizing acc with
  | nil => exact ⟨by simp, by simp, fun n _ => rfl⟩
  | cons nf rest ih =>
    obtain ⟨k, e⟩ := nf
    have hksome : (lookupD vdir k).isSome = true :=
      hfound (k, e) (List.mem_cons_self _ _)
    obtain ⟨c, hc⟩ := Option.isSome_iff_exists.mp hksome
    have hknotacc : k ∉ acc.map Prod.fst := by
      have hdisj := (List.nodup_append.mp hnd).2.2
      intro hk
      exact hdisj hk (by simp)
    have hkeys1 : (upsertD acc k c).map Prod.fst = acc.map Prod.fst ++ [k] :=
      keys_upsertD_of_not_mem _ _ _ hknotacc
    have hnd' : (((upsertD acc k c).map Prod.fst) ++ (rest.map Prod.fst)).Nodup := by
      rw [hkeys1, List.append_assoc]
      simpa using hnd
    have hrest : ∀ nf ∈ rest, (lookupD vdir nf.1).isSome = true :=
      fun nf hnf => hfound nf (List.mem_cons_of_mem _ hnf)
    have hknotrest : k ∉ rest.map Prod.fst := by
      have := (List.nodup_append.mp hnd).2.1
      simp only [List.map_cons, List.nodup_cons] at this
      exact this.1
    obtain ⟨ihk, ihmem, ihnot⟩ := ih (upsertD acc k c) hnd' hrest
    have hstep : ((k, e) :: rest).foldl (fun a nf => match lookupD vdir nf.1 with
        | some c => upsertD a nf.1 c
        | none => a) acc
      = rest.foldl (fun a nf => match lookupD vdir nf.1 with
        | some c => upsertD a nf.1 c
        | none => a) (upsertD acc k c) := by
      simp only [List.foldl_cons, hc]
    refine ⟨?_, ?_, ?_⟩
    · rw [hstep, ihk, hkeys1, List.append_assoc]
      rfl
    · intro n hn
      rw [hstep]
      rcases List.mem_cons.mp hn with rfl | hn'
      · rw [ihnot n hknotrest, lookupD_upsertD_self, hc]
      · exact ihmem n hn'
    · intro n hn
      rw [hstep]
      simp only [List.map_cons, List.mem_cons] at hn
      push_neg at hn
      rw [ihnot n hn.2, lookupD_upsertD_ne _ _ _ _ hn.1]

theorem manifestFiles_aligned (hash : List Nat → String) (files : List FileInput) :
    ((manifestFilesOf hash files).map Prod.fst = (versionFilesOf files).map Prod.fst) ∧
    (∀ n e, lookupD (manifestFilesOf hash files) n = some e →
      ∃ b, lookupD (versionFilesOf files) n = some (Content.raw b) ∧
        e = ⟨hash b, b.length⟩) := by
  have h := fold_aligned hash files [] [] rfl (by intro n e h; simp [lookupD] at h)
  exact h

/-- Everything claim C1 needs about the mirror a pointer receives, provided no
published file is itself named `manifest.json`. -/
theorem syncPointerDir_spec (hash : List Nat → String) (files : List FileInput)
    (m : Manifest) (hm : m.files = manifestFilesOf hash files)
    (hnames : "manifest.json" ∉ (manifestFilesOf hash files).map Prod.fst) :
    ((syncPointerDir (versionDirOf files m) m).map Prod.fst
        = m.files.map Prod.fst ++ ["manifest.json"]) ∧
    lookupD (syncPointerDir (versionDirOf files m) m) "manifest.json"
        = some (Content.json m) ∧
    (∀ n e, (n, e) ∈ m.files →
      ∃ b, lookupD (syncPointerDir (versionDirOf files m) m) n = some (Content.raw b) ∧
        hash b = e.integrity ∧ b.length = e.bytes) := by
  obtain ⟨halignK, halignV⟩ := manifestFiles_aligned hash files
  have hmfK : (manifestFilesOf hash files).map Prod.fst
      = (versionFilesOf files).map Prod.fst := halignK
  have hndmf : ((manifestFilesOf hash files).map Prod.fst).Nodup :=
    nodup_keys_foldl_upsert _ _ files [] List.nodup_nil
  have hvdir : ∀ n, n ≠ "manifest.json" →
      lookupD (versionDirOf files m) n = lookupD (versionFilesOf files) n := by
    intro n hn
    exact lookupD_upsertD_ne _ _ _ _ hn
  have hmfmem : ∀ n, n ∈ (manifestFilesOf hash files).map Prod.fst → n ≠ "manifest.json" := by
    intro n hnmem hn
    subst hn
    exact hnames hnmem
  have hfound : ∀ nf ∈ m.files, (lookupD (versionDirOf files m) nf.1).isSome = true := by
    intro nf hnf
    obtain ⟨k, e⟩ := nf
    have hkmem : k ∈ (manifestFilesOf hash files).map Prod.fst := by
      rw [← hm]
      exact List.mem_map.mpr ⟨(k, e), hnf, rfl⟩
    have hlk : lookupD (manifestFilesOf hash files) k = some e :=
      lookupD_eq_of_mem_nodup (hm ▸ hndmf) (hm ▸ hnf)
    obtain ⟨b, hb, _⟩ := halignV k e hlk
    rw [hvdir k (hmfmem k hkmem), hb]
    rfl
  have hndacc : ((([] : Dirc).map Prod.fst) ++ (m.files.map Prod.fst)).Nodup := by
    rw [hm]
    simpa using hndmf
  obtain ⟨hcpK, hcpMem, hcpNot⟩ := copyFold_go (versionDirOf files m) m.files [] hndacc hfound
  have hmj_not : "manifest.json" ∉ m.files.map Prod.fst := by
    rw [hm]
    exact hnames
  refine ⟨?_, ?_, ?_⟩
  · show (upsertD _ "manifest.json" (Content.json m)).map Prod.fst = _
    rw [keys_upsertD_of_not_mem _ _ _ (by rw [hcpK]; simpa using hmj_not), hcpK]
    simp
  · exact lookupD_upsertD_self _ _ _
  · intro n e hne
    have hnmem : n ∈ m.files.map Prod.fst := List.mem_map.mpr ⟨(n, e), hne, rfl⟩
    have hnne : n ≠ "manifest.json" := hmfmem n (hm ▸ hnmem)
    have hlk : lookupD (manifestFilesOf hash files) n = some e :=
      lookupD_eq_of_mem_nodup (hm ▸ hndmf) (hm ▸ hne)
    obtain ⟨b, hb, hbe⟩ := halignV n e hlk
    refine ⟨b, ?_, ?_, ?_⟩
    · show lookupD (upsertD _ "manifest.json" (Content.json m)) n = _
      rw [lookupD_upsertD_ne _ _ _ _ hnne, hcpMem n hnmem, hvdir n hnne, hb]
    · rw [hbe]
    · rw [hbe]

/-- C1 (amended): for every completed publish that targets a channel pointer
(`@latest`/`@stable`/`@beta`), provided no input file publishes under the
name `manifest.json`, the pointer directory afterwards contains exactly the
files listed in its manifest plus `manifest.json` itself, and for each listed
file the manifest's integrity string and byte count equal the digest and
length of the bytes actually present under that name. -/
theorem C1_pointer_consistency_amended (hash : List Nat → String) (pd : PkgDir)
    (pkg version : String) (channel : Option String) (builtAt : String)
    (upstream : Option Upstream) (meta : Option String) (files : List FileInput)
    (updatePointer : String)
    (hp : updatePointer = "latest" ∨ updatePointer = "stable" ∨ updatePointer = "beta")
    (hnames : ∀ f ∈ files, resolvedName f ≠ "manifest.json") :
    (let m := publishManifest hash pkg version channel builtAt upstream meta files
     ∃ ptr, lookupD (publishExternal hash pd pkg version channel builtAt upstream meta
         files updatePointer) ("@" ++ updatePointer) = some ptr ∧
       ptr.map Prod.fst = m.files.map Prod.fst ++ ["manifest.json"] ∧
       lookupD ptr "manifest.json" = some (Content.json m) ∧
       ∀ n e, (n, e) ∈ m.files →
         ∃ b, lookupD ptr n = some (Content.raw b) ∧
           hash b = e.integrity ∧ b.length = e.bytes) := by
  have hnames' : "manifest.json" ∉ (manifestFilesOf hash files).map Prod.fst := by
    intro hmem
    rcases keys_foldl_upsert_from _ _ files [] "manifest.json" hmem with h0 | hex
    · simp at h0
    · obtain ⟨f, hf, hgf⟩ := hex
      exact hnames f hf hgf
  obtain ⟨hK, hJ, hV⟩ := syncPointerDir_spec hash files
    (publishManifest hash pkg version channel builtAt upstream meta files) rfl hnames'
  exact ⟨_, publishExternal_lookup_pointer hash pd pkg version channel builtAt upstream
    meta files updatePointer hp, hK, hJ, hV⟩

/-- Concrete instantiation of `C1_pointer_consistency_amended` (one artifact
`foo.js`, published to `@latest`). -/
theorem C1_pointer_consistency_amended_witness :
    (let m := publishManifest hashLen "pkg" "1.4.0" (some "stable") "2025-01-01T00:00:00Z"
       none none [⟨"tmp/foo.js", none, [7, 8]⟩]
     ∃ ptr, lookupD (publishExternal hashLen [] "pkg" "1.4.0" (some "stable")
         "2025-01-01T00:00:00Z" none none [⟨"tmp/foo.js", none, [7, 8]⟩] "latest")
         ("@" ++ "latest") = some ptr ∧
       ptr.map Prod.fst = m.files.map Prod.fst ++ ["manifest.json"] ∧
       lookupD ptr "manifest.json" = some (Content.json m) ∧
       ∀ n e, (n, e) ∈ m.files →
         ∃ b, lookupD ptr n = some (Content.raw b) ∧
           hashLen b = e.integrity ∧ b.length = e.bytes) :=
  C1_pointer_consistency_amended hashLen [] "pkg" "1.4.0" (some "stable")
    "2025-01-01T00:00:00Z" none none [⟨"tmp/foo.js", none, [7, 8]⟩] "latest"
    (Or.inl rfl) (by decide)

/-- C1 fails as frozen: a publish may legitimately carry an artifact named
`manifest.json` (for instance a `github-raw-file` source configured with
`files: [{path: "manifest.json"}]` — its `outName` defaults to the basename).
The manifest then lists `manifest.json` with the raw artifact's digest and
byte count, but the bytes present under that name in the pointer directory
are the written manifest JSON, so the listed integrity/length do not match
the bytes actually present. -/
theorem C1_counterexample :
    ¬ (∃ ptr, lookupD (publishExternal hashLen [] "pkg" "abcdef012345" none
          "2025-01-01T00:00:00Z" none none [⟨"tmp/manifest.json", none, [0]⟩] "latest")
          "@latest" = some ptr ∧
        ∀ n e, (n, e) ∈ (publishManifest hashLen "pkg" "abcdef012345" none
            "2025-01-01T00:00:00Z" none none [⟨"tmp/manifest.json", none, [0]⟩]).files →
          ∃ b, lookupD ptr n = some (Content.raw b) ∧
            hashLen b = e.integrity ∧ b.length = e.bytes) := by
  rintro ⟨ptr, hlk, hcons⟩
  have hlk2 : lookupD (publishExternal hashLen [] "pkg" "abcdef012345" none
      "2025-01-01T00:00:00Z" none none [⟨"tmp/manifest.json", none, [0]⟩] "latest")
      "@latest" = some (syncPointerDir
        (versionDirOf [⟨"tmp/manifest.json", none, [0]⟩]
          (publishManifest hashLen "pkg" "abcdef012345" none "2025-01-01T00:00:00Z"
            none none [⟨"tmp/manifest.json", none, [0]⟩]))
        (publishManifest hashLen "pkg" "abcdef012345" none "2025-01-01T00:00:00Z"
          none none [⟨"tmp/manifest.json", none, [0]⟩])) :=
    publishExternal_lookup_pointer hashLen [] "pkg" "abcdef012345" none
      "2025-01-01T00:00:00Z" none none [⟨"tmp/manifest.json", none, [0]⟩] "latest"
      (Or.inl rfl)
  rw [hlk2] at hlk
  obtain rfl := Option.some.inj hlk
  obtain ⟨b, hb, _⟩ := hcons "manifest.json" ⟨"sha384-len1-sum0", 1⟩ (by decide)
  have hx : lookupD (syncPointerDir
      (versionDirOf [⟨"tmp/manifest.json", none, [0]⟩]
        (publishManifest hashLen "pkg" "abcdef012345" none "2025-01-01T00:00:00Z"
          none none [⟨"tmp/manifest.json", none, [0]⟩]))
      (publishManifest hashLen "pkg" "abcdef012345" none "2025-01-01T00:00:00Z"
        none none [⟨"tmp/manifest.json", none, [0]⟩])) "manifest.json"
      = some (Content.json (publishManifest hashLen "pkg" "abcdef012345" none
          "2025-01-01T00:00:00Z" none none [⟨"tmp/manifest.json", none, [0]⟩])) := by
    decide
  rw [hx] at hb
  simp at hb

/-- Concrete instantiation of `C4_stable_aliases` (stable `2.3.2` published
after arbitrary prior state; here the empty tree). -/
theorem C4_stable_aliases_witness :
    (let m := publishManifest hashLen "pkg" "2.3.2" (some "stable") "2025-01-01T00:00:00Z"
       none none [⟨"tmp/a.js", none, [1]⟩]
     let res := publishExternal hashLen [] "pkg" "2.3.2" (some "stable")
       "2025-01-01T00:00:00Z" none none [⟨"tmp/a.js", none, [1]⟩] "stable"
     lookupD res ("v" ++ toString (2 : Nat))
        = some (syncPointerDir (versionDirOf [⟨"tmp/a.js", none, [1]⟩] m) m) ∧
     lookupD res ("v" ++ toString (2 : Nat) ++ "." ++ toString (3 : Nat))
        = some (syncPointerDir (versionDirOf [⟨"tmp/a.js", none, [1]⟩] m) m)) :=
  C4_stable_aliases hashLen [] "pkg" "2.3.2" "2025-01-01T00:00:00Z" none none
    [⟨"tmp/a.js", none, [1]⟩] "stable" ⟨2, 3, 2, [], []⟩ (by decide) rfl

/-- Concrete instantiation of `C5_index_recompute`. -/
theorem C5_index_recompute_witness :
    (∃ g, lookupD (updateIndexes ⟨[], ⟨"", []⟩⟩ "p" "v2.0.0-beta.1" (some "beta")
        "2025-06-01T00:00:00Z" none).globalIdx.packages "p" = some g ∧
      (let vs' := (lookupD (updateIndexes ⟨[], ⟨"", []⟩⟩ "p" "v2.0.0-beta.1" (some "beta")
        "2025-06-01T00:00:00Z" none).versionsIdx "p").getD []
       g.last_latest = vs'.head? ∧
       g.last_stable = vs'.find? (fun v => v.channel == some "stable") ∧
       g.last_beta = vs'.find? (fun v => v.channel == some "beta") ∧
       vs'.Pairwise (fun a b => strLe b.built_at a.built_at = true) ∧
       ∀ e ∈ vs', ∀ h0 ∈ vs'.head?, strLe e.built_at h0.built_at = true)) :=
  C5_index_recompute ⟨[], ⟨"", []⟩⟩ "p" "v2.0.0-beta.1" (some "beta")
    "2025-06-01T00:00:00Z" none

/-! ### Channel detection in the release publish path (claim C6) -/

/-- C6 (amended): in `publishFromRelease` the channel is computed from the
stripped tag string alone — `beta` exactly when the version string contains a
hyphen, `stable` otherwise — and does not depend on which pointer
(`latest`/`stable`/`beta`) triggered the publish; `2.0.0-beta.1` yields
`beta` and `2.0.0` yields `stable`. -/
theorem C6_channel_from_version_amended (hash : List Nat → String) (builtAt : String)
    (src : SourceCfg) (net : NetEnv) (pkg repo : String) (releaseObj : Release)
    (pointerName : String) (s s' : SyncState) (tag version channel : String) (n : Nat)
    (hok : pubFromRelease hash builtAt src net pkg repo releaseObj pointerName s
      = (s', PubOutcome.ok tag version channel n)) :
    version = stripV (jsOrS releaseObj.tag_name releaseObj.name) ∧
    channel = (if version.data.contains '-' then "beta" else "stable") ∧
    detectChannelFromVersion "2.0.0-beta.1" = "beta" ∧
    detectChannelFromVersion "2.0.0" = "stable" := by
  simp only [pubFromRelease] at hok
  rcases hmat : net.semverMaterialize releaseObj pointerName with m | files
  · rw [hmat] at hok
    simp at hok
  · rw [hmat] at hok
    by_cases hemp : files.isEmpty = true
    · simp [hemp] at hok
    · simp only [hemp, Bool.false_eq_true, if_false, Prod.mk.injEq, PubOutcome.ok.injEq] at hok
      obtain ⟨_, _, hver, hchan, _⟩ := hok
      refine ⟨hver.symm, ?_, by decide, by decide⟩
      rw [← hchan, ← hver]
      rfl

/-- C6 fails as frozen: the tag `v2.0.0+sha-5114f85` parses as the valid
semantic version `2.0.0` with build metadata only — no prerelease component —
so by the claim the channel had to be `stable`; but
`detectChannelFromVersion` tests for a hyphen anywhere in the version string,
and the publish records channel `beta`. -/
theorem C6_counterexample :
    parseStrict "2.0.0+sha-5114f85" = some ⟨2, 0, 0, [], ["sha-5114f85"]⟩ ∧
    (pubFromRelease hashLen "2025-01-01T00:00:00Z" srcSemverPlain
        (netOneFile (some relBuildMeta) [relBuildMeta]) "pkg" "o/r" relBuildMeta
        "latest" syncEmpty).2
      = PubOutcome.ok "v2.0.0+sha-5114f85" "2.0.0+sha-5114f85" "beta" 1 ∧
    ("beta" : String) ≠ "stable" := by
  refine ⟨by decide, by decide, by decide⟩

/-- Concrete instantiation of `C6_channel_from_version_amended`. -/
theorem C6_channel_from_version_amended_witness :
    "1.0.0" = stripV (jsOrS relStableV1.tag_name relStableV1.name) ∧
    "stable" = (if ("1.0.0" : String).data.contains '-' then "beta" else "stable") ∧
    detectChannelFromVersion "2.0.0-beta.1" = "beta" ∧
    detectChannelFromVersion "2.0.0" = "stable" :=
  C6_channel_from_version_amended hashLen "2025-01-01T00:00:00Z" srcSemverPlain
    (netOneFile (some relStableV1) [relStableV1]) "pkg" "o/r" relStableV1 "latest"
    syncEmpty
    (pubFromRelease hashLen "2025-01-01T00:00:00Z" srcSemverPlain
      (netOneFile (some relStableV1) [relStableV1]) "pkg" "o/r" relStableV1 "latest"
      syncEmpty).1
    "v1.0.0" "1.0.0" "stable" 1 (by decide)

/-! ### The `github-raw-file` branch (claim C7) -/

theorem lookupD_append_single {α : Type} (m : List (String × α)) (n k : String) (v : α) :
    lookupD (m ++ [(n, v)]) k
      = match lookupD m k with
        | some x => some x
        | none => if n = k then some v else none := by
  induction m with
  | nil => simp [lookupD]
  | cons hd tl ih =>
    obtain ⟨k', v'⟩ := hd
    by_cases h : k' = k <;> simp [lookupD, h, ih]

theorem dirContents_ensureDir (pd : PkgDir) (n dn : String) :
    dirContents (ensureDir pd n) dn = dirContents pd dn := by
  unfold ensureDir
  split
  · rfl
  · rename_i hns
    unfold dirContents
    rw [lookupD_append_single]
    rcases hl : lookupD pd dn with _ | x
    · simp only []
      split
      · rename_i hn
        subst hn
        simp only [Option.isSome] at hns
        rcases hl2 : lookupD pd n with _ | y
        · simp
        · rw [hl2] at hns
          simp at hns
      · simp
    · simp

theorem dirContents_upsertD_ne (pd : PkgDir) (k dn : String) (v : Dirc) (h : dn ≠ k) :
    dirContents (upsertD pd k v) dn = dirContents pd dn := by
  unfold dirContents
  rw [lookupD_upsertD_ne _ _ _ _ h]

theorem publishExternal_none_latest_shape (hash : List Nat → String) (pd : PkgDir)
    (pkg version builtAt : String) (upstream : Option Upstream) (meta : Option String)
    (files : List FileInput) :
    publishExternal hash pd pkg version none builtAt upstream meta files "latest" =
      upsertD
        (upsertD
          (ensureDir (ensureDir (ensureDir (ensureDir pd ("v" ++ version)) "@latest")
            "@stable") "@beta")
          ("v" ++ version)
          (versionDirOf files (publishManifest hash pkg version none builtAt upstream meta files)))
        "@latest"
        (syncPointerDir
          (versionDirOf files (publishManifest hash pkg version none builtAt upstream meta files))
          (publishManifest hash pkg version none builtAt upstream meta files)) := rfl

/-- C7 (amended): a `github-raw-file` publish produces a single immutable
version whose id is the first 12 characters of the resolved commit SHA,
updates only the `@latest` pointer (every other directory of the package is
untouched), records channel `null` unconditionally — a configured channel
override is not consulted by this branch — and records the full resolved
commit SHA as the idempotency key, so a run whose recorded `last_commit`
already equals the resolved SHA skips regardless of the ref name. -/
theorem C7_raw_file_publish_amended (hash : List Nat → String) (builtAt pkg : String)
    (src : SourceCfg) (net : NetEnv) (s : SyncState) (ref sha : String)
    (downloaded : List FileInput)
    (hres : rawResolve src net = RawResolveOut.resolved ref sha)
    (hnoskip : (pkgStateOf s pkg).last_commit ≠ some sha)
    (htf : toFetchOf src ≠ [])
    (hdl : rawDownload net (toFetchOf src) = Except.ok downloaded) :
    (let m := publishManifest hash pkg (sha12 (some sha)) none builtAt
        (some (Upstream.rawCommit (src.repo.getD "") ref sha ((toFetchOf src).map Prod.fst)))
        src.meta downloaded
     let out := rawBranch hash builtAt pkg src net s
     let pd' := (lookupD out.s.pub pkg).getD []
     m.version = "v" ++ sha12 (some sha) ∧
     m.channel = none ∧
     lookupD pd' ("v" ++ sha12 (some sha)) = some (versionDirOf downloaded m) ∧
     lookupD pd' "@latest" = some (syncPointerDir (versionDirOf downloaded m) m) ∧
     (∀ dname, dname ≠ "v" ++ sha12 (some sha) → dname ≠ "@latest" →
        dirContents pd' dname = dirContents (pubPkgDir s pkg) dname) ∧
     (pkgStateOf out.s pkg).last_commit = some sha ∧
     (∀ s2 : SyncState, (pkgStateOf s2 pkg).last_commit = some sha →
        rawBranch hash builtAt pkg src net s2
          = ⟨s2, [mkRow pkg rawType (ref ++ "@" ++ sha12 (some sha)) "skip" "SKIP"
              "No changes (same commit SHA)"], none, false⟩)) := by
  have hskipF : ((pkgStateOf s pkg).last_commit == some sha) = false := by
    rw [beq_eq_false_iff_ne]
    exact hnoskip
  have htfF : (toFetchOf src).isEmpty = false := by
    rcases h : toFetchOf src with _ | _
    · exact absurd h htf
    · rfl
  simp only [rawBranch, hres, hskipF, Bool.false_eq_true, if_false, htfF, hdl,
    applyPublish, applyUpdateIndexes, recordPkgState, publishExternal_none_latest_shape]
  refine ⟨rfl, rfl, ?_, ?_, ?_, ?_, ?_⟩
  · rw [lookupD_upsertD_self, Option.getD_some,
      lookupD_upsertD_ne _ _ _ _ (v_append_ne_atLatest _), lookupD_upsertD_self]
  · rw [lookupD_upsertD_self, Option.getD_some, lookupD_upsertD_self]
  · intro dname h1 h2
    rw [lookupD_upsertD_self, Option.getD_some]
    show dirContents _ dname = _
    rw [dirContents_upsertD_ne _ _ _ _ h2, dirContents_upsertD_ne _ _ _ _ h1,
      dirContents_ensureDir, dirContents_ensureDir, dirContents_ensureDir,
      dirContents_ensureDir]
  · simp [pkgStateOf, lookupD_upsertD_self]
  · intro s2 h2
    have hskipT : ((pkgStateOf s2 pkg).last_commit == some sha) = true := by
      rw [h2]
      exact beq_self_eq_true _
    simp only [rawBranch, hres, hskipT, if_true]

/-- C7 fails as frozen: with an explicit channel override configured on a
`github-raw-file` source (`channel: "stable"`), the branch still records
channel `null` — `const channel = null` is unconditional and `src.channel`
is never consulted there. -/
theorem C7_counterexample :
    (let out := rawBranch hashLen "2025-01-01T00:00:00Z" "pkg" srcRawOverride netRawSimple
       syncEmpty
     let m := publishManifest hashLen "pkg" "c0ffee123456" none "2025-01-01T00:00:00Z"
       (some (Upstream.rawCommit "o/r" "main" "c0ffee1234567890cafe" ["dist/a.js"]))
       none [⟨"tmp/a.js", some "a.js", [5]⟩]
     srcRawOverride.channel = some "stable" ∧
     ((lookupD ((lookupD out.s.pub "pkg").getD []) "@latest").bind
        (fun d => lookupD d "manifest.json")) = some (Content.json m) ∧
     m.channel = none ∧
     (none : Option String) ≠ some "stable") := by
  refine ⟨rfl, by decide, rfl, by decide⟩

/-- Concrete instantiation of `C7_raw_file_publish_amended` (no override). -/
theorem C7_raw_file_publish_amended_witness :
    (let m := publishManifest hashLen "pkg" (sha12 (some "c0ffee1234567890cafe")) none
        "2025-01-01T00:00:00Z"
        (some (Upstream.rawCommit (srcRawPlain.repo.getD "") "main" "c0ffee1234567890cafe"
          ((toFetchOf srcRawPlain).map Prod.fst)))
        srcRawPlain.meta [⟨"tmp/a.js", some "a.js", [5]⟩]
     let out := rawBranch hashLen "2025-01-01T00:00:00Z" "pkg" srcRawPlain netRawSimple
       syncEmpty
     let pd' := (lookupD out.s.pub "pkg").getD []
     m.version = "v" ++ sha12 (some "c0ffee1234567890cafe") ∧
     m.channel = none ∧
     lookupD pd' ("v" ++ sha12 (some "c0ffee1234567890cafe"))
        = some (versionDirOf [⟨"tmp/a.js", some "a.js", [5]⟩] m) ∧
     lookupD pd' "@latest"
        = some (syncPointerDir (versionDirOf [⟨"tmp/a.js", some "a.js", [5]⟩] m) m) ∧
     (∀ dname, dname ≠ "v" ++ sha12 (some "c0ffee1234567890cafe") → dname ≠ "@latest" →
        dirContents pd' dname = dirContents (pubPkgDir syncEmpty "pkg") dname) ∧
     (pkgStateOf out.s "pkg").last_commit = some "c0ffee1234567890cafe" ∧
     (∀ s2 : SyncState, (pkgStateOf s2 "pkg").last_commit = some "c0ffee1234567890cafe" →
        rawBranch hashLen "2025-01-01T00:00:00Z" "pkg" srcRawPlain netRawSimple s2
          = ⟨s2, [mkRow "pkg" rawType ("main" ++ "@" ++ sha12 (some "c0ffee1234567890cafe"))
              "skip" "SKIP" "No changes (same commit SHA)"], none, false⟩)) :=
  C7_raw_file_publish_amended hashLen "2025-01-01T00:00:00Z" "pkg" srcRawPlain netRawSimple
    syncEmpty "main" "c0ffee1234567890cafe" [⟨"tmp/a.js", some "a.js", [5]⟩]
    (by decide) (by decide) (by decide) rfl

/-! ### Per-target state recording in the publish blocks (claim C10) -/

theorem semverResolve_inv (src : SourceCfg) (net : NetEnv) (ps : PkgState)
    (r : SemverResolved) (h : semverResolve src net ps = SemverResolveOut.resolved r) :
    ∃ k, semverResolveKeys src net = SemverKeysOut.keys k ∧ r = semverNeedsOf k ps := by
  unfold semverResolve at h
  split at h
  · exact absurd h (by simp)
  · exact absurd h (by simp)
  · exact absurd h (by simp)
  · rename_i k hk
    refine ⟨k, hk, ?_⟩
    injection h with h2
    exact h2.symm

theorem pubFromRelease_frame (hash : List Nat → String) (builtAt : String)
    (src : SourceCfg) (net : NetEnv) (pkg repo : String) (rel : Release)
    (pname : String) (s : SyncState) :
    ((pubFromRelease hash builtAt src net pkg repo rel pname s).1.state = s.state) ∧
    ((pubFromRelease hash builtAt src net pkg repo rel pname s).1.results = s.results) ∧
    ((pubFromRelease hash builtAt src net pkg repo rel pname s).1.hadFailure = s.hadFailure) ∧
    ((pubFromRelease hash builtAt src net pkg repo rel pname s).1.changed = s.changed) := by
  unfold pubFromRelease
  split
  · exact ⟨rfl, rfl, rfl, rfl⟩
  · split
    · exact ⟨rfl, rfl, rfl, rfl⟩
    · exact ⟨rfl, rfl, rfl, rfl⟩

theorem latestBlock_state (hash : List Nat → String) (builtAt pkg : String)
    (src : SourceCfg) (net : NetEnv) (r : SemverResolved) (s : SyncState) :
    (latestBlock hash builtAt pkg src net r s).s.state
      = (if (latestBlock hash builtAt pkg src net r s).published
         then upsertD s.state pkg
           { pkgStateOf s pkg with
              latest_key := some r.latestKey,
              last_upstream_tag := (r.latest.getD ⟨none, none, false, false, none⟩).tag_name }
         else s.state) := by
  unfold latestBlock
  split
  · split
    · rfl
    · simp only []
      rcases hpub : pubFromRelease hash builtAt src net pkg r.repo
        (r.latest.getD ⟨none, none, false, false, none⟩) "latest" s with ⟨s', o⟩
      have hfr := pubFromRelease_frame hash builtAt src net pkg r.repo
        (r.latest.getD ⟨none, none, false, false, none⟩) "latest" s
      rw [hpub] at hfr
      rcases o with m | _ | ⟨tag, version, channel, n⟩
      · exact hfr.1
      · exact hfr.1
      · have h1 : s'.state = s.state := hfr.1
        show (recordPkgState s' pkg _).state = _
        unfold recordPkgState pkgStateOf
        simp [h1]
  · rfl

theorem stableBlock_state (hash : List Nat → String) (builtAt pkg : String)
    (src : SourceCfg) (net : NetEnv) (r : SemverResolved) (s : SyncState) :
    (stableBlock hash builtAt pkg src net r s).s.state
      = (if (stableBlock hash builtAt pkg src net r s).published
         then upsertD s.state pkg
           { pkgStateOf s pkg with
              stable_key := r.stableKey,
              last_upstream_stable_tag := r.stableTag }
         else s.state) := by
  unfold stableBlock
  split
  · split
    · rename_i sp hsp
      simp only []
      rcases hpub : pubFromRelease hash builtAt src net pkg r.repo sp.rel "stable" s
        with ⟨s', o⟩
      have hfr := pubFromRelease_frame hash builtAt src net pkg r.repo sp.rel "stable" s
      rw [hpub] at hfr
      rcases o with m | _ | ⟨tag, version, channel, n⟩
      · exact hfr.1
      · exact hfr.1
      · have h1 : s'.state = s.state := hfr.1
        show (recordPkgState s' pkg _).state = _
        unfold recordPkgState pkgStateOf
        simp [h1]
    · rfl
  · rfl

theorem betaBlock_state (hash : List Nat → String) (builtAt pkg : String)
    (src : SourceCfg) (net : NetEnv) (r : SemverResolved) (s : SyncState) :
    (betaBlock hash builtAt pkg src net r s).s.state
      = (if (betaBlock hash builtAt pkg src net r s).published
         then upsertD s.state pkg
           { pkgStateOf s pkg with
              beta_key := r.betaKey,
              last_upstream_beta_tag := r.betaTag }
         else s.state) := by
  unfold betaBlock
  split
  · split
    · rename_i bp hbp
      simp only []
      rcases hpub : pubFromRelease hash builtAt src net pkg r.repo bp.rel "beta" s
        with ⟨s', o⟩
      have hfr := pubFromRelease_frame hash builtAt src net pkg r.repo bp.rel "beta" s
      rw [hpub] at hfr
      rcases o with m | _ | ⟨tag, version, channel, n⟩
      · exact hfr.1
      · exact hfr.1
      · have h1 : s'.state = s.state := hfr.1
        show (recordPkgState s' pkg _).state = _
        unfold recordPkgState pkgStateOf
        simp [h1]
    · rfl
  · rfl

theorem pkgStateOf_of_state_eq {s1 s2 : SyncState} (pkg : String)
    (h : s1.state = s2.state) : pkgStateOf s1 pkg = pkgStateOf s2 pkg := by
  unfold pkgStateOf
  rw [h]

theorem latestBlock_keys (hash : List Nat → String) (builtAt pkg : String)
    (src : SourceCfg) (net : NetEnv) (r : SemverResolved) (s : SyncState) :
    ((pkgStateOf (latestBlock hash builtAt pkg src net r s).s pkg).latest_key
      = (if (latestBlock hash builtAt pkg src net r s).published then some r.latestKey
         else (pkgStateOf s pkg).latest_key)) ∧
    ((pkgStateOf (latestBlock hash builtAt pkg src net r s).s pkg).stable_key
      = (pkgStateOf s pkg).stable_key) ∧
    ((pkgStateOf (latestBlock hash builtAt pkg src net r s).s pkg).beta_key
      = (pkgStateOf s pkg).beta_key) := by
  have h := latestBlock_state hash builtAt pkg src net r s
  cases hp : (latestBlock hash builtAt pkg src net r s).published
  · rw [hp] at h
    simp only [Bool.false_eq_true, if_false] at h
    have h2 := @pkgStateOf_of_state_eq (latestBlock hash builtAt pkg src net r s).s s pkg h
    rw [h2]
    simp
  · rw [hp] at h
    simp only [if_true] at h
    unfold pkgStateOf
    rw [h, lookupD_upsertD_self]
    exact ⟨rfl, rfl, rfl⟩

theorem stableBlock_keys (hash : List Nat → String) (builtAt pkg : String)
    (src : SourceCfg) (net : NetEnv) (r : SemverResolved) (s : SyncState) :
    ((pkgStateOf (stableBlock hash builtAt pkg src net r s).s pkg).stable_key
      = (if (stableBlock hash builtAt pkg src net r s).published then r.stableKey
         else (pkgStateOf s pkg).stable_key)) ∧
    ((pkgStateOf (stableBlock hash builtAt pkg src net r s).s pkg).latest_key
      = (pkgStateOf s pkg).latest_key) ∧
    ((pkgStateOf (stableBlock hash builtAt pkg src net r s).s pkg).beta_key
      = (pkgStateOf s pkg).beta_key) := by
  have h := stableBlock_state hash builtAt pkg src net r s
  cases hp : (stableBlock hash builtAt pkg src net r s).published
  · rw [hp] at h
    simp only [Bool.false_eq_true, if_false] at h
    have h2 := @pkgStateOf_of_state_eq (stableBlock hash builtAt pkg src net r s).s s pkg h
    rw [h2]
    simp
  · rw [hp] at h
    simp only [if_true] at h
    unfold pkgStateOf
    rw [h, lookupD_upsertD_self]
    exact ⟨rfl, rfl, rfl⟩

theorem betaBlock_keys (hash : List Nat → String) (builtAt pkg : String)
    (src : SourceCfg) (net : NetEnv) (r : SemverResolved) (s : SyncState) :
    ((pkgStateOf (betaBlock hash builtAt pkg src net r s).s pkg).beta_key
      = (if (betaBlock hash builtAt pkg src net r s).published then r.betaKey
         else (pkgStateOf s pkg).beta_key)) ∧
    ((pkgStateOf (betaBlock hash builtAt pkg src net r s).s pkg).latest_key
      = (pkgStateOf s pkg).latest_key) ∧
    ((pkgStateOf (betaBlock hash builtAt pkg src net r s).s pkg).stable_key
      = (pkgStateOf s pkg).stable_key) := by
  have h := betaBlock_state hash builtAt pkg src net r s
  cases hp : (betaBlock hash builtAt pkg src net r s).published
  · rw [hp] at h
    simp only [Bool.false_eq_true, if_false] at h
    have h2 := @pkgStateOf_of_state_eq (betaBlock hash builtAt pkg src net r s).s s pkg h
    rw [h2]
    simp
  · rw [hp] at h
    simp only [if_true] at h
    unfold pkgStateOf
    rw [h, lookupD_upsertD_self]
    exact ⟨rfl, rfl, rfl⟩

/-- The three per-target key fields of the package state record after the whole
semver branch: a target's key is rewritten to the freshly resolved key exactly
when that target's publish completed, and is retained otherwise. -/
theorem semverBranch_keys (hash : List Nat → String) (builtAt pkg : String)
    (src : SourceCfg) (net : NetEnv) (s : SyncState) (r : SemverResolved)
    (hres : semverResolve src net (pkgStateOf s pkg) = SemverResolveOut.resolved r) :
    ((pkgStateOf (semverBranch hash builtAt pkg src net s).s pkg).latest_key
      = (if (semverBranch hash builtAt pkg src net s).pubLatest then some r.latestKey
         else (pkgStateOf s pkg).latest_key)) ∧
    ((pkgStateOf (semverBranch hash builtAt pkg src net s).s pkg).stable_key
      = (if (semverBranch hash builtAt pkg src net s).pubStable then r.stableKey
         else (pkgStateOf s pkg).stable_key)) ∧
    ((pkgStateOf (semverBranch hash builtAt pkg src net s).s pkg).beta_key
      = (if (semverBranch hash builtAt pkg src net s).pubBeta then r.betaKey
         else (pkgStateOf s pkg).beta_key)) := by
  obtain ⟨hL1, hL2, hL3⟩ := latestBlock_keys hash builtAt pkg src net r s
  obtain ⟨hS1, hS2, hS3⟩ := stableBlock_keys hash builtAt pkg src net r
    (latestBlock hash builtAt pkg src net r s).s
  obtain ⟨hB1, hB2, hB3⟩ := betaBlock_keys hash builtAt pkg src net r
    (stableBlock hash builtAt pkg src net r
      (latestBlock hash builtAt pkg src net r s).s).s
  simp only [semverBranch, hres]
  unfold semverAfterResolve
  split
  · simp
  · cases hexc1 : (latestBlock hash builtAt pkg src net r s).exc with
    | some m =>
        simp only [hexc1, Bool.false_eq_true, if_false]
        exact ⟨hL1, hL2, hL3⟩
    | none =>
        cases hexc2 : (stableBlock hash builtAt pkg src net r
            (latestBlock hash builtAt pkg src net r s).s).exc with
        | some m =>
            simp only [hexc1, hexc2, Bool.false_eq_true, if_false]
            exact ⟨by rw [hS2, hL1], by rw [hS1, hL2], by rw [hS3, hL3]⟩
        | none =>
            simp only [hexc1, hexc2]
            exact ⟨by rw [hB2, hS2, hL1], by rw [hB3, hS1, hL2], by rw [hB1, hS3, hL3]⟩

theorem strTruthy_some {o : Option String} (h : strTruthy o = true) :
    o = some (o.getD "") := by
  cases o with
  | none => exact absurd h (by simp [strTruthy])
  | some x => rfl

/-- The release-asset branch rewrites the recorded upstream tag only after a
completed publish: if nothing was published the state file is untouched, and
when a publish completed the run had fetched a truthy tag that differs from the
recorded one and the record is rewritten to exactly that tag. -/
theorem relAssetBranch_state (hash : List Nat → String) (builtAt pkg : String)
    (src : SourceCfg) (net : NetEnv) (s : SyncState) :
    ((relAssetBranch hash builtAt pkg src net s).published = false →
      (relAssetBranch hash builtAt pkg src net s).s.state = s.state) ∧
    ((relAssetBranch hash builtAt pkg src net s).published = true →
      ∃ rel tag, net.relLatestResp = Except.ok rel ∧
        jsOrS rel.tag_name rel.name = some tag ∧
        (pkgStateOf s pkg).last_upstream_tag ≠ some tag ∧
        (relAssetBranch hash builtAt pkg src net s).s.state
          = upsertD s.state pkg
              { pkgStateOf s pkg with last_upstream_tag := some tag }) := by
  unfold relAssetBranch
  split
  · exact ⟨fun _ => rfl, fun h => absurd h (by simp)⟩
  · split
    · exact ⟨fun _ => rfl, fun h => absurd h (by simp)⟩
    · rename_i rel hrel
      split
      · dsimp only []
        split
        · exact ⟨fun _ => rfl, fun h => absurd h (by simp)⟩
        · split
          · exact ⟨fun _ => rfl, fun h => absurd h (by simp)⟩
          · exact ⟨fun _ => rfl, fun h => absurd h (by simp)⟩
      · rename_i files hfiles
        dsimp only []
        split
        · exact ⟨fun _ => rfl, fun h => absurd h (by simp)⟩
        · rename_i htag
          split
          · exact ⟨fun _ => rfl, fun h => absurd h (by simp)⟩
          · rename_i hne
            split
            · exact ⟨fun _ => rfl, fun h => absurd h (by simp)⟩
            · refine ⟨fun h => absurd h (by simp), fun _ => ?_⟩
              refine ⟨rel, (jsOrS rel.tag_name rel.name).getD "", hrel, ?_, ?_, rfl⟩
              · exact strTruthy_some (by simpa using htag)
              · intro he
                exact hne (beq_iff_eq.mpr he)

/-- C10: for every source and channel target the idempotency key stored in the
state file is rewritten only after that target's publish succeeded.  For the
semver branch, each of the three per-target keys ends up as the freshly
resolved key exactly when that target's publish completed and is retained
unchanged otherwise, and when a target was not published, re-resolving against
the post-run state yields the same need flag for it, so the next run retries
that same target.  For the release-asset branch, the recorded upstream tag is
rewritten (to the tag the run fetched) only when the publish completed;
otherwise the state file records are untouched. -/
theorem C10_key_update_only_on_success (hash : List Nat → String)
    (builtAt pkg : String) (src : SourceCfg) (net : NetEnv) (s : SyncState)
    (r : SemverResolved)
    (hres : semverResolve src net (pkgStateOf s pkg) = SemverResolveOut.resolved r) :
    ((pkgStateOf (semverBranch hash builtAt pkg src net s).s pkg).latest_key
      = (if (semverBranch hash builtAt pkg src net s).pubLatest then some r.latestKey
         else (pkgStateOf s pkg).latest_key)) ∧
    ((pkgStateOf (semverBranch hash builtAt pkg src net s).s pkg).stable_key
      = (if (semverBranch hash builtAt pkg src net s).pubStable then r.stableKey
         else (pkgStateOf s pkg).stable_key)) ∧
    ((pkgStateOf (semverBranch hash builtAt pkg src net s).s pkg).beta_key
      = (if (semverBranch hash builtAt pkg src net s).pubBeta then r.betaKey
         else (pkgStateOf s pkg).beta_key)) ∧
    (∀ k, semverResolveKeys src net = SemverKeysOut.keys k →
      semverResolve src net (pkgStateOf (semverBranch hash builtAt pkg src net s).s pkg)
        = SemverResolveOut.resolved
            (semverNeedsOf k (pkgStateOf (semverBranch hash builtAt pkg src net s).s pkg)) ∧
      ((semverBranch hash builtAt pkg src net s).pubLatest = false →
        (semverNeedsOf k
            (pkgStateOf (semverBranch hash builtAt pkg src net s).s pkg)).needLatest
          = r.needLatest) ∧
      ((semverBranch hash builtAt pkg src net s).pubStable = false →
        (semverNeedsOf k
            (pkgStateOf (semverBranch hash builtAt pkg src net s).s pkg)).needStable
          = r.needStable) ∧
      ((semverBranch hash builtAt pkg src net s).pubBeta = false →
        (semverNeedsOf k
            (pkgStateOf (semverBranch hash builtAt pkg src net s).s pkg)).needBeta
          = r.needBeta)) ∧
    (((relAssetBranch hash builtAt pkg src net s).published = false →
        (relAssetBranch hash builtAt pkg src net s).s.state = s.state) ∧
     ((relAssetBranch hash builtAt pkg src net s).published = true →
        ∃ rel tag, net.relLatestResp = Except.ok rel ∧
          jsOrS rel.tag_name rel.name = some tag ∧
          (pkgStateOf s pkg).last_upstream_tag ≠ some tag ∧
          (relAssetBranch hash builtAt pkg src net s).s.state
            = upsertD s.state pkg
                { pkgStateOf s pkg with last_upstream_tag := some tag })) := by
  obtain ⟨hkL, hkS, hkB⟩ := semverBranch_keys hash builtAt pkg src net s r hres
  refine ⟨hkL, hkS, hkB, ?_, relAssetBranch_state hash builtAt pkg src net s⟩
  intro k hk
  obtain ⟨k2, hk2, hrk⟩ := semverResolve_inv src net (pkgStateOf s pkg) r hres
  rw [hk] at hk2
  injection hk2 with hkk
  subst hkk
  subst hrk
  refine ⟨by simp [semverResolve, hk], ?_, ?_, ?_⟩
  · intro hpf
    rw [hpf] at hkL
    simp only [Bool.false_eq_true, if_false] at hkL
    simp [semverNeedsOf, hkL]
  · intro hpf
    rw [hpf] at hkS
    simp only [Bool.false_eq_true, if_false] at hkS
    simp [semverNeedsOf, hkS]
  · intro hpf
    rw [hpf] at hkB
    simp only [Bool.false_eq_true, if_false] at hkB
    simp [semverNeedsOf, hkB]

theorem C10_key_update_only_on_success_witness :
    semverResolve srcSemverPlain (netOneFile (some relStableV1) [relStableV1])
        (pkgStateOf syncEmpty "pkg") = SemverResolveOut.resolved c10resolved ∧
    (((pkgStateOf (semverBranch hashLen "B" "pkg" srcSemverPlain
          (netOneFile (some relStableV1) [relStableV1]) syncEmpty).s "pkg").latest_key
      = (if (semverBranch hashLen "B" "pkg" srcSemverPlain
            (netOneFile (some relStableV1) [relStableV1]) syncEmpty).pubLatest
         then some c10resolved.latestKey
         else (pkgStateOf syncEmpty "pkg").latest_key)) ∧
    ((pkgStateOf (semverBranch hashLen "B" "pkg" srcSemverPlain
          (netOneFile (some relStableV1) [relStableV1]) syncEmpty).s "pkg").stable_key
      = (if (semverBranch hashLen "B" "pkg" srcSemverPlain
            (netOneFile (some relStableV1) [relStableV1]) syncEmpty).pubStable
         then c10resolved.stableKey
         else (pkgStateOf syncEmpty "pkg").stable_key)) ∧
    ((pkgStateOf (semverBranch hashLen "B" "pkg" srcSemverPlain
          (netOneFile (some relStableV1) [relStableV1]) syncEmpty).s "pkg").beta_key
      = (if (semverBranch hashLen "B" "pkg" srcSemverPlain
            (netOneFile (some relStableV1) [relStableV1]) syncEmpty).pubBeta
         then c10resolved.betaKey
         else (pkgStateOf syncEmpty "pkg").beta_key)) ∧
    (∀ k, semverResolveKeys srcSemverPlain (netOneFile (some relStableV1) [relStableV1])
        = SemverKeysOut.keys k →
      semverResolve srcSemverPlain (netOneFile (some relStableV1) [relStableV1])
          (pkgStateOf (semverBranch hashLen "B" "pkg" srcSemverPlain
            (netOneFile (some relStableV1) [relStableV1]) syncEmpty).s "pkg")
        = SemverResolveOut.resolved
            (semverNeedsOf k (pkgStateOf (semverBranch hashLen "B" "pkg" srcSemverPlain
              (netOneFile (some relStableV1) [relStableV1]) syncEmpty).s "pkg")) ∧
      ((semverBranch hashLen "B" "pkg" srcSemverPlain
          (netOneFile (some relStableV1) [relStableV1]) syncEmpty).pubLatest = false →
        (semverNeedsOf k (pkgStateOf (semverBranch hashLen "B" "pkg" srcSemverPlain
            (netOneFile (some relStableV1) [relStableV1]) syncEmpty).s "pkg")).needLatest
          = c10resolved.needLatest) ∧
      ((semverBranch hashLen "B" "pkg" srcSemverPlain
          (netOneFile (some relStableV1) [relStableV1]) syncEmpty).pubStable = false →
        (semverNeedsOf k (pkgStateOf (semverBranch hashLen "B" "pkg" srcSemverPlain
            (netOneFile (some relStableV1) [relStableV1]) syncEmpty).s "pkg")).needStable
          = c10resolved.needStable) ∧
      ((semverBranch hashLen "B" "pkg" srcSemverPlain
          (netOneFile (some relStableV1) [relStableV1]) syncEmpty).pubBeta = false →
        (semverNeedsOf k (pkgStateOf (semverBranch hashLen "B" "pkg" srcSemverPlain
            (netOneFile (some relStableV1) [relStableV1]) syncEmpty).s "pkg")).needBeta
          = c10resolved.needBeta)) ∧
    (((relAssetBranch hashLen "B" "pkg" srcSemverPlain
          (netOneFile (some relStableV1) [relStableV1]) syncEmpty).published = false →
        (relAssetBranch hashLen "B" "pkg" srcSemverPlain
          (netOneFile (some relStableV1) [relStableV1]) syncEmpty).s.state
          = syncEmpty.state) ∧
     ((relAssetBranch hashLen "B" "pkg" srcSemverPlain
          (netOneFile (some relStableV1) [relStableV1]) syncEmpty).published = true →
        ∃ rel tag,
          (netOneFile (some relStableV1) [relStableV1]).relLatestResp = Except.ok rel ∧
          jsOrS rel.tag_name rel.name = some tag ∧
          (pkgStateOf syncEmpty "pkg").last_upstream_tag ≠ some tag ∧
          (relAssetBranch hashLen "B" "pkg" srcSemverPlain
            (netOneFile (some relStableV1) [relStableV1]) syncEmpty).s.state
            = upsertD syncEmpty.state "pkg"
                { pkgStateOf syncEmpty "pkg" with last_upstream_tag := some tag }))) :=
  ⟨by decide, C10_key_update_only_on_success hashLen "B" "pkg" srcSemverPlain
    (netOneFile (some relStableV1) [relStableV1]) syncEmpty c10resolved (by decide)⟩

theorem jsOrS_map_isSome {g : String → String} {o : Option ParsedRel}
    (h : ((jsOrS (o.map (fun x => x.tag)) none).map g).isSome = true) :
    o.isSome = true := by
  cases o with
  | none => simp [jsOrS, strTruthy] at h
  | some x => rfl

theorem semverKeys_pick_isSome (src : SourceCfg) (net : NetEnv) (k : SemverKeys)
    (hk : semverResolveKeys src net = SemverKeysOut.keys k) :
    (k.stableKey.isSome = true → k.stable.isSome = true) ∧
    (k.betaKey.isSome = true → k.beta.isSome = true) := by
  unfold semverResolveKeys at hk
  split at hk
  · exact absurd hk (by simp)
  · dsimp only [] at hk
    by_cases hlt : strTruthy (jsOrS (net.latestRelease.bind fun r => r.tag_name)
        (net.latestRelease.bind fun r => r.name)) = true
    · rw [if_pos hlt] at hk
      cases hlt0 : jsOrS (net.latestRelease.bind fun r => r.tag_name)
          (net.latestRelease.bind fun r => r.name) with
      | none =>
        rw [hlt0] at hlt
        simp [strTruthy] at hlt
      | some t =>
        rw [hlt0] at hk
        cases hrr : net.releasesResp with
        | error m =>
          rw [hrr] at hk
          exact absurd hk (by simp)
        | ok rels =>
          rw [hrr] at hk
          injection hk with hk2
          subst hk2
          exact ⟨fun h => jsOrS_map_isSome h, fun h => jsOrS_map_isSome h⟩
    · rw [if_neg hlt] at hk
      cases htr : net.tagsResp with
      | error m =>
        rw [htr] at hk
        exact absurd hk (by simp)
      | ok tags =>
        rw [htr] at hk
        dsimp only [] at hk
        cases hgt : getHighestSemverTag tags with
        | none =>
          rw [hgt] at hk
          exact absurd hk (by simp)
        | some t =>
          rw [hgt] at hk
          cases hrr : net.releasesResp with
          | error m =>
            rw [hrr] at hk
            exact absurd hk (by simp)
          | ok rels =>
            rw [hrr] at hk
            injection hk with hk2
            subst hk2
            exact ⟨fun h => jsOrS_map_isSome h, fun h => jsOrS_map_isSome h⟩

theorem latestBlock_ok (hash : List Nat → String) (builtAt pkg : String)
    (src : SourceCfg) (net : NetEnv) (r : SemverResolved) (s : SyncState)
    (hexc : (latestBlock hash builtAt pkg src net r s).exc = none)
    (hrows : ∀ row ∈ (latestBlock hash builtAt pkg src net r s).rows, isFailRow row = false)
    (hn : r.needLatest = true) :
    (latestBlock hash builtAt pkg src net r s).published = true := by
  revert hexc hrows
  unfold latestBlock
  rw [hn]
  simp only [if_true]
  split
  · intro hexc hrows
    have h1 := hrows _ (List.mem_singleton.mpr rfl)
    simp [isFailRow, mkRow] at h1
  · split
    · intro hexc hrows
      simp at hexc
    · intro hexc hrows
      have h1 := hrows _ (List.mem_singleton.mpr rfl)
      simp [isFailRow, mkRow] at h1
    · intro hexc hrows
      rfl

theorem stableBlock_ok (hash : List Nat → String) (builtAt pkg : String)
    (src : SourceCfg) (net : NetEnv) (r : SemverResolved) (s : SyncState)
    (hexc : (stableBlock hash builtAt pkg src net r s).exc = none)
    (hrows : ∀ row ∈ (stableBlock hash builtAt pkg src net r s).rows, isFailRow row = false)
    (hn : (r.needStable && r.stable.isSome) = true) :
    (stableBlock hash builtAt pkg src net r s).published = true := by
  revert hexc hrows
  unfold stableBlock
  rw [hn]
  simp only [if_true]
  split
  · split
    · intro hexc hrows
      simp at hexc
    · intro hexc hrows
      have h1 := hrows _ (List.mem_singleton.mpr rfl)
      simp [isFailRow, mkRow] at h1
    · intro hexc hrows
      rfl
  · rename_i hnone
    rw [hnone] at hn
    simp at hn

theorem betaBlock_ok (hash : List Nat → String) (builtAt pkg : String)
    (src : SourceCfg) (net : NetEnv) (r : SemverResolved) (s : SyncState)
    (hexc : (betaBlock hash builtAt pkg src net r s).exc = none)
    (hrows : ∀ row ∈ (betaBlock hash builtAt pkg src net r s).rows, isFailRow row = false)
    (hn : (r.needBeta && r.beta.isSome) = true) :
    (betaBlock hash builtAt pkg src net r s).published = true := by
  revert hexc hrows
  unfold betaBlock
  rw [hn]
  simp only [if_true]
  split
  · split
    · intro hexc hrows
      simp at hexc
    · intro hexc hrows
      have h1 := hrows _ (List.mem_singleton.mpr rfl)
      simp [isFailRow, mkRow] at h1
    · intro hexc hrows
      rfl
  · rename_i hnone
    rw [hnone] at hn
    simp at hn

/-- When no key changed, the semver branch records exactly one SKIP row and
returns the run state untouched. -/
theorem semverBranch_skip_of_no_needs (hash : List Nat → String) (builtAt pkg : String)
    (src : SourceCfg) (net : NetEnv) (s : SyncState) (r : SemverResolved)
    (hres : semverResolve src net (pkgStateOf s pkg) = SemverResolveOut.resolved r)
    (hL : r.needLatest = false) (hS : r.needStable = false) (hB : r.needBeta = false) :
    semverBranch hash builtAt pkg src net s
      = ⟨s, [mkRow pkg semverType r.latestTag "skip" "SKIP"
          "No changes (keys match external-state.json)"], none, false, false, false⟩ := by
  simp [semverBranch, hres, semverAfterResolve, hL, hS, hB]

/-- When the fetched tag equals the recorded `last_upstream_tag`, the
release-asset branch records exactly one SKIP row and returns the run state
untouched. -/
theorem relAssetBranch_skip_shape (hash : List Nat → String) (builtAt pkg : String)
    (src : SourceCfg) (net : NetEnv) (s : SyncState) (rel : Release)
    (hrepo : strTruthy src.repo = true)
    (hrel : net.relLatestResp = Except.ok rel)
    (htag : strTruthy (jsOrS rel.tag_name rel.name) = true)
    (hid : (pkgStateOf s pkg).last_upstream_tag
      = some ((jsOrS rel.tag_name rel.name).getD "")) :
    relAssetBranch hash builtAt pkg src net s
      = ⟨s, [mkRow pkg relAssetType ((jsOrS rel.tag_name rel.name).getD "") "skip" "SKIP"
          "No changes (same upstream tag)"], none, false⟩ := by
  simp [relAssetBranch, hrepo, hrel, htag, hid]

/-- When the resolved commit SHA equals the recorded `last_commit`, the raw
branch records exactly one SKIP row and returns the run state untouched. -/
theorem rawBranch_skip_shape (hash : List Nat → String) (builtAt pkg : String)
    (src : SourceCfg) (net : NetEnv) (s : SyncState) (ref sha : String)
    (hres : rawResolve src net = RawResolveOut.resolved ref sha)
    (hid : (pkgStateOf s pkg).last_commit = some sha) :
    rawBranch hash builtAt pkg src net s
      = ⟨s, [mkRow pkg rawType (ref ++ "@" ++ sha12 (some sha)) "skip" "SKIP"
          "No changes (same commit SHA)"], none, false⟩ := by
  simp [rawBranch, hres, hid]

/-- A FAIL-free, exception-free semver run leaves the recorded keys equal to
the freshly resolved keys, so an identical second run skips wholesale. -/
theorem semverBranch_second_skip (hash : List Nat → String) (builtAt pkg : String)
    (src : SourceCfg) (net : NetEnv) (s : SyncState)
    (hexc : (semverBranch hash builtAt pkg src net s).exc = none)
    (hrows : ∀ row ∈ (semverBranch hash builtAt pkg src net s).rows, isFailRow row = false)
    (k : SemverKeys) (hk : semverResolveKeys src net = SemverKeysOut.keys k) :
    semverBranch hash builtAt pkg src net (semverBranch hash builtAt pkg src net s).s
      = ⟨(semverBranch hash builtAt pkg src net s).s,
         [mkRow pkg semverType k.latestTag "skip" "SKIP"
           "No changes (keys match external-state.json)"], none, false, false, false⟩ := by
  have hres : semverResolve src net (pkgStateOf s pkg)
      = SemverResolveOut.resolved (semverNeedsOf k (pkgStateOf s pkg)) := by
    simp [semverResolve, hk]
  have hres2 : semverResolve src net
        (pkgStateOf (semverBranch hash builtAt pkg src net s).s pkg)
      = SemverResolveOut.resolved (semverNeedsOf k
          (pkgStateOf (semverBranch hash builtAt pkg src net s).s pkg)) := by
    simp [semverResolve, hk]
  obtain ⟨hkL, hkS, hkB⟩ :=
    semverBranch_keys hash builtAt pkg src net s (semverNeedsOf k (pkgStateOf s pkg)) hres
  by_cases hcond : (!(semverNeedsOf k (pkgStateOf s pkg)).needLatest
      && !(semverNeedsOf k (pkgStateOf s pkg)).needStable
      && !(semverNeedsOf k (pkgStateOf s pkg)).needBeta) = true
  · simp only [Bool.and_eq_true, Bool.not_eq_true'] at hcond
    obtain ⟨⟨hL0, hS0⟩, hB0⟩ := hcond
    have hout : semverBranch hash builtAt pkg src net s
        = ⟨s, [mkRow pkg semverType (semverNeedsOf k (pkgStateOf s pkg)).latestTag
            "skip" "SKIP" "No changes (keys match external-state.json)"],
           none, false, false, false⟩ :=
      semverBranch_skip_of_no_needs hash builtAt pkg src net s _ hres hL0 hS0 hB0
    rw [hout]
    exact semverBranch_skip_of_no_needs hash builtAt pkg src net s _ hres hL0 hS0 hB0
  · rw [Bool.not_eq_true] at hcond
    cases hexc1 : (latestBlock hash builtAt pkg src net
        (semverNeedsOf k (pkgStateOf s pkg)) s).exc with
    | some m =>
      rw [show (semverBranch hash builtAt pkg src net s).exc = some m by
        simp [semverBranch, hres, semverAfterResolve, hcond, hexc1]] at hexc
      exact absurd hexc (by simp)
    | none =>
    cases hexc2 : (stableBlock hash builtAt pkg src net
        (semverNeedsOf k (pkgStateOf s pkg))
        (latestBlock hash builtAt pkg src net
          (semverNeedsOf k (pkgStateOf s pkg)) s).s).exc with
    | some m =>
      rw [show (semverBranch hash builtAt pkg src net s).exc = some m by
        simp [semverBranch, hres, semverAfterResolve, hcond, hexc1, hexc2]] at hexc
      exact absurd hexc (by simp)
    | none =>
    have hout : semverBranch hash builtAt pkg src net s
        = ⟨(betaBlock hash builtAt pkg src net (semverNeedsOf k (pkgStateOf s pkg))
              (stableBlock hash builtAt pkg src net (semverNeedsOf k (pkgStateOf s pkg))
                (latestBlock hash builtAt pkg src net
                  (semverNeedsOf k (pkgStateOf s pkg)) s).s).s).s,
           (latestBlock hash builtAt pkg src net
              (semverNeedsOf k (pkgStateOf s pkg)) s).rows
             ++ (stableBlock hash builtAt pkg src net (semverNeedsOf k (pkgStateOf s pkg))
                  (latestBlock hash builtAt pkg src net
                    (semverNeedsOf k (pkgStateOf s pkg)) s).s).rows
             ++ (betaBlock hash builtAt pkg src net (semverNeedsOf k (pkgStateOf s pkg))
                  (stableBlock hash builtAt pkg src net (semverNeedsOf k (pkgStateOf s pkg))
                    (latestBlock hash builtAt pkg src net
                      (semverNeedsOf k (pkgStateOf s pkg)) s).s).s).rows,
           (betaBlock hash builtAt pkg src net (semverNeedsOf k (pkgStateOf s pkg))
              (stableBlock hash builtAt pkg src net (semverNeedsOf k (pkgStateOf s pkg))
                (latestBlock hash builtAt pkg src net
                  (semverNeedsOf k (pkgStateOf s pkg)) s).s).s).exc,
           (latestBlock hash builtAt pkg src net
              (semverNeedsOf k (pkgStateOf s pkg)) s).published,
           (stableBlock hash builtAt pkg src net (semverNeedsOf k (pkgStateOf s pkg))
              (latestBlock hash builtAt pkg src net
                (semverNeedsOf k (pkgStateOf s pkg)) s).s).published,
           (betaBlock hash builtAt pkg src net (semverNeedsOf k (pkgStateOf s pkg))
              (stableBlock hash builtAt pkg src net (semverNeedsOf k (pkgStateOf s pkg))
                (latestBlock hash builtAt pkg src net
                  (semverNeedsOf k (pkgStateOf s pkg)) s).s).s).published⟩ := by
      simp [semverBranch, hres, semverAfterResolve, hcond, hexc1, hexc2]
    have hrows1 : ∀ row ∈ (latestBlock hash builtAt pkg src net
        (semverNeedsOf k (pkgStateOf s pkg)) s).rows, isFailRow row = false := by
      intro row hrow
      exact hrows row (by rw [hout]; simp [hrow])
    have hrows2 : ∀ row ∈ (stableBlock hash builtAt pkg src net
        (semverNeedsOf k (pkgStateOf s pkg))
        (latestBlock hash builtAt pkg src net
          (semverNeedsOf k (pkgStateOf s pkg)) s).s).rows, isFailRow row = false := by
      intro row hrow
      exact hrows row (by rw [hout]; simp [hrow])
    have hrows3 : ∀ row ∈ (betaBlock hash builtAt pkg src net
        (semverNeedsOf k (pkgStateOf s pkg))
        (stableBlock hash builtAt pkg src net (semverNeedsOf k (pkgStateOf s pkg))
          (latestBlock hash builtAt pkg src net
            (semverNeedsOf k (pkgStateOf s pkg)) s).s).s).rows, isFailRow row = false := by
      intro row hrow
      exact hrows row (by rw [hout]; simp [hrow])
    have hexc3 : (betaBlock hash builtAt pkg src net (semverNeedsOf k (pkgStateOf s pkg))
        (stableBlock hash builtAt pkg src net (semverNeedsOf k (pkgStateOf s pkg))
          (latestBlock hash builtAt pkg src net
            (semverNeedsOf k (pkgStateOf s pkg)) s).s).s).exc = none := by
      rw [hout] at hexc
      exact hexc
    have hpL : (semverBranch hash builtAt pkg src net s).pubLatest
        = (latestBlock hash builtAt pkg src net
            (semverNeedsOf k (pkgStateOf s pkg)) s).published := by
      rw [hout]
    have hpS : (semverBranch hash builtAt pkg src net s).pubStable
        = (stableBlock hash builtAt pkg src net (semverNeedsOf k (pkgStateOf s pkg))
            (latestBlock hash builtAt pkg src net
              (semverNeedsOf k (pkgStateOf s pkg)) s).s).published := by
      rw [hout]
    have hpB : (semverBranch hash builtAt pkg src net s).pubBeta
        = (betaBlock hash builtAt pkg src net (semverNeedsOf k (pkgStateOf s pkg))
            (stableBlock hash builtAt pkg src net (semverNeedsOf k (pkgStateOf s pkg))
              (latestBlock hash builtAt pkg src net
                (semverNeedsOf k (pkgStateOf s pkg)) s).s).s).published := by
      rw [hout]
    have hNL : (semverNeedsOf k (pkgStateOf s pkg)).needLatest = true →
        (semverBranch hash builtAt pkg src net s).pubLatest = true := by
      intro hn
      rw [hpL]
      exact latestBlock_ok hash builtAt pkg src net _ s hexc1 hrows1 hn
    have hNS : (semverNeedsOf k (pkgStateOf s pkg)).needStable = true →
        (semverBranch hash builtAt pkg src net s).pubStable = true := by
      intro hn
      rw [hpS]
      refine stableBlock_ok hash builtAt pkg src net _ _ hexc2 hrows2 ?_
      have hsome : k.stableKey.isSome = true := by
        have : (k.stableKey.isSome && (pkgStateOf s pkg).stable_key != k.stableKey) = true := hn
        exact (Bool.and_eq_true _ _ |>.mp this).1
      rw [hn]
      have := (semverKeys_pick_isSome src net k hk).1 hsome
      simp [semverNeedsOf, this]
    have hNB : (semverNeedsOf k (pkgStateOf s pkg)).needBeta = true →
        (semverBranch hash builtAt pkg src net s).pubBeta = true := by
      intro hn
      rw [hpB]
      refine betaBlock_ok hash builtAt pkg src net _ _ hexc3 hrows3 ?_
      have hsome : k.betaKey.isSome = true := by
        have : (k.betaKey.isSome && (pkgStateOf s pkg).beta_key != k.betaKey) = true := hn
        exact (Bool.and_eq_true _ _ |>.mp this).1
      rw [hn]
      have := (semverKeys_pick_isSome src net k hk).2 hsome
      simp [semverNeedsOf, this]
    have hL2 : (semverNeedsOf k
        (pkgStateOf (semverBranch hash builtAt pkg src net s).s pkg)).needLatest = false := by
      cases hpub : (semverBranch hash builtAt pkg src net s).pubLatest with
      | true =>
        rw [hpub, if_pos rfl] at hkL
        simp [semverNeedsOf, hkL]
      | false =>
        have hn : (semverNeedsOf k (pkgStateOf s pkg)).needLatest = false := by
          cases hrn : (semverNeedsOf k (pkgStateOf s pkg)).needLatest with
          | false => rfl
          | true => rw [hpub] at hNL; exact absurd (hNL hrn) (by simp)
        rw [hpub] at hkL
        simp only [Bool.false_eq_true, if_false] at hkL
        show ((pkgStateOf (semverBranch hash builtAt pkg src net s).s pkg).latest_key
          != some k.latestKey) = false
        rw [hkL]
        exact hn
    have hS2 : (semverNeedsOf k
        (pkgStateOf (semverBranch hash builtAt pkg src net s).s pkg)).needStable = false := by
      cases hpub : (semverBranch hash builtAt pkg src net s).pubStable with
      | true =>
        rw [hpub, if_pos rfl] at hkS
        simp [semverNeedsOf, hkS]
      | false =>
        have hn : (semverNeedsOf k (pkgStateOf s pkg)).needStable = false := by
          cases hrn : (semverNeedsOf k (pkgStateOf s pkg)).needStable with
          | false => rfl
          | true => rw [hpub] at hNS; exact absurd (hNS hrn) (by simp)
        rw [hpub] at hkS
        simp only [Bool.false_eq_true, if_false] at hkS
        show (k.stableKey.isSome
          && ((pkgStateOf (semverBranch hash builtAt pkg src net s).s pkg).stable_key
              != k.stableKey)) = false
        rw [hkS]
        exact hn
    have hB2 : (semverNeedsOf k
        (pkgStateOf (semverBranch hash builtAt pkg src net s).s pkg)).needBeta = false := by
      cases hpub : (semverBranch hash builtAt pkg src net s).pubBeta with
      | true =>
        rw [hpub, if_pos rfl] at hkB
        simp [semverNeedsOf, hkB]
      | false =>
        have hn : (semverNeedsOf k (pkgStateOf s pkg)).needBeta = false := by
          cases hrn : (semverNeedsOf k (pkgStateOf s pkg)).needBeta with
          | false => rfl
          | true => rw [hpub] at hNB; exact absurd (hNB hrn) (by simp)
        rw [hpub] at hkB
        simp only [Bool.false_eq_true, if_false] at hkB
        show (k.betaKey.isSome
          && ((pkgStateOf (semverBranch hash builtAt pkg src net s).s pkg).beta_key
              != k.betaKey)) = false
        rw [hkB]
        exact hn
    exact semverBranch_skip_of_no_needs hash builtAt pkg src net
      (semverBranch hash builtAt pkg src net s).s _ hres2 hL2 hS2 hB2

theorem pkgStateOf_recordPkgState (s : SyncState) (pkg : String) (f : PkgState → PkgState) :
    pkgStateOf (recordPkgState s pkg f) pkg = f (pkgStateOf s pkg) := by
  show (lookupD (upsertD s.state pkg (f (pkgStateOf s pkg))) pkg).getD emptyPkgState = _
  rw [lookupD_upsertD_self]
  rfl

/-- After a FAIL-free, exception-free release-asset run the recorded upstream
tag equals the tag the run fetched. -/
theorem relAssetBranch_first_facts (hash : List Nat → String) (builtAt pkg : String)
    (src : SourceCfg) (net : NetEnv) (s : SyncState)
    (hexc : (relAssetBranch hash builtAt pkg src net s).exc = none)
    (hrows : ∀ row ∈ (relAssetBranch hash builtAt pkg src net s).rows, isFailRow row = false)
    (rel : Release) (hrel : net.relLatestResp = Except.ok rel) :
    strTruthy src.repo = true ∧
    strTruthy (jsOrS rel.tag_name rel.name) = true ∧
    (pkgStateOf (relAssetBranch hash builtAt pkg src net s).s pkg).last_upstream_tag
      = some ((jsOrS rel.tag_name rel.name).getD "") := by
  revert hexc hrows
  unfold relAssetBranch
  split
  · intro hexc hrows
    have h1 := hrows _ (List.mem_singleton.mpr rfl)
    simp [isFailRow, mkRow] at h1
  · rename_i hrepo
    split
    · rename_i m heq
      rw [hrel] at heq
      exact absurd heq (by simp)
    · rename_i rel2 heq
      rw [hrel] at heq
      injection heq with heq2
      subst heq2
      split
      · dsimp only []
        split
        · intro hexc hrows
          have h1 := hrows _ (List.mem_singleton.mpr rfl)
          simp [isFailRow, mkRow] at h1
        · rename_i htag
          split
          · rename_i hskip
            intro hexc hrows
            exact ⟨by simpa using hrepo, by simpa using htag, beq_iff_eq.mp hskip⟩
          · intro hexc hrows
            simp at hexc
      · rename_i files hfiles
        dsimp only []
        split
        · intro hexc hrows
          have h1 := hrows _ (List.mem_singleton.mpr rfl)
          simp [isFailRow, mkRow] at h1
        · rename_i htag
          split
          · rename_i hskip
            intro hexc hrows
            exact ⟨by simpa using hrepo, by simpa using htag, beq_iff_eq.mp hskip⟩
          · rename_i hne
            split
            · intro hexc hrows
              have h1 := hrows _ (List.mem_singleton.mpr rfl)
              simp [isFailRow, mkRow] at h1
            · intro hexc hrows
              refine ⟨by simpa using hrepo, by simpa using htag, ?_⟩
              dsimp only []
              rw [pkgStateOf_recordPkgState]

/-- A FAIL-free, exception-free release-asset run leaves a recorded tag that
makes an identical second run skip wholesale. -/
theorem relAssetBranch_second_skip (hash : List Nat → String) (builtAt pkg : String)
    (src : SourceCfg) (net : NetEnv) (s : SyncState)
    (hexc : (relAssetBranch hash builtAt pkg src net s).exc = none)
    (hrows : ∀ row ∈ (relAssetBranch hash builtAt pkg src net s).rows, isFailRow row = false)
    (rel : Release) (hrel : net.relLatestResp = Except.ok rel) :
    relAssetBranch hash builtAt pkg src net (relAssetBranch hash builtAt pkg src net s).s
      = ⟨(relAssetBranch hash builtAt pkg src net s).s,
         [mkRow pkg relAssetType ((jsOrS rel.tag_name rel.name).getD "") "skip" "SKIP"
           "No changes (same upstream tag)"], none, false⟩ := by
  obtain ⟨hrepo, htag, hid⟩ :=
    relAssetBranch_first_facts hash builtAt pkg src net s hexc hrows rel hrel
  exact relAssetBranch_skip_shape hash builtAt pkg src net _ rel hrepo hrel htag hid

/-- After a FAIL-free, exception-free raw run the recorded commit equals the
resolved SHA. -/
theorem rawBranch_first_facts (hash : List Nat → String) (builtAt pkg : String)
    (src : SourceCfg) (net : NetEnv) (s : SyncState)
    (hexc : (rawBranch hash builtAt pkg src net s).exc = none)
    (hrows : ∀ row ∈ (rawBranch hash builtAt pkg src net s).rows, isFailRow row = false)
    (ref sha : String) (hres : rawResolve src net = RawResolveOut.resolved ref sha) :
    (pkgStateOf (rawBranch hash builtAt pkg src net s).s pkg).last_commit = some sha := by
  revert hexc hrows
  unfold rawBranch
  split
  · rename_i m heq
    rw [hres] at heq
    exact absurd heq (by simp)
  · rename_i heq
    rw [hres] at heq
    exact absurd heq (by simp)
  · rename_i r2 heq
    rw [hres] at heq
    exact absurd heq (by simp)
  · rename_i ref2 sha2 heq
    rw [hres] at heq
    injection heq with h1 h2
    subst h1
    subst h2
    split
    · rename_i hskip
      intro hexc hrows
      exact beq_iff_eq.mp hskip
    · rename_i hne
      dsimp only []
      by_cases hempty : (toFetchOf src).isEmpty = true
      · rw [if_pos hempty]
        intro hexc hrows
        have h1 := hrows _ (List.mem_singleton.mpr rfl)
        simp [isFailRow, mkRow] at h1
      · rw [if_neg hempty]
        split
        · intro hexc hrows
          simp at hexc
        · rename_i downloaded hdl
          intro hexc hrows
          dsimp only []
          rw [pkgStateOf_recordPkgState]

/-- A FAIL-free, exception-free raw run leaves a recorded commit that makes an
identical second run skip wholesale. -/
theorem rawBranch_second_skip (hash : List Nat → String) (builtAt pkg : String)
    (src : SourceCfg) (net : NetEnv) (s : SyncState)
    (hexc : (rawBranch hash builtAt pkg src net s).exc = none)
    (hrows : ∀ row ∈ (rawBranch hash builtAt pkg src net s).rows, isFailRow row = false)
    (ref sha : String) (hres : rawResolve src net = RawResolveOut.resolved ref sha) :
    rawBranch hash builtAt pkg src net (rawBranch hash builtAt pkg src net s).s
      = ⟨(rawBranch hash builtAt pkg src net s).s,
         [mkRow pkg rawType (ref ++ "@" ++ sha12 (some sha)) "skip" "SKIP"
           "No changes (same commit SHA)"], none, false⟩ := by
  have hid := rawBranch_first_facts hash builtAt pkg src net s hexc hrows ref sha hres
  exact rawBranch_skip_shape hash builtAt pkg src net _ ref sha hres hid

/-- C2: when the current upstream identity equals the identity recorded in
`external-state.json`, each source branch records exactly one SKIP row and
returns the run state (state file, published trees, indexes) untouched — for
the semver branch when no per-target key changed, for the release-asset branch
when the fetched tag equals `last_upstream_tag`, and for the raw branch when
the resolved commit SHA equals `last_commit`.  Consequently a FAIL-free,
exception-free run leaves identities that make an identical second run (same
network answers) skip wholesale, leaving every published file — and hence
every integrity digest — unchanged. -/
theorem C2_skip_idempotency (hash : List Nat → String) (builtAt pkg : String)
    (src : SourceCfg) (net : NetEnv) (s : SyncState) :
    (∀ r, semverResolve src net (pkgStateOf s pkg) = SemverResolveOut.resolved r →
      r.needLatest = false → r.needStable = false → r.needBeta = false →
      semverBranch hash builtAt pkg src net s
        = ⟨s, [mkRow pkg semverType r.latestTag "skip" "SKIP"
            "No changes (keys match external-state.json)"], none, false, false, false⟩) ∧
    (∀ rel, strTruthy src.repo = true → net.relLatestResp = Except.ok rel →
      strTruthy (jsOrS rel.tag_name rel.name) = true →
      (pkgStateOf s pkg).last_upstream_tag = some ((jsOrS rel.tag_name rel.name).getD "") →
      relAssetBranch hash builtAt pkg src net s
        = ⟨s, [mkRow pkg relAssetType ((jsOrS rel.tag_name rel.name).getD "") "skip" "SKIP"
            "No changes (same upstream tag)"], none, false⟩) ∧
    (∀ ref sha, rawResolve src net = RawResolveOut.resolved ref sha →
      (pkgStateOf s pkg).last_commit = some sha →
      rawBranch hash builtAt pkg src net s
        = ⟨s, [mkRow pkg rawType (ref ++ "@" ++ sha12 (some sha)) "skip" "SKIP"
            "No changes (same commit SHA)"], none, false⟩) ∧
    ((semverBranch hash builtAt pkg src net s).exc = none →
      (∀ row ∈ (semverBranch hash builtAt pkg src net s).rows, isFailRow row = false) →
      ∀ k, semverResolveKeys src net = SemverKeysOut.keys k →
      semverBranch hash builtAt pkg src net (semverBranch hash builtAt pkg src net s).s
        = ⟨(semverBranch hash builtAt pkg src net s).s,
           [mkRow pkg semverType k.latestTag "skip" "SKIP"
             "No changes (keys match external-state.json)"], none, false, false, false⟩) ∧
    ((relAssetBranch hash builtAt pkg src net s).exc = none →
      (∀ row ∈ (relAssetBranch hash builtAt pkg src net s).rows, isFailRow row = false) →
      ∀ rel, net.relLatestResp = Except.ok rel →
      relAssetBranch hash builtAt pkg src net (relAssetBranch hash builtAt pkg src net s).s
        = ⟨(relAssetBranch hash builtAt pkg src net s).s,
           [mkRow pkg relAssetType ((jsOrS rel.tag_name rel.name).getD "") "skip" "SKIP"
             "No changes (same upstream tag)"], none, false⟩) ∧
    ((rawBranch hash builtAt pkg src net s).exc = none →
      (∀ row ∈ (rawBranch hash builtAt pkg src net s).rows, isFailRow row = false) →
      ∀ ref sha, rawResolve src net = RawResolveOut.resolved ref sha →
      rawBranch hash builtAt pkg src net (rawBranch hash builtAt pkg src net s).s
        = ⟨(rawBranch hash builtAt pkg src net s).s,
           [mkRow pkg rawType (ref ++ "@" ++ sha12 (some sha)) "skip" "SKIP"
             "No changes (same commit SHA)"], none, false⟩) :=
  ⟨fun r hres hL hS hB =>
      semverBranch_skip_of_no_needs hash builtAt pkg src net s r hres hL hS hB,
   fun rel hrepo hrel htag hid =>
      relAssetBranch_skip_shape hash builtAt pkg src net s rel hrepo hrel htag hid,
   fun ref sha hres hid =>
      rawBranch_skip_shape hash builtAt pkg src net s ref sha hres hid,
   fun hexc hrows k hk =>
      semverBranch_second_skip hash builtAt pkg src net s hexc hrows k hk,
   fun hexc hrows rel hrel =>
      relAssetBranch_second_skip hash builtAt pkg src net s hexc hrows rel hrel,
   fun hexc hrows ref sha hres =>
      rawBranch_second_skip hash builtAt pkg src net s hexc hrows ref sha hres⟩

theorem C2_skip_idempotency_witness :
    (semverBranch hashLen "B" "pkg" srcSemverPlain
        (netOneFile (some relStableV1) [relStableV1]) syncEmpty).exc = none ∧
    (∀ row ∈ (semverBranch hashLen "B" "pkg" srcSemverPlain
        (netOneFile (some relStableV1) [relStableV1]) syncEmpty).rows,
      isFailRow row = false) ∧
    semverResolveKeys srcSemverPlain (netOneFile (some relStableV1) [relStableV1])
      = SemverKeysOut.keys c2keys ∧
    semverBranch hashLen "B" "pkg" srcSemverPlain
        (netOneFile (some relStableV1) [relStableV1])
        (semverBranch hashLen "B" "pkg" srcSemverPlain
          (netOneFile (some relStableV1) [relStableV1]) syncEmpty).s
      = ⟨(semverBranch hashLen "B" "pkg" srcSemverPlain
            (netOneFile (some relStableV1) [relStableV1]) syncEmpty).s,
         [mkRow "pkg" semverType c2keys.latestTag "skip" "SKIP"
           "No changes (keys match external-state.json)"], none, false, false, false⟩ :=
  ⟨by decide, by decide, by decide,
   (C2_skip_idempotency hashLen "B" "pkg" srcSemverPlain
      (netOneFile (some relStableV1) [relStableV1]) syncEmpty).2.2.2.1
     (by decide) (by decide) c2keys (by decide)⟩

theorem latestBlock_frame (hash : List Nat → String) (builtAt pkg : String)
    (src : SourceCfg) (net : NetEnv) (r : SemverResolved) (s : SyncState) :
    ((latestBlock hash builtAt pkg src net r s).s.results = s.results) ∧
    ((latestBlock hash builtAt pkg src net r s).s.hadFailure = s.hadFailure) := by
  unfold latestBlock
  split
  · split
    · exact ⟨rfl, rfl⟩
    · simp only []
      rcases hpub : pubFromRelease hash builtAt src net pkg r.repo
        (r.latest.getD ⟨none, none, false, false, none⟩) "latest" s with ⟨sp, o⟩
      have hfr := pubFromRelease_frame hash builtAt src net pkg r.repo
        (r.latest.getD ⟨none, none, false, false, none⟩) "latest" s
      rw [hpub] at hfr
      rcases o with m | _ | ⟨tag, version, channel, n⟩
      · exact ⟨hfr.2.1, hfr.2.2.1⟩
      · exact ⟨hfr.2.1, hfr.2.2.1⟩
      · exact ⟨hfr.2.1, hfr.2.2.1⟩
  · exact ⟨rfl, rfl⟩

theorem stableBlock_frame (hash : List Nat → String) (builtAt pkg : String)
    (src : SourceCfg) (net : NetEnv) (r : SemverResolved) (s : SyncState) :
    ((stableBlock hash builtAt pkg src net r s).s.results = s.results) ∧
    ((stableBlock hash builtAt pkg src net r s).s.hadFailure = s.hadFailure) := by
  unfold stableBlock
  split
  · split
    · rename_i sp hsp
      simp only []
      rcases hpub : pubFromRelease hash builtAt src net pkg r.repo sp.rel "stable" s
        with ⟨s2, o⟩
      have hfr := pubFromRelease_frame hash builtAt src net pkg r.repo sp.rel "stable" s
      rw [hpub] at hfr
      rcases o with m | _ | ⟨tag, version, channel, n⟩
      · exact ⟨hfr.2.1, hfr.2.2.1⟩
      · exact ⟨hfr.2.1, hfr.2.2.1⟩
      · exact ⟨hfr.2.1, hfr.2.2.1⟩
    · exact ⟨rfl, rfl⟩
  · exact ⟨rfl, rfl⟩

theorem betaBlock_frame (hash : List Nat → String) (builtAt pkg : String)
    (src : SourceCfg) (net : NetEnv) (r : SemverResolved) (s : SyncState) :
    ((betaBlock hash builtAt pkg src net r s).s.results = s.results) ∧
    ((betaBlock hash builtAt pkg src net r s).s.hadFailure = s.hadFailure) := by
  unfold betaBlock
  split
  · split
    · rename_i bp hbp
      simp only []
      rcases hpub : pubFromRelease hash builtAt src net pkg r.repo bp.rel "beta" s
        with ⟨s2, o⟩
      have hfr := pubFromRelease_frame hash builtAt src net pkg r.repo bp.rel "beta" s
      rw [hpub] at hfr
      rcases o with m | _ | ⟨tag, version, channel, n⟩
      · exact ⟨hfr.2.1, hfr.2.2.1⟩
      · exact ⟨hfr.2.1, hfr.2.2.1⟩
      · exact ⟨hfr.2.1, hfr.2.2.1⟩
    · exact ⟨rfl, rfl⟩
  · exact ⟨rfl, rfl⟩

/-- No source branch touches the `results` list or the `hadFailure` flag
inside the state it returns; the orchestrator appends rows afterwards. -/
theorem semverBranch_frame (hash : List Nat → String) (builtAt pkg : String)
    (src : SourceCfg) (net : NetEnv) (s : SyncState) :
    ((semverBranch hash builtAt pkg src net s).s.results = s.results) ∧
    ((semverBranch hash builtAt pkg src net s).s.hadFailure = s.hadFailure) := by
  unfold semverBranch
  split
  · exact ⟨rfl, rfl⟩
  · exact ⟨rfl, rfl⟩
  · exact ⟨rfl, rfl⟩
  · rename_i r hres
    obtain ⟨hA1, hA2⟩ := latestBlock_frame hash builtAt pkg src net r s
    obtain ⟨hB1, hB2⟩ := stableBlock_frame hash builtAt pkg src net r
      (latestBlock hash builtAt pkg src net r s).s
    obtain ⟨hC1, hC2⟩ := betaBlock_frame hash builtAt pkg src net r
      (stableBlock hash builtAt pkg src net r
        (latestBlock hash builtAt pkg src net r s).s).s
    unfold semverAfterResolve
    split
    · exact ⟨rfl, rfl⟩
    · cases hexc1 : (latestBlock hash builtAt pkg src net r s).exc with
      | some m =>
        simp only [hexc1]
        exact ⟨hA1, hA2⟩
      | none =>
        cases hexc2 : (stableBlock hash builtAt pkg src net r
            (latestBlock hash builtAt pkg src net r s).s).exc with
        | some m =>
          simp only [hexc1, hexc2]
          exact ⟨hB1.trans hA1, hB2.trans hA2⟩
        | none =>
          simp only [hexc1, hexc2]
          exact ⟨(hC1.trans hB1).trans hA1, (hC2.trans hB2).trans hA2⟩

theorem relAssetBranch_frame (hash : List Nat → String) (builtAt pkg : String)
    (src : SourceCfg) (net : NetEnv) (s : SyncState) :
    ((relAssetBranch hash builtAt pkg src net s).s.results = s.results) ∧
    ((relAssetBranch hash builtAt pkg src net s).s.hadFailure = s.hadFailure) := by
  unfold relAssetBranch
  split
  · exact ⟨rfl, rfl⟩
  · split
    · exact ⟨rfl, rfl⟩
    · split
      · dsimp only []
        split
        · exact ⟨rfl, rfl⟩
        · split
          · exact ⟨rfl, rfl⟩
          · exact ⟨rfl, rfl⟩
      · dsimp only []
        split
        · exact ⟨rfl, rfl⟩
        · split
          · exact ⟨rfl, rfl⟩
          · split
            · exact ⟨rfl, rfl⟩
            · exact ⟨rfl, rfl⟩

theorem rawBranch_frame (hash : List Nat → String) (builtAt pkg : String)
    (src : SourceCfg) (net : NetEnv) (s : SyncState) :
    ((rawBranch hash builtAt pkg src net s).s.results = s.results) ∧
    ((rawBranch hash builtAt pkg src net s).s.hadFailure = s.hadFailure) := by
  unfold rawBranch
  split
  · exact ⟨rfl, rfl⟩
  · exact ⟨rfl, rfl⟩
  · exact ⟨rfl, rfl⟩
  · split
    · exact ⟨rfl, rfl⟩
    · dsimp only []
      split
      · exact ⟨rfl, rfl⟩
      · split
        · exact ⟨rfl, rfl⟩
        · exact ⟨rfl, rfl⟩

theorem sourceOutcome_frame (hash : List Nat → String) (builtAt : String)
    (job : SrcJob) (s : SyncState) :
    ((sourceOutcome hash builtAt job s).1.results = s.results) ∧
    ((sourceOutcome hash builtAt job s).1.hadFailure = s.hadFailure) := by
  unfold sourceOutcome
  dsimp only []
  by_cases h1 : (job.src.type == some "github-release-assets-semver") = true
  · rw [if_pos h1]
    dsimp only []
    cases hexc : (semverBranch hash builtAt (job.src.package.getD "")
        job.src job.net s).exc with
    | none =>
      simp only [hexc]
      exact semverBranch_frame hash builtAt (job.src.package.getD "") job.src job.net s
    | some m =>
      simp only [hexc]
      exact semverBranch_frame hash builtAt (job.src.package.getD "") job.src job.net s
  · rw [if_neg h1]
    by_cases h2 : (job.src.type == some "github-release-asset") = true
    · rw [if_pos h2]
      dsimp only []
      cases hexc : (relAssetBranch hash builtAt (job.src.package.getD "")
          job.src job.net s).exc with
      | none =>
        simp only [hexc]
        exact relAssetBranch_frame hash builtAt (job.src.package.getD "") job.src job.net s
      | some m =>
        simp only [hexc]
        exact relAssetBranch_frame hash builtAt (job.src.package.getD "") job.src job.net s
    · rw [if_neg h2]
      by_cases h3 : (job.src.type == some "github-raw-file") = true
      · rw [if_pos h3]
        dsimp only []
        cases hexc : (rawBranch hash builtAt (job.src.package.getD "")
            job.src job.net s).exc with
        | none =>
          simp only [hexc]
          exact rawBranch_frame hash builtAt (job.src.package.getD "") job.src job.net s
        | some m =>
          simp only [hexc]
          exact rawBranch_frame hash builtAt (job.src.package.getD "") job.src job.net s
      · rw [if_neg h3]
        exact ⟨rfl, rfl⟩

/-- One loop iteration keeps `hadFailure` equal to "some recorded row is a
FAIL row": the flag is set exactly at the sites that record FAIL rows. -/
theorem processSource_inv (hash : List Nat → String) (builtAt : String)
    (job : SrcJob) (s : SyncState)
    (hinv : s.hadFailure = s.results.any isFailRow) :
    (processSource hash builtAt job s).hadFailure
      = ((processSource hash builtAt job s).results.any isFailRow) := by
  unfold processSource
  split
  · exact hinv
  · dsimp only []
    obtain ⟨hr, hf⟩ := sourceOutcome_frame hash builtAt job s
    show ((sourceOutcome hash builtAt job s).1.hadFailure
        || ((sourceOutcome hash builtAt job s).2.any isFailRow))
      = ((sourceOutcome hash builtAt job s).1.results
          ++ (sourceOutcome hash builtAt job s).2).any isFailRow
    rw [hr, hf, hinv, List.any_append]

theorem runSync_inv (hash : List Nat → String) (builtAt : String)
    (jobs : List SrcJob) (s0 : SyncState)
    (hinv : s0.hadFailure = s0.results.any isFailRow) :
    (jobs.foldl (fun acc j => processSource hash builtAt j acc) s0).hadFailure
      = ((jobs.foldl (fun acc j => processSource hash builtAt j acc) s0).results.any
          isFailRow) := by
  induction jobs generalizing s0 with
  | nil => exact hinv
  | cons j rest ih => exact ih _ (processSource_inv hash builtAt j s0 hinv)

/-- C8: the process exit status is non-zero only when at least one source
failed (a FAIL row was recorded) and strict-failure mode
(`FAIL_ON_EXTERNAL_ERROR=1`) was requested; the report always carries every
row and the count of FAIL rows, and when strict mode is off the process exits
0 even with failures recorded. -/
theorem C8_exit_strategy (hash : List Nat → String) (builtAt : String)
    (jobs : List SrcJob) (s0 : SyncState) (envFOE : String)
    (hinv : s0.hadFailure = s0.results.any isFailRow) :
    ((runSync hash builtAt jobs s0 envFOE).report.results
        = (runSync hash builtAt jobs s0 envFOE).final.results) ∧
    ((runSync hash builtAt jobs s0 envFOE).report.failures
        = ((runSync hash builtAt jobs s0 envFOE).final.results.filter isFailRow).length) ∧
    ((runSync hash builtAt jobs s0 envFOE).exitCode
        = (if ((runSync hash builtAt jobs s0 envFOE).final.results.any isFailRow)
              && (envFOE == "1") then 1 else 0)) ∧
    (envFOE ≠ "1" → (runSync hash builtAt jobs s0 envFOE).exitCode = 0) ∧
    ((runSync hash builtAt jobs s0 envFOE).exitCode ≠ 0 →
      ((runSync hash builtAt jobs s0 envFOE).final.results.any isFailRow) = true ∧
      envFOE = "1") := by
  have hrun := runSync_inv hash builtAt jobs s0 hinv
  refine ⟨rfl, rfl, ?_, ?_, ?_⟩
  · show (if (jobs.foldl (fun acc j => processSource hash builtAt j acc) s0).hadFailure
        && (envFOE == "1") then 1 else 0) = _
    rw [hrun]
    rfl
  · intro h
    have hb : (envFOE == "1") = false := beq_eq_false_iff_ne.mpr h
    show (if (jobs.foldl (fun acc j => processSource hash builtAt j acc) s0).hadFailure
        && (envFOE == "1") then 1 else 0) = 0
    rw [hb, Bool.and_false]
    rfl
  · intro h
    rw [show (runSync hash builtAt jobs s0 envFOE).exitCode
        = (if (jobs.foldl (fun acc j => processSource hash builtAt j acc) s0).hadFailure
            && (envFOE == "1") then 1 else 0) from rfl] at h
    by_cases hc : ((jobs.foldl (fun acc j => processSource hash builtAt j acc) s0).hadFailure
        && (envFOE == "1")) = true
    · obtain ⟨hc1, hc2⟩ := Bool.and_eq_true _ _ |>.mp hc
      exact ⟨hrun ▸ hc1, beq_iff_eq.mp hc2⟩
    · rw [if_neg hc] at h
      exact absurd rfl h

theorem C8_exit_strategy_witness :
    syncEmpty.hadFailure = syncEmpty.results.any isFailRow ∧
    (((runSync hashLen "B" [⟨srcSemverPlain, netFailMat⟩] syncEmpty "1").report.results
        = (runSync hashLen "B" [⟨srcSemverPlain, netFailMat⟩] syncEmpty "1").final.results) ∧
    ((runSync hashLen "B" [⟨srcSemverPlain, netFailMat⟩] syncEmpty "1").report.failures
        = ((runSync hashLen "B" [⟨srcSemverPlain, netFailMat⟩] syncEmpty
            "1").final.results.filter isFailRow).length) ∧
    ((runSync hashLen "B" [⟨srcSemverPlain, netFailMat⟩] syncEmpty "1").exitCode
        = (if ((runSync hashLen "B" [⟨srcSemverPlain, netFailMat⟩] syncEmpty
              "1").final.results.any isFailRow)
              && (("1" : String) == "1") then 1 else 0)) ∧
    (("1" : String) ≠ "1" →
      (runSync hashLen "B" [⟨srcSemverPlain, netFailMat⟩] syncEmpty "1").exitCode = 0) ∧
    ((runSync hashLen "B" [⟨srcSemverPlain, netFailMat⟩] syncEmpty "1").exitCode ≠ 0 →
      ((runSync hashLen "B" [⟨srcSemverPlain, netFailMat⟩] syncEmpty
          "1").final.results.any isFailRow) = true ∧
      ("1" : String) = "1")) :=
  ⟨by decide,
   C8_exit_strategy hashLen "B" [⟨srcSemverPlain, netFailMat⟩] syncEmpty "1" (by decide)⟩

theorem latestBlock_noop (hash : List Nat → String) (builtAt pkg : String)
    (src : SourceCfg) (net : NetEnv) (r : SemverResolved) (s : SyncState)
    (h : r.needLatest = false) :
    latestBlock hash builtAt pkg src net r s = ⟨s, [], none, false⟩ := by
  simp [latestBlock, h]

theorem stableBlock_noop (hash : List Nat → String) (builtAt pkg : String)
    (src : SourceCfg) (net : NetEnv) (r : SemverResolved) (s : SyncState)
    (h : r.needStable = false) :
    stableBlock hash builtAt pkg src net r s = ⟨s, [], none, false⟩ := by
  simp [stableBlock, h]

/-- Full case analysis of `publishFromRelease`: materialization throws, yields
no files, or publishes (in which case the resulting state is exactly the
publish plus the index update, with version/channel derived from the tag). -/
theorem pubFromRelease_cases (hash : List Nat → String) (builtAt : String)
    (src : SourceCfg) (net : NetEnv) (pkg repo : String) (rel : Release)
    (pname : String) (s : SyncState) :
    (∃ m, net.semverMaterialize rel pname = Except.error m ∧
      pubFromRelease hash builtAt src net pkg repo rel pname s
        = (s, PubOutcome.thrown m)) ∨
    (∃ files, net.semverMaterialize rel pname = Except.ok files ∧
      files.isEmpty = true ∧
      pubFromRelease hash builtAt src net pkg repo rel pname s
        = (s, PubOutcome.noFiles)) ∨
    (∃ files, net.semverMaterialize rel pname = Except.ok files ∧
      files.isEmpty = false ∧
      pubFromRelease hash builtAt src net pkg repo rel pname s
        = (applyUpdateIndexes
            (applyPublish hash builtAt s pkg
              (stripV (jsOrS rel.tag_name rel.name))
              (some (detectChannelFromVersion (stripV (jsOrS rel.tag_name rel.name))))
              (some (Upstream.release
                (if src.buildEnabled then "github-zipball-build" else "github-release")
                repo (jsOrS rel.tag_name rel.name) rel.html_url))
              src.meta files pname)
            pkg ("v" ++ stripV (jsOrS rel.tag_name rel.name))
            (some (detectChannelFromVersion (stripV (jsOrS rel.tag_name rel.name))))
            builtAt src.meta,
          PubOutcome.ok ((jsOrS rel.tag_name rel.name).getD "")
            (stripV (jsOrS rel.tag_name rel.name))
            (detectChannelFromVersion (stripV (jsOrS rel.tag_name rel.name)))
            files.length)) := by
  unfold pubFromRelease
  cases hm : net.semverMaterialize rel pname with
  | error m =>
    exact Or.inl ⟨m, rfl, by simp [hm]⟩
  | ok files =>
    cases hemp : files.isEmpty with
    | true =>
      exact Or.inr (Or.inl ⟨files, rfl, hemp, by simp [hm, hemp]⟩)
    | false =>
      exact Or.inr (Or.inr ⟨files, rfl, hemp, by simp [hm, hemp]⟩)

theorem hyphen_ne_of_contains {d v : String}
    (hd : d.data.contains '-' = false) (hv : v.data.contains '-' = true) :
    d ≠ ("v" ++ v) := by
  intro he
  rw [he] at hd
  have h2 : ("v" ++ v).data = 'v' :: v.data := rfl
  rw [h2] at hd
  have h3 : (('-' : Char) == 'v') = false := by decide
  rw [List.contains_cons, h3, Bool.false_or] at hd
  rw [hv] at hd
  exact absurd hd (by simp)

/-- C3 counterexample: a `release-assets-semver` source where only the beta
target changed (a new release whose hyphen-free tag `v2.0.0` carries the
GitHub `prerelease` flag; `needLatest` and `needStable` are false and
`needBeta` is true), yet the run rebuilds the `v2` alias directory and
rewrites the package's `last_stable` index entry, because
`publishFromRelease` derives the channel from the version string alone and
`2.0.0` has no hyphen, so this beta-triggered publish runs as channel
`stable`. -/
theorem C3_counterexample :
    semverResolve srcSemverPlain netC3a (pkgStateOf c3state "pkg")
      = SemverResolveOut.resolved c3aresolved ∧
    c3aresolved.needLatest = false ∧
    c3aresolved.needStable = false ∧
    c3aresolved.needBeta = true ∧
    lookupD (pubPkgDir (semverBranch hashLen "B2" "pkg" srcSemverPlain
        netC3a c3state).s "pkg") "v2"
      ≠ lookupD (pubPkgDir c3state "pkg") "v2" ∧
    (lookupD (semverBranch hashLen "B2" "pkg" srcSemverPlain
        netC3a c3state).s.index.globalIdx.packages "pkg").map (fun g => g.last_stable)
      ≠ (lookupD c3state.index.globalIdx.packages "pkg").map (fun g => g.last_stable) :=
  ⟨by decide, by decide, by decide, by decide, by decide, by decide⟩

theorem pubPkgDir_recordPkgState (s : SyncState) (pkg : String) (f : PkgState → PkgState)
    (pkg2 : String) : pubPkgDir (recordPkgState s pkg f) pkg2 = pubPkgDir s pkg2 := rfl

theorem pubPkgDir_applyUpdateIndexes (s : SyncState) (pkg version : String)
    (channel : Option String) (builtAt : String) (meta : Option String) (pkg2 : String) :
    pubPkgDir (applyUpdateIndexes s pkg version channel builtAt meta) pkg2
      = pubPkgDir s pkg2 := rfl

theorem pubPkgDir_applyPublish (hash : List Nat → String) (builtAt : String)
    (s : SyncState) (pkg version : String) (channel : Option String)
    (upstream : Option Upstream) (meta : Option String) (files : List FileInput)
    (up : String) :
    pubPkgDir (applyPublish hash builtAt s pkg version channel upstream meta files up) pkg
      = publishExternal hash (pubPkgDir s pkg) pkg version channel builtAt upstream meta
          files up := by
  show (lookupD (upsertD s.pub pkg _) pkg).getD [] = _
  rw [lookupD_upsertD_self]
  rfl

/-- C3 (amended): for a semver source where only the beta target changed
(`needBeta` true, `needLatest`/`needStable` false) and the beta release's
version string is hyphenated (a genuine prerelease spelling), the branch never
publishes the latest or stable targets; every package subdirectory whose name
is hyphen-free and not `@beta` — in particular `@latest`, `@stable`, and every
`v<major>`/`v<major>.<minor>` alias — keeps its exact contents; and when the
beta publish completes against a sorted version index that did not yet hold
this version id, the stored list is exactly the old list with the new beta
entry inserted (all prior entries retained) and the package's `last_stable`
global entry is recomputed to the same value the old list yields. -/
theorem C3_beta_frame_amended (hash : List Nat → String) (builtAt pkg : String)
    (src : SourceCfg) (net : NetEnv) (s : SyncState) (r : SemverResolved) (bp : ParsedRel)
    (hres : semverResolve src net (pkgStateOf s pkg) = SemverResolveOut.resolved r)
    (hL : r.needLatest = false) (hS : r.needStable = false) (hB : r.needBeta = true)
    (hbp : r.beta = some bp)
    (hhy : (stripV (jsOrS bp.rel.tag_name bp.rel.name)).data.contains '-' = true) :
    ((semverBranch hash builtAt pkg src net s).pubLatest = false) ∧
    ((semverBranch hash builtAt pkg src net s).pubStable = false) ∧
    (∀ d, d.data.contains '-' = false → d ≠ "@beta" →
      dirContents (pubPkgDir (semverBranch hash builtAt pkg src net s).s pkg) d
        = dirContents (pubPkgDir s pkg) d) ∧
    ((semverBranch hash builtAt pkg src net s).pubBeta = false →
      (semverBranch hash builtAt pkg src net s).s = s) ∧
    ((semverBranch hash builtAt pkg src net s).pubBeta = true →
      ((lookupD s.index.versionsIdx pkg).getD []).Pairwise
        (fun a b => ventLe a b = true) →
      (∀ v ∈ (lookupD s.index.versionsIdx pkg).getD [],
        v.version ≠ "v" ++ stripV (jsOrS bp.rel.tag_name bp.rel.name)) →
      lookupD (semverBranch hash builtAt pkg src net s).s.index.versionsIdx pkg
        = some (insertByLe ventLe
            ⟨"v" ++ stripV (jsOrS bp.rel.tag_name bp.rel.name), some "beta", builtAt⟩
            ((lookupD s.index.versionsIdx pkg).getD [])) ∧
      (lookupD (semverBranch hash builtAt pkg src net s).s.index.globalIdx.packages
          pkg).map (fun g => g.last_stable)
        = some (((lookupD s.index.versionsIdx pkg).getD []).find?
            (fun v => v.channel == some "stable"))) := by
  have hchan : detectChannelFromVersion (stripV (jsOrS bp.rel.tag_name bp.rel.name))
      = "beta" := by
    unfold detectChannelFromVersion
    rw [hhy]
    rfl
  have hnoop1 := latestBlock_noop hash builtAt pkg src net r s hL
  have hnoop2 := stableBlock_noop hash builtAt pkg src net r s hS
  have hout : semverBranch hash builtAt pkg src net s
      = ⟨(betaBlock hash builtAt pkg src net r s).s,
         (betaBlock hash builtAt pkg src net r s).rows,
         (betaBlock hash builtAt pkg src net r s).exc, false, false,
         (betaBlock hash builtAt pkg src net r s).published⟩ := by
    simp [semverBranch, hres, semverAfterResolve, hL, hS, hB, hnoop1, hnoop2]
  rcases pubFromRelease_cases hash builtAt src net pkg r.repo bp.rel "beta" s with
    ⟨m, hm, hpub⟩ | ⟨files, hm, hemp, hpub⟩ | ⟨files, hm, hemp, hpub⟩
  · have hbb : betaBlock hash builtAt pkg src net r s = ⟨s, [], some m, false⟩ := by
      simp [betaBlock, hB, hbp, hpub]
    refine ⟨by rw [hout], by rw [hout], ?_, ?_, ?_⟩
    · intro d hd1 hd2
      rw [hout, hbb]
    · intro _
      rw [hout, hbb]
    · intro hpb
      rw [hout, hbb] at hpb
      exact absurd hpb (by simp)
  · have hbb : betaBlock hash builtAt pkg src net r s
        = ⟨s, [mkRow pkg semverType (r.betaTag.getD "") "publish" "FAIL" noFilesReason],
           none, false⟩ := by
      simp [betaBlock, hB, hbp, hpub]
    refine ⟨by rw [hout], by rw [hout], ?_, ?_, ?_⟩
    · intro d hd1 hd2
      rw [hout, hbb]
    · intro _
      rw [hout, hbb]
    · intro hpb
      rw [hout, hbb] at hpb
      exact absurd hpb (by simp)
  · have hbb : betaBlock hash builtAt pkg src net r s
        = ⟨recordPkgState
             (applyUpdateIndexes
               (applyPublish hash builtAt s pkg
                 (stripV (jsOrS bp.rel.tag_name bp.rel.name))
                 (some (detectChannelFromVersion (stripV (jsOrS bp.rel.tag_name bp.rel.name))))
                 (some (Upstream.release
                   (if src.buildEnabled then "github-zipball-build" else "github-release")
                   r.repo (jsOrS bp.rel.tag_name bp.rel.name) bp.rel.html_url))
                 src.meta files "beta")
               pkg ("v" ++ stripV (jsOrS bp.rel.tag_name bp.rel.name))
               (some (detectChannelFromVersion (stripV (jsOrS bp.rel.tag_name bp.rel.name))))
               builtAt src.meta)
             pkg (fun p => { p with beta_key := r.betaKey, last_upstream_beta_tag := r.betaTag }),
           [mkRow pkg semverType (r.betaTag.getD "") "publish" "OK"
             ("@beta v" ++ stripV (jsOrS bp.rel.tag_name bp.rel.name) ++ " files="
               ++ toString files.length)], none, true⟩ := by
      simp [betaBlock, hB, hbp, hpub]
    refine ⟨by rw [hout], by rw [hout], ?_, ?_, ?_⟩
    · intro d hd1 hd2
      rw [hout, hbb]
      show dirContents (pubPkgDir (recordPkgState (applyUpdateIndexes (applyPublish hash
          builtAt s pkg (stripV (jsOrS bp.rel.tag_name bp.rel.name))
          (some (detectChannelFromVersion (stripV (jsOrS bp.rel.tag_name bp.rel.name))))
          (some (Upstream.release
            (if src.buildEnabled then "github-zipball-build" else "github-release")
            r.repo (jsOrS bp.rel.tag_name bp.rel.name) bp.rel.html_url))
          src.meta files "beta")
          pkg ("v" ++ stripV (jsOrS bp.rel.tag_name bp.rel.name))
          (some (detectChannelFromVersion (stripV (jsOrS bp.rel.tag_name bp.rel.name))))
          builtAt src.meta)
          pkg (fun p => { p with beta_key := r.betaKey, last_upstream_beta_tag := r.betaTag })) pkg) d
        = dirContents (pubPkgDir s pkg) d
      rw [pubPkgDir_recordPkgState, pubPkgDir_applyUpdateIndexes, pubPkgDir_applyPublish]
      rw [hchan]
      rw [publishExternal_shape_beta]
      dsimp only []
      rw [if_neg (by decide : ¬((some "beta" : Option String) = some "stable"))]
      rw [dirContents_upsertD_ne _ _ _ _ hd2]
      rw [dirContents_upsertD_ne _ _ _ _ (hyphen_ne_of_contains hd1 hhy)]
      rw [dirContents_ensureDir, dirContents_ensureDir, dirContents_ensureDir,
        dirContents_ensureDir]
    · intro hpb
      rw [hout, hbb] at hpb
      exact absurd hpb (by simp)
    · intro hpb hsort hnew
      have hfil : ((lookupD s.index.versionsIdx pkg).getD []).filter
          (fun v => v.version != "v" ++ stripV (jsOrS bp.rel.tag_name bp.rel.name))
          = (lookupD s.index.versionsIdx pkg).getD [] :=
        List.filter_eq_self.mpr (fun v hv => by simpa [bne_iff_ne] using hnew v hv)
      constructor
      · rw [hout, hbb]
        show lookupD (updateIndexes s.index pkg
            ("v" ++ stripV (jsOrS bp.rel.tag_name bp.rel.name))
            (some (detectChannelFromVersion (stripV (jsOrS bp.rel.tag_name bp.rel.name))))
            builtAt src.meta).versionsIdx pkg = _
        rw [hchan, updateIndexes_versions, hfil, stableSortBy_concat,
          stableSortBy_of_sorted ventLe _ hsort]
      · rw [hout, hbb]
        show (lookupD (updateIndexes s.index pkg
            ("v" ++ stripV (jsOrS bp.rel.tag_name bp.rel.name))
            (some (detectChannelFromVersion (stripV (jsOrS bp.rel.tag_name bp.rel.name))))
            builtAt src.meta).globalIdx.packages pkg).map (fun g => g.last_stable) = _
        rw [hchan, updateIndexes_global]
        dsimp only [Option.map]
        rw [hfil, stableSortBy_concat, stableSortBy_of_sorted ventLe _ hsort,
          find?_insertByLe_of_neg ventLe (fun v => v.channel == some "stable")
            ⟨"v" ++ stripV (jsOrS bp.rel.tag_name bp.rel.name), some "beta", builtAt⟩
            _ rfl]

theorem C3_beta_frame_amended_witness :
    semverResolve srcSemverPlain netC3b (pkgStateOf c3state "pkg")
      = SemverResolveOut.resolved c3bresolved ∧
    c3bresolved.needLatest = false ∧
    c3bresolved.needStable = false ∧
    c3bresolved.needBeta = true ∧
    c3bresolved.beta = some c3bp ∧
    (stripV (jsOrS c3bp.rel.tag_name c3bp.rel.name)).data.contains '-' = true ∧
    (((semverBranch hashLen "B2" "pkg" srcSemverPlain netC3b c3state).pubLatest = false) ∧
    ((semverBranch hashLen "B2" "pkg" srcSemverPlain netC3b c3state).pubStable = false) ∧
    (∀ d, d.data.contains '-' = false → d ≠ "@beta" →
      dirContents (pubPkgDir (semverBranch hashLen "B2" "pkg" srcSemverPlain netC3b
          c3state).s "pkg") d
        = dirContents (pubPkgDir c3state "pkg") d) ∧
    ((semverBranch hashLen "B2" "pkg" srcSemverPlain netC3b c3state).pubBeta = false →
      (semverBranch hashLen "B2" "pkg" srcSemverPlain netC3b c3state).s = c3state) ∧
    ((semverBranch hashLen "B2" "pkg" srcSemverPlain netC3b c3state).pubBeta = true →
      ((lookupD c3state.index.versionsIdx "pkg").getD []).Pairwise
        (fun a b => ventLe a b = true) →
      (∀ v ∈ (lookupD c3state.index.versionsIdx "pkg").getD [],
        v.version ≠ "v" ++ stripV (jsOrS c3bp.rel.tag_name c3bp.rel.name)) →
      lookupD (semverBranch hashLen "B2" "pkg" srcSemverPlain netC3b
          c3state).s.index.versionsIdx "pkg"
        = some (insertByLe ventLe
            ⟨"v" ++ stripV (jsOrS c3bp.rel.tag_name c3bp.rel.name), some "beta", "B2"⟩
            ((lookupD c3state.index.versionsIdx "pkg").getD [])) ∧
      (lookupD (semverBranch hashLen "B2" "pkg" srcSemverPlain netC3b
          c3state).s.index.globalIdx.packages "pkg").map (fun g => g.last_stable)
        = some (((lookupD c3state.index.versionsIdx "pkg").getD []).find?
            (fun v => v.channel == some "stable")))) :=
  ⟨by decide, by decide, by decide, by decide, by decide, by decide,
   C3_beta_frame_amended hashLen "B2" "pkg" srcSemverPlain netC3b c3state c3bresolved c3bp
     (by decide) (by decide) (by decide) (by decide) (by decide) (by decide)⟩

end CdnSync
